import Mathlib

/-!
# The indexing tree of `libtracker-miner`

A verification development for `src/libtracker-miner/tracker-indexing-tree.c`.

The C code keeps the configured indexing roots in a GLib `GNode` tree.  A `GNode`
carries `data`, a pointer to its first child (`children`) and a pointer to its next
sibling (`next`); the `parent` and `prev` pointers are back links.  The embedding below
keeps exactly the forward links: a value of type `GNode` is a `GNode *`, either `NULL`
or a node together with everything reachable through `children` and `next`.

A `GFile` is kept as the list of its path components below `file:///`.
-/

namespace Tracker

/-! ## Files -/

/-- A `GFile`, as the list of the components of its path (`file:///` is `[]`). -/
abbrev GFile := List String

/-- The function `g_file_equal`. -/
def g_file_equal (file1 file2 : GFile) : Bool :=
  file1 == file2

/-- The function `g_file_has_prefix (file, prefix)`: `file` lies strictly inside `pfx`
(a file is not a descendant of itself). -/
def g_file_has_prefix (file pfx : GFile) : Bool :=
  pfx.isPrefixOf file && !( g_file_equal file pfx)

/-- The function `g_file_has_parent (file, parent)` with a non-NULL `parent`: the
directory holding `file` is `parent`. -/
def g_file_has_parent (file parent : GFile) : Bool :=
  !file.isEmpty && g_file_equal file.dropLast parent

/-- The function `g_file_get_basename`: the last component (`/` for the top). -/
def g_file_get_basename (file : GFile) : String :=
  file.getLast?.getD "/"

/-! ## Directory flags -/

/-- Modelled from the spec: the header that declares `TrackerDirectoryFlags` is not
among the sources; the flags are a bitset, every flag one bit of its own. -/
def TRACKER_DIRECTORY_FLAG_NONE : Nat := 0

/-- Modelled from the spec: the `RECURSE` bit of `TrackerDirectoryFlags`. -/
def TRACKER_DIRECTORY_FLAG_RECURSE : Nat := 2

/-- Modelled from the spec: the `CHECK_MTIME` bit of `TrackerDirectoryFlags`. -/
def TRACKER_DIRECTORY_FLAG_CHECK_MTIME : Nat := 4

/-- Modelled from the spec: the `MONITOR` bit of `TrackerDirectoryFlags`. -/
def TRACKER_DIRECTORY_FLAG_MONITOR : Nat := 8

/-- Modelled from the spec: the `IGNORE` bit of `TrackerDirectoryFlags`. -/
def TRACKER_DIRECTORY_FLAG_IGNORE : Nat := 16

/-- Modelled from the spec: the `PRESERVE` bit of `TrackerDirectoryFlags`. -/
def TRACKER_DIRECTORY_FLAG_PRESERVE : Nat := 32

/-- Modelled from the spec: the `PRIVATE` bit of `TrackerDirectoryFlags`. -/
def TRACKER_DIRECTORY_FLAG_PRIVATE : Nat := 64

/-- Modelled from the spec: the `NO_STAT` bit of `TrackerDirectoryFlags`. -/
def TRACKER_DIRECTORY_FLAG_NO_STAT : Nat := 128

/-- The largest `guint`. -/
def G_MAXUINT : Nat := 4294967295

/-! ## Node data -/

/-- The struct `_NodeOwnerData`. -/
structure NodeOwnerData where
  name : String
  flags : Nat
deriving DecidableEq, Repr

/-- The struct `_NodeData`. -/
structure NodeData where
  file : GFile
  flags : Nat
  shallow : Bool
  owners : List NodeOwnerData
deriving DecidableEq, Repr

/-- A `GNode *`: `NULL`, or a node with its data, its first child and its next sibling. -/
inductive GNode where
  | null : GNode
  | node (data : NodeData) (children : GNode) (next : GNode) : GNode
deriving DecidableEq, Repr

/-- The three signals of the class. -/
inductive Signal where
  | directory_added (directory : GFile)
  | directory_removed (directory : GFile)
  | directory_updated (directory : GFile)
deriving DecidableEq, Repr

/-- The function `node_owner_data_new`. -/
def node_owner_data_new (name : String) (flags : Nat) : NodeOwnerData :=
  { name := name, flags := flags }

/-- The function `node_owner_match`: `g_strcmp0`, of which only "zero or not" is used. -/
def node_owner_match (owner_data : NodeOwnerData) (target_name : String) : Int :=
  if owner_data.name = target_name then 0 else 1

/-- The function `node_data_new`. -/
def node_data_new (file : GFile) (flags : Nat) (initial_owner : String) : NodeData :=
  let owner := node_owner_data_new initial_owner flags
  { file := file, flags := flags, shallow := false, owners := [owner] }

/-- The loop of `node_get_flags`: `flags |= owner_data->flags` over the owner list. -/
def node_get_flags_loop (flags : Nat) : List NodeOwnerData → Nat
  | [] => flags
  | owner_data :: rest => node_get_flags_loop (flags ||| owner_data.flags) rest

/-- The function `node_get_flags`. -/
def node_get_flags (data : NodeData) : Nat :=
  let flags := node_get_flags_loop 0 data.owners
  if flags &&& TRACKER_DIRECTORY_FLAG_IGNORE ≠ 0 then
    flags &&& (G_MAXUINT ^^^ TRACKER_DIRECTORY_FLAG_MONITOR)
  else
    flags

/-- The function `node_update_flags`: the node data afterwards and the signals emitted. -/
def node_update_flags (node_data : NodeData) : NodeData × List Signal :=
  let new_flags := node_get_flags node_data
  if node_data.flags ≠ new_flags then
    ({ node_data with flags := new_flags }, [Signal.directory_updated node_data.file])
  else
    (node_data, [])

/-- The function `g_list_find_custom` with `node_owner_match`: the position of the first
link whose owner compares equal (zero) to `target_name`. -/
def g_list_find_custom : List NodeOwnerData → String → Option Nat
  | [], _ => none
  | owner_data :: rest, target_name =>
    if node_owner_match owner_data target_name = 0 then some 0
    else (g_list_find_custom rest target_name).map (· + 1)

/-- The function `g_list_remove_link`: the list without the link at that position. -/
def g_list_remove_link (list : List NodeOwnerData) (link : Nat) : List NodeOwnerData :=
  list.eraseIdx link

/-! ## Walking and changing the tree -/

/-- What the code reads through a `GNode *` returned by `find_directory_node`:
`node->parent` (its data, when there is one), `node->data`, `node->children` and
`node->next`. -/
structure FoundNode where
  parent : Option NodeData
  data : NodeData
  children : GNode
  next : GNode
deriving DecidableEq, Repr

/-- The traversal of `find_directory_node`: `g_node_traverse` in `G_POST_ORDER` over
`node` and the siblings after it, children first and from left to right, stopping at
the first node for which `find_node_foreach` returns `TRUE`, that is for which
`func (file, node_data->file)` holds. -/
def find_directory_node_from (parent : Option NodeData) :
    GNode → GFile → (GFile → GFile → Bool) → Option FoundNode
  | .null, _, _ => none
  | .node data children next, file, func =>
    match find_directory_node_from (some data) children file func with
    | some found => some found
    | none =>
      if func file data.file then
        some { parent := parent, data := data, children := children, next := next }
      else
        find_directory_node_from parent next file func

/-- The node that a found pointer points at, with all below and after it. -/
def FoundNode.node (found : FoundNode) : GNode :=
  .node found.data found.children found.next

/-- The function `find_directory_node`, called on the top of the tree. -/
def find_directory_node (node : GNode) (file : GFile) (func : GFile → GFile → Bool) :
    Option FoundNode :=
  find_directory_node_from none node file func

/-- A store through the pointer that `find_directory_node node file func` returns: the
node found, with all that hangs below and after it, is replaced by `repl`. -/
def g_node_replace_found : GNode → GFile → (GFile → GFile → Bool) → GNode → GNode
  | .null, _, _, _ => .null
  | .node data children next, file, func, repl =>
    match find_directory_node children file func with
    | some _ => .node data (g_node_replace_found children file func repl) next
    | none =>
      if func file data.file then repl
      else .node data children (g_node_replace_found next file func repl)

/-- The function `g_node_append` on sibling chains: `node` goes after the last sibling. -/
def g_node_append : GNode → GNode → GNode
  | .null, node => node
  | .node data children next, node => .node data children (g_node_append next node)

/-- The children that `g_node_children_foreach` with `check_reparent_node` unlinks and
appends under `new_node`: those whose file has the file of `new_node` as prefix, in
their order, each with its own subtree. -/
def check_reparent_node_moved (new_node_file : GFile) : GNode → GNode
  | .null => .null
  | .node data children next =>
    if g_file_has_prefix data.file new_node_file then
      .node data children (check_reparent_node_moved new_node_file next)
    else
      check_reparent_node_moved new_node_file next

/-- The children that `g_node_children_foreach` with `check_reparent_node` leaves where
they are. -/
def check_reparent_node_kept (new_node_file : GFile) : GNode → GNode
  | .null => .null
  | .node data children next =>
    if g_file_has_prefix data.file new_node_file then
      check_reparent_node_kept new_node_file next
    else
      .node data children (check_reparent_node_kept new_node_file next)

/-! ## Filters -/

/-- The enum `TrackerFilterType`. -/
inductive TrackerFilterType where
  | TRACKER_FILTER_FILE
  | TRACKER_FILTER_DIRECTORY
  | TRACKER_FILTER_PARENT_DIRECTORY
deriving DecidableEq, Repr

/-- The enum `TrackerFilterPolicy`. -/
inductive TrackerFilterPolicy where
  | TRACKER_FILTER_POLICY_DENY
  | TRACKER_FILTER_POLICY_ACCEPT
deriving DecidableEq, Repr

/-- The enum `GFileType`. -/
inductive GFileType where
  | G_FILE_TYPE_UNKNOWN
  | G_FILE_TYPE_REGULAR
  | G_FILE_TYPE_DIRECTORY
  | G_FILE_TYPE_SYMBOLIC_LINK
  | G_FILE_TYPE_SPECIAL
  | G_FILE_TYPE_SHORTCUT
  | G_FILE_TYPE_MOUNTABLE
deriving DecidableEq, Repr

/-- The struct `_PatternData`; `pattern` is the glob string the `GPatternSpec` was
compiled from, `file` is only filled in for absolute paths. -/
structure PatternData where
  pattern : String
  type : TrackerFilterType
  file : Option GFile
deriving DecidableEq, Repr

/-- What the engine asks of code outside this file: glob matching
(`g_pattern_match_string`), the file type probe (`g_file_query_file_type`) and
`tracker_file_is_hidden`. -/
structure Collaborators where
  g_pattern_match_string : String → String → Bool
  g_file_query_file_type : GFile → GFileType
  tracker_file_is_hidden : GFile → Bool

/-- The struct `_TrackerIndexingTreePrivate`. -/
structure TrackerIndexingTreePrivate where
  config_tree : GNode
  filter_patterns : List PatternData
  policies : TrackerFilterType → TrackerFilterPolicy
  root : GFile
  filter_hidden : Bool

/-- The functions `tracker_indexing_tree_init` and `tracker_indexing_tree_constructed`,
as run by `tracker_indexing_tree_new_with_root`: all policies accept, and the tree is
one shallow node for the root, `file:///` when no root is given. -/
def tracker_indexing_tree_new_with_root (root : Option GFile) : TrackerIndexingTreePrivate :=
  let root := root.getD []
  let data := { node_data_new root 0 "TrackerIndexingTree" with shallow := true }
  { config_tree := .node data .null .null
    filter_patterns := []
    policies := fun _ => .TRACKER_FILTER_POLICY_ACCEPT
    root := root
    filter_hidden := false }

/-- The function `tracker_indexing_tree_new`. -/
def tracker_indexing_tree_new : TrackerIndexingTreePrivate :=
  tracker_indexing_tree_new_with_root none

/-! ## Adding and removing roots -/

/-- The function `tracker_indexing_tree_add`: the engine afterwards and the signals
emitted.  When no node contains `directory` (it lies outside the master root) the
parent is `NULL`: `g_node_children_foreach` and `g_node_append` return at their
argument checks, the new node stays outside the tree and the signal is still emitted. -/
def tracker_indexing_tree_add (priv : TrackerIndexingTreePrivate) (directory : GFile)
    (flags : Nat) (owner : String) : TrackerIndexingTreePrivate × List Signal :=
  match find_directory_node priv.config_tree directory g_file_equal with
  | some node =>
    let data := { node.data with
      shallow := false
      owners := node_owner_data_new owner flags :: node.data.owners }
    let updated := node_update_flags data
    ({ priv with
        config_tree := g_node_replace_found priv.config_tree directory g_file_equal
          (.node updated.1 node.children node.next) },
      updated.2)
  | none =>
    match find_directory_node priv.config_tree directory g_file_has_prefix with
    | none => (priv, [Signal.directory_added directory])
    | some parent =>
      let data := node_data_new directory flags owner
      let node := GNode.node data (check_reparent_node_moved directory parent.children) .null
      let children := g_node_append (check_reparent_node_kept directory parent.children) node
      ({ priv with
          config_tree := g_node_replace_found priv.config_tree directory g_file_has_prefix
            (.node parent.data children parent.next) },
        [Signal.directory_added directory])

/-- The function `tracker_indexing_tree_remove`: the engine afterwards and the signals
emitted. -/
def tracker_indexing_tree_remove (priv : TrackerIndexingTreePrivate) (directory : GFile)
    (owner : String) : TrackerIndexingTreePrivate × List Signal :=
  match find_directory_node priv.config_tree directory g_file_equal with
  | none => (priv, [])
  | some node =>
    match g_list_find_custom node.data.owners owner with
    | none => (priv, [])
    | some owner_list_item =>
      let data := { node.data with
        owners := g_list_remove_link node.data.owners owner_list_item }
      if data.owners.length = 0 then
        match node.parent with
        | none =>
          ({ priv with
              config_tree := g_node_replace_found priv.config_tree directory g_file_equal
                (.node { data with shallow := true } node.children node.next) },
            [])
        | some parent =>
          ({ priv with
              config_tree := g_node_replace_found priv.config_tree directory g_file_equal
                (g_node_append node.next
                  (check_reparent_node_moved parent.file node.children)) },
            [Signal.directory_removed data.file])
      else
        let updated := node_update_flags data
        ({ priv with
            config_tree := g_node_replace_found priv.config_tree directory g_file_equal
              (.node updated.1 node.children node.next) },
          updated.2)

/-! ## Adding filters -/

/-- GLib's `g_path_is_absolute`, as it is on Unix: the name starts with a slash. -/
def g_path_is_absolute (file_name : String) : Bool :=
  file_name.toList.head? == some '/'

/-- GLib's `g_file_new_for_path` on an absolute path, which makes the path canonical:
the components between the slashes, where an empty component and `.` are dropped and
`..` takes the component before it away (never the root).  A path that starts with
exactly two slashes is kept apart from the same path with one slash, as POSIX allows
and GLib does: it names a file below the root `//`, which lies inside `/`, has the
basename `/`, and is kept here as a first component `/`, a name that no directory
entry has.  Three slashes or more at the start count as one.  Of the operations on
files only `g_file_equal` and `g_file_has_prefix` are applied to a file made here. -/
def g_file_new_for_path (path : String) : GFile :=
  let components := (path.toList.splitOn '/').foldl
    (fun file component =>
      if component = [] ∨ component = ['.'] then file
      else if component = ['.', '.'] then file.dropLast
      else file ++ [String.mk component])
    []
  if (path.toList.takeWhile (· = '/')).length = 2 then "/" :: components else components

/-- The function `pattern_data_new`; the compiled `GPatternSpec` is kept as the glob
string it was compiled from. -/
def pattern_data_new (glob_string : String) (type : TrackerFilterType) : PatternData :=
  { pattern := glob_string
    type := type
    file := if g_path_is_absolute glob_string then some (g_file_new_for_path glob_string)
      else none }

/-- The function `tracker_indexing_tree_add_filter`, for a `glob_string` that is not
`NULL`. -/
def tracker_indexing_tree_add_filter (priv : TrackerIndexingTreePrivate)
    (filter : TrackerFilterType) (glob_string : String) : TrackerIndexingTreePrivate :=
  let data := pattern_data_new glob_string filter
  { priv with filter_patterns := data :: priv.filter_patterns }

/-! ## Clearing filters -/

/-- The loop of `tracker_indexing_tree_clear_filters`, from the moment the loop test is
made.  `l` is the position in `filter_patterns` of the link that the C variable `l`
points at, and a position past the end stands for `NULL`.  When the entry at `l` has
the type asked for, the link is deleted and `l` is set to the new head of the list;
then the increment of the `for` loop reads `l->next`: of a `NULL` head when the list
has become empty, for which there is no result (`none`), and otherwise it moves on to
the second link.  When the entry has another type the increment moves one link on. -/
def tracker_indexing_tree_clear_filters_loop (type : TrackerFilterType) :
    List PatternData → Nat → Option (List PatternData)
  | filter_patterns, l =>
    if h : l < filter_patterns.length then
      if (filter_patterns.get ⟨l, h⟩).type = type then
        if (filter_patterns.eraseIdx l).isEmpty then none
        else tracker_indexing_tree_clear_filters_loop type (filter_patterns.eraseIdx l) 1
      else tracker_indexing_tree_clear_filters_loop type filter_patterns (l + 1)
    else some filter_patterns
termination_by filter_patterns l => (filter_patterns.length, filter_patterns.length - l)
decreasing_by
  · left
    rw [List.length_eraseIdx]
    simp only [h, if_true]
    omega
  · right
    omega

/-- The function `tracker_indexing_tree_clear_filters`: the engine afterwards, or `none`
when the loop reads through a `NULL` pointer. -/
def tracker_indexing_tree_clear_filters (priv : TrackerIndexingTreePrivate)
    (type : TrackerFilterType) : Option TrackerIndexingTreePrivate :=
  (tracker_indexing_tree_clear_filters_loop type priv.filter_patterns 0).map
    fun filter_patterns => { priv with filter_patterns := filter_patterns }

/-! ## Queries -/

/-- The function `tracker_indexing_tree_file_matches_filter`. -/
def tracker_indexing_tree_file_matches_filter (env : Collaborators)
    (priv : TrackerIndexingTreePrivate) (type : TrackerFilterType) (file : GFile) : Bool :=
  let basename := g_file_get_basename file
  priv.filter_patterns.any fun data =>
    data.type = type &&
      ((match data.file with
        | some data_file => g_file_equal file data_file || g_file_has_prefix file data_file
        | none => false) ||
       env.g_pattern_match_string data.pattern basename)

/-- The function `parent_or_equals`. -/
def parent_or_equals (file1 file2 : GFile) : Bool :=
  g_file_equal file1 file2 || g_file_has_prefix file1 file2

/-- The function `indexing_tree_file_is_filtered`. -/
def indexing_tree_file_is_filtered (env : Collaborators) (priv : TrackerIndexingTreePrivate)
    (filter : TrackerFilterType) (file : GFile) : Bool :=
  if tracker_indexing_tree_file_matches_filter env priv filter file then
    if priv.policies filter = .TRACKER_FILTER_POLICY_ACCEPT then true else false
  else
    if priv.policies filter = .TRACKER_FILTER_POLICY_DENY then true else false

/-- The function `tracker_indexing_tree_get_filter_hidden`. -/
def tracker_indexing_tree_get_filter_hidden (priv : TrackerIndexingTreePrivate) : Bool :=
  priv.filter_hidden

/-- The function `tracker_indexing_tree_get_root`: the returned file (`none` for `NULL`)
and the value left in `directory_flags`. -/
def tracker_indexing_tree_get_root (priv : TrackerIndexingTreePrivate) (file : GFile) :
    Option GFile × Nat :=
  match find_directory_node priv.config_tree file parent_or_equals with
  | none => (none, TRACKER_DIRECTORY_FLAG_NONE)
  | some parent =>
    let data := parent.data
    if !data.shallow && (g_file_equal file data.file || g_file_has_prefix file data.file) then
      (some data.file, data.flags)
    else
      (none, TRACKER_DIRECTORY_FLAG_NONE)

/-- The function `tracker_indexing_tree_file_is_indexable`. -/
def tracker_indexing_tree_file_is_indexable (env : Collaborators)
    (priv : TrackerIndexingTreePrivate) (file : GFile) (file_type : GFileType) : Bool :=
  match tracker_indexing_tree_get_root priv file with
  | (none, _) => false
  | (some config_file, config_flags) =>
    let filtered :=
      if file_type = .G_FILE_TYPE_UNKNOWN ∧
          config_flags &&& TRACKER_DIRECTORY_FLAG_NO_STAT ≠ 0 then
        let file_type := env.g_file_query_file_type file
        let filter := if file_type = .G_FILE_TYPE_DIRECTORY then
          TrackerFilterType.TRACKER_FILTER_DIRECTORY else TrackerFilterType.TRACKER_FILTER_FILE
        indexing_tree_file_is_filtered env priv filter file
      else if file_type ≠ .G_FILE_TYPE_UNKNOWN then
        let filter := if file_type = .G_FILE_TYPE_DIRECTORY then
          TrackerFilterType.TRACKER_FILTER_DIRECTORY else TrackerFilterType.TRACKER_FILTER_FILE
        indexing_tree_file_is_filtered env priv filter file
      else
        false
    if filtered then false
    else if config_flags &&& TRACKER_DIRECTORY_FLAG_IGNORE ≠ 0 then false
    else if g_file_equal file config_file then true
    else if config_flags &&& TRACKER_DIRECTORY_FLAG_RECURSE = 0 ∧
        ¬ g_file_has_parent file config_file then false
    else if tracker_indexing_tree_get_filter_hidden priv ∧
        env.tracker_file_is_hidden file then false
    else true

/-- The function `tracker_indexing_tree_file_is_root`. -/
def tracker_indexing_tree_file_is_root (priv : TrackerIndexingTreePrivate) (file : GFile) :
    Bool :=
  (find_directory_node priv.config_tree file g_file_equal).isSome

/-- The loop of `tracker_indexing_tree_parent_is_indexable` over `children`. -/
def tracker_indexing_tree_parent_is_indexable_loop (env : Collaborators)
    (priv : TrackerIndexingTreePrivate) : List GFile → Bool
  | [] => true
  | child :: children =>
    if indexing_tree_file_is_filtered env priv .TRACKER_FILTER_PARENT_DIRECTORY child then
      false
    else tracker_indexing_tree_parent_is_indexable_loop env priv children

/-- The function `tracker_indexing_tree_parent_is_indexable`. -/
def tracker_indexing_tree_parent_is_indexable (env : Collaborators)
    (priv : TrackerIndexingTreePrivate) (parent : GFile) (children : List GFile) : Bool :=
  if !tracker_indexing_tree_file_is_indexable env priv parent .G_FILE_TYPE_DIRECTORY then
    false
  else tracker_indexing_tree_parent_is_indexable_loop env priv children

/-- The function `tracker_indexing_tree_set_filter_hidden`; the `notify` it sends for the
property `filter-hidden` is not one of the signals of the tree and is not kept. -/
def tracker_indexing_tree_set_filter_hidden (priv : TrackerIndexingTreePrivate)
    (filter_hidden : Bool) : TrackerIndexingTreePrivate :=
  { priv with filter_hidden := filter_hidden }

/-- The function `tracker_indexing_tree_set_default_policy`; every value of
`TrackerFilterType` lies between `TRACKER_FILTER_FILE` and
`TRACKER_FILTER_PARENT_DIRECTORY`, so the range check passes. -/
def tracker_indexing_tree_set_default_policy (priv : TrackerIndexingTreePrivate)
    (filter : TrackerFilterType) (policy : TrackerFilterPolicy) :
    TrackerIndexingTreePrivate :=
  { priv with policies := fun i => if i = filter then policy else priv.policies i }

/-- The function `tracker_indexing_tree_get_default_policy`. -/
def tracker_indexing_tree_get_default_policy (priv : TrackerIndexingTreePrivate)
    (filter : TrackerFilterType) : TrackerFilterPolicy :=
  priv.policies filter

/-! ## Looking at a tree -/

/-- The node data met by `g_node_traverse` in `G_POST_ORDER` over `node` and the
siblings after it. -/
def GNode.datas : GNode → List NodeData
  | .null => []
  | .node data children next => children.datas ++ data :: next.datas

/-- The data of the nodes of a sibling chain themselves, without their descendants. -/
def GNode.siblings : GNode → List NodeData
  | .null => []
  | .node data _ next => data :: next.siblings

/-- Every node paired with its parent, `(node->parent->data, node->data)`, met in post
order over the chain `node` whose members have the parent `parent` (`none`: no parent). -/
def GNode.edges (parent : Option NodeData) : GNode → List (Option NodeData × NodeData)
  | .null => []
  | .node data children next =>
    GNode.edges (some data) children ++ (parent, data) :: GNode.edges parent next

/-- The edges strictly below the members of a chain: every node that is not itself a
member of the chain, paired with its parent. -/
def GNode.deep_edges : GNode → List (Option NodeData × NodeData)
  | .null => []
  | .node data children next => GNode.edges (some data) children ++ GNode.deep_edges next

/-- The same tree with `f` applied to the data of every node. -/
def GNode.map (f : NodeData → NodeData) : GNode → GNode
  | .null => .null
  | .node data children next => .node (f data) (GNode.map f children) (GNode.map f next)

/-- The shape the code keeps up for a sibling chain and all below it: the file of every
child lies strictly inside the file of its parent, and no sibling equals or contains
another sibling. -/
def GNode.WF : GNode → Prop
  | .null => True
  | .node data children next =>
    (∀ x ∈ children.siblings, g_file_has_prefix x.file data.file = true) ∧
    (∀ y ∈ next.siblings,
      parent_or_equals data.file y.file = false ∧ parent_or_equals y.file data.file = false) ∧
    GNode.WF children ∧ GNode.WF next

/-- The engines that can be met: a freshly constructed one, and whatever `add` and
`remove` make of it; the filters, the policies and the hidden toggle may be anything,
since nothing that sets them touches the tree or the root. -/
inductive Reachable : TrackerIndexingTreePrivate → Prop
  | constructed (root : Option GFile) : Reachable (tracker_indexing_tree_new_with_root root)
  | add {priv : TrackerIndexingTreePrivate} (h : Reachable priv) (directory : GFile)
      (flags : Nat) (owner : String) :
      Reachable (tracker_indexing_tree_add priv directory flags owner).1
  | remove {priv : TrackerIndexingTreePrivate} (h : Reachable priv) (directory : GFile)
      (owner : String) :
      Reachable (tracker_indexing_tree_remove priv directory owner).1
  | settings {priv : TrackerIndexingTreePrivate} (h : Reachable priv)
      (filter_patterns : List PatternData)
      (policies : TrackerFilterType → TrackerFilterPolicy) (filter_hidden : Bool) :
      Reachable { priv with
        filter_patterns := filter_patterns
        policies := policies
        filter_hidden := filter_hidden }

/-- What holds of every engine that can be met: the tree is one top node for the root,
without siblings; every node below it is not shallow and has an owner; and the tree
has the shape `GNode.WF`. -/
structure Inv (priv : TrackerIndexingTreePrivate) : Prop where
  top : ∃ data children, priv.config_tree = .node data children .null ∧
    data.file = priv.root ∧ ∀ x ∈ children.datas, x.shallow = false ∧ x.owners ≠ []
  wf : priv.config_tree.WF

/-- Every node with its address: the positions, counted among the siblings, that lead
from the top to it.  `up` is the address of the parent and `i` the position of `node`
among its siblings. -/
def GNode.addresses (up : List Nat) (i : Nat) : GNode → List (List Nat × NodeData)
  | .null => []
  | .node data children next =>
    GNode.addresses (up ++ [i]) 0 children ++
      (up ++ [i], data) :: GNode.addresses up (i + 1) next

/-- The function `tracker_indexing_tree_list_roots`: `prepend_config_root` puts every
node met in post order in front of the list. -/
def tracker_indexing_tree_list_roots (priv : TrackerIndexingTreePrivate) : List GFile :=
  (priv.config_tree.datas.map (·.file)).reverse

/-! ## Scenarios of the specification -/

/-- Scenario 3, first step: `/a/b` is added, recursive, on a fresh tree. -/
def scenario_a_b : TrackerIndexingTreePrivate :=
  (tracker_indexing_tree_add tracker_indexing_tree_new ["a", "b"]
    TRACKER_DIRECTORY_FLAG_RECURSE "o1").1

/-- Scenario 3, add-time reparenting: `/a/b` is added and then `/a`, both recursive. -/
def scenario_reparent : TrackerIndexingTreePrivate :=
  (tracker_indexing_tree_add scenario_a_b ["a"] TRACKER_DIRECTORY_FLAG_RECURSE "o2").1

/-- The node for `/a` in `scenario_reparent`. -/
def scenario_reparent_a : NodeData :=
  { file := ["a"], flags := 2, shallow := false, owners := [{ name := "o2", flags := 2 }] }

/-- The node for `/a/b` in `scenario_reparent`. -/
def scenario_reparent_a_b : NodeData :=
  { file := ["a", "b"], flags := 2, shallow := false, owners := [{ name := "o1", flags := 2 }] }

/-- Collaborators for the scenarios: no glob matches, every file probed is a regular
file, and a file is hidden when its last component starts with a dot. -/
def scenario_collaborators : Collaborators :=
  { g_pattern_match_string := fun _ _ => false
    g_file_query_file_type := fun _ => .G_FILE_TYPE_REGULAR
    tracker_file_is_hidden := fun file => (g_file_get_basename file).startsWith "." }

/-- Scenario 1, a root that does not recurse: `/a` is added without flags. -/
def scenario_non_recursive : TrackerIndexingTreePrivate :=
  (tracker_indexing_tree_add tracker_indexing_tree_new ["a"] TRACKER_DIRECTORY_FLAG_NONE
    "cfg").1

/-- A root added on a fresh tree by one owner that asks for `IGNORE` and `MONITOR`
together. -/
def scenario_ignore_monitor : TrackerIndexingTreePrivate :=
  (tracker_indexing_tree_add tracker_indexing_tree_new ["a"]
    (TRACKER_DIRECTORY_FLAG_IGNORE ||| TRACKER_DIRECTORY_FLAG_MONITOR) "o").1

/-- Scenario 4, first step: `/x` is added by `o1` with `MONITOR`. -/
def scenario_x_o1 : TrackerIndexingTreePrivate :=
  (tracker_indexing_tree_add tracker_indexing_tree_new ["x"] TRACKER_DIRECTORY_FLAG_MONITOR
    "o1").1

/-- Scenario 4, second step: `/x` is added again, by `o2` with `RECURSE`. -/
def scenario_x_o1_o2 : TrackerIndexingTreePrivate :=
  (tracker_indexing_tree_add scenario_x_o1 ["x"] TRACKER_DIRECTORY_FLAG_RECURSE "o2").1

/-- The node for `/x` in `scenario_x_o1`. -/
def scenario_x_o1_node : NodeData :=
  { file := ["x"], flags := 8, shallow := false, owners := [{ name := "o1", flags := 8 }] }

/-- The node for `/x` in `scenario_x_o1_o2`. -/
def scenario_x_o1_o2_node : NodeData :=
  { file := ["x"], flags := 10, shallow := false,
    owners := [{ name := "o2", flags := 2 }, { name := "o1", flags := 8 }] }

/-- The master root of a fresh tree with the default root, as `constructed` makes it. -/
def scenario_fresh_root : NodeData :=
  { file := [], flags := 0, shallow := true, owners := [{ name := "TrackerIndexingTree", flags := 0 }] }

/-- The master root is added as an indexing root by `o` on a fresh tree, and removed
again by `o`. -/
def scenario_root_added_removed : TrackerIndexingTreePrivate :=
  (tracker_indexing_tree_remove
    (tracker_indexing_tree_add tracker_indexing_tree_new [] TRACKER_DIRECTORY_FLAG_RECURSE
      "o").1
    [] "o").1

/-- A file filter for `*.a`, as `add_filter (FILE, "*.a")` makes it. -/
def scenario_filter_a : PatternData :=
  { pattern := "*.a", type := .TRACKER_FILTER_FILE, file := none }

/-- A file filter for `*.b`, as `add_filter (FILE, "*.b")` makes it. -/
def scenario_filter_b : PatternData :=
  { pattern := "*.b", type := .TRACKER_FILTER_FILE, file := none }

/-- A fresh engine after `add_filter (FILE, "*.b")` and `add_filter (FILE, "*.a")`. -/
def scenario_two_file_filters : TrackerIndexingTreePrivate :=
  { tracker_indexing_tree_new with filter_patterns := [scenario_filter_a, scenario_filter_b] }

/-- Collaborators that read a glob `*suffix` as "ends in `suffix`" and any other glob as
the string itself. -/
def scenario_suffix_collaborators : Collaborators :=
  { g_pattern_match_string := fun pattern string =>
      match pattern.toList with
      | '*' :: suffix => suffix.isSuffixOf string.toList
      | literal => literal == string.toList
    g_file_query_file_type := fun _ => .G_FILE_TYPE_REGULAR
    tracker_file_is_hidden := fun _ => false }

/-- Scenario 5, `IGNORE` overrides `MONITOR`: `/x` is added by `app` with `MONITOR` and
then by `user` with `IGNORE`. -/
def scenario_ignore : TrackerIndexingTreePrivate :=
  (tracker_indexing_tree_add
    (tracker_indexing_tree_add tracker_indexing_tree_new ["x"] TRACKER_DIRECTORY_FLAG_MONITOR
      "app").1
    ["x"] TRACKER_DIRECTORY_FLAG_IGNORE "user").1

/-- The node for `/x` in `scenario_ignore`. -/
def scenario_ignore_node : NodeData :=
  { file := ["x"], flags := 16, shallow := false,
    owners := [{ name := "user", flags := 16 }, { name := "app", flags := 8 }] }

/-- GLib's `g_pattern_match_string` read on the characters of the glob and of the
string: `*` stands for any run of characters, `?` for one character, and every other
character for itself. -/
def g_pattern_match_chars : List Char → List Char → Bool
  | [], string => string.isEmpty
  | c :: pattern, string =>
    if c = '*' then string.tails.any (g_pattern_match_chars pattern)
    else
      match string with
      | [] => false
      | d :: rest => (c = '?' || c == d) && g_pattern_match_chars pattern rest

/-- Collaborators that match globs as `g_pattern_match_chars` does, probe every file as
a regular file and call a file hidden when its basename begins with a dot. -/
def scenario_glob_collaborators : Collaborators :=
  { g_pattern_match_string := fun pattern string =>
      g_pattern_match_chars pattern.toList string.toList
    g_file_query_file_type := fun _ => .G_FILE_TYPE_REGULAR
    tracker_file_is_hidden := fun file => (g_file_get_basename file).toList.head? == some '.' }

/-- The engine after the `add_filter` calls listed in `adds`, made in that order. -/
def add_filters (priv : TrackerIndexingTreePrivate) (adds : List (TrackerFilterType × String)) :
    TrackerIndexingTreePrivate :=
  adds.foldl (fun priv a => tracker_indexing_tree_add_filter priv a.1 a.2) priv

/-- Scenario 6: `/a` is added, recursive, and the parent directory filter `.nobackup`. -/
def scenario_nobackup : TrackerIndexingTreePrivate :=
  tracker_indexing_tree_add_filter
    (tracker_indexing_tree_add tracker_indexing_tree_new ["a"] TRACKER_DIRECTORY_FLAG_RECURSE
      "cfg").1
    .TRACKER_FILTER_PARENT_DIRECTORY ".nobackup"

/-- Modelled from the spec: `tracker_file_is_hidden` is not part of this file; the
specification calls a path hidden when its basename begins with `.` (or when a hidden
attribute of the platform is set).  What is asked of the collaborators here is that
they report every file whose basename begins with `.` as hidden. -/
def HiddenBasenames (env : Collaborators) : Prop :=
  ∀ file : GFile, (g_file_get_basename file).toList.head? = some '.' →
    env.tracker_file_is_hidden file = true

/-- A fresh engine to which `/a` is added, recursive, by `cfg`. -/
def scenario_recursive : TrackerIndexingTreePrivate :=
  (tracker_indexing_tree_add tracker_indexing_tree_new ["a"] TRACKER_DIRECTORY_FLAG_RECURSE
    "cfg").1

/-- The node for `/a` in `scenario_recursive`. -/
def scenario_recursive_node : NodeData :=
  { file := ["a"], flags := 2, shallow := false, owners := [{ name := "cfg", flags := 2 }] }

/-- Scenario 2: `/a` is added, recursive, and the file filter `*.tmp`. -/
def scenario_tmp_filter : TrackerIndexingTreePrivate :=
  tracker_indexing_tree_add_filter scenario_recursive .TRACKER_FILTER_FILE "*.tmp"

/-- The root `/a`, recursive, and a directory filter `a`, which matches the basename of
the root itself. -/
def scenario_filtered_root : TrackerIndexingTreePrivate :=
  tracker_indexing_tree_add_filter scenario_recursive .TRACKER_FILTER_DIRECTORY "a"

/-- The root `/a`, recursive, with the hidden toggle on. -/
def scenario_hidden : TrackerIndexingTreePrivate :=
  tracker_indexing_tree_set_filter_hidden scenario_recursive true

/-- The root `/a` added with `RECURSE` and `NO_STAT`, and the file filter `*.tmp`. -/
def scenario_no_stat : TrackerIndexingTreePrivate :=
  tracker_indexing_tree_add_filter
    (tracker_indexing_tree_add tracker_indexing_tree_new ["a"]
      (TRACKER_DIRECTORY_FLAG_RECURSE ||| TRACKER_DIRECTORY_FLAG_NO_STAT) "cfg").1
    .TRACKER_FILTER_FILE "*.tmp"

/-- The collaborators `scenario_glob_collaborators`, except that every file probed is a
directory. -/
def scenario_directory_collaborators : Collaborators :=
  { scenario_glob_collaborators with g_file_query_file_type := fun _ => .G_FILE_TYPE_DIRECTORY }

/-- A fresh engine with the single file filter `*.a`, as `add_filter (FILE, "*.a")` makes
it. -/
def scenario_one_file_filter : TrackerIndexingTreePrivate :=
  tracker_indexing_tree_add_filter tracker_indexing_tree_new .TRACKER_FILTER_FILE "*.a"

/-- A fresh engine whose master root is `/home`. -/
def scenario_home : TrackerIndexingTreePrivate :=
  tracker_indexing_tree_new_with_root (some ["home"])

/-- The derived flags in the words of the specification: the OR over all owners of
their flags, and then, if `IGNORE` is set, `MONITOR` masked out. -/
def derived_flags (owners : List NodeOwnerData) : Nat :=
  let flags := (owners.map (·.flags)).foldr (· ||| ·) 0
  if flags &&& TRACKER_DIRECTORY_FLAG_IGNORE ≠ 0 then
    flags &&& (G_MAXUINT ^^^ TRACKER_DIRECTORY_FLAG_MONITOR)
  else
    flags

/-- Scenario 5, first step: `/x` is added by `app` with `MONITOR`. -/
def scenario_monitor : TrackerIndexingTreePrivate :=
  (tracker_indexing_tree_add tracker_indexing_tree_new ["x"] TRACKER_DIRECTORY_FLAG_MONITOR
    "app").1

/-- The node for `/x` in `scenario_monitor`. -/
def scenario_monitor_node : NodeData :=
  { file := ["x"], flags := 8, shallow := false, owners := [{ name := "app", flags := 8 }] }

/-! ## Files: containment -/

theorem g_file_equal_iff (a b : GFile) : g_file_equal a b = true ↔ a = b := by
  simp [g_file_equal]

theorem g_file_has_prefix_iff (a b : GFile) :
    g_file_has_prefix a b = true ↔ b <+: a ∧ a ≠ b := by
  simp [g_file_equal, g_file_has_prefix, List.isPrefixOf_iff_prefix]

theorem parent_or_equals_iff (a b : GFile) : parent_or_equals a b = true ↔ b <+: a := by
  simp only [parent_or_equals, Bool.or_eq_true, g_file_equal_iff, g_file_has_prefix_iff]
  constructor
  · rintro (h | h)
    · subst h; exact List.prefix_refl _
    · exact h.1
  · intro h
    by_cases e : a = b
    · exact Or.inl e
    · exact Or.inr ⟨h, e⟩

theorem parent_or_equals_false_iff (a b : GFile) :
    parent_or_equals a b = false ↔ ¬ b <+: a := by
  rw [← parent_or_equals_iff]; simp

theorem prefix_antisymm {a b : GFile} (h1 : a <+: b) (h2 : b <+: a) : a = b :=
  h1.eq_of_length_le h2.length_le

/-! ## The shape of the tree -/

theorem GNode.siblings_subset_datas (F : GNode) : ∀ x ∈ F.siblings, x ∈ F.datas := by
  induction F with
  | null => intro x hx; simp [GNode.siblings] at hx
  | node d c n _ ihn =>
    intro x hx
    simp only [GNode.siblings, List.mem_cons] at hx
    simp only [GNode.datas, List.mem_append, List.mem_cons]
    rcases hx with h | h
    · exact Or.inr (Or.inl h)
    · exact Or.inr (Or.inr (ihn x h))

/-- In a well shaped chain every node lies, in the tree and by its file, at or below
one of the members of the chain. -/
theorem GNode.WF.datas_below {F : GNode} (h : F.WF) :
    ∀ x ∈ F.datas, ∃ s ∈ F.siblings, s.file <+: x.file := by
  induction F with
  | null => intro x hx; simp [GNode.datas] at hx
  | node d c n ihc ihn =>
    obtain ⟨hc, _, wc, wn⟩ := h
    intro x hx
    simp only [GNode.datas, List.mem_append, List.mem_cons] at hx
    rcases hx with hx | hx | hx
    · obtain ⟨s, hs, hsx⟩ := ihc wc x hx
      refine ⟨d, by simp [GNode.siblings], ?_⟩
      exact (((g_file_has_prefix_iff _ _).1 (hc s hs)).1).trans hsx
    · subst hx
      exact ⟨x, by simp [GNode.siblings], List.prefix_refl _⟩
    · obtain ⟨s, hs, hsx⟩ := ihn wn x hx
      exact ⟨s, by simp [GNode.siblings, hs], hsx⟩

/-- Below a node, every file lies strictly inside the file of the node. -/
theorem GNode.WF.children_inside {d : NodeData} {c n : GNode} (h : (GNode.node d c n).WF) :
    ∀ x ∈ c.datas, d.file <+: x.file ∧ x.file ≠ d.file := by
  obtain ⟨hc, _, wc, _⟩ := h
  intro x hx
  obtain ⟨s, hs, hsx⟩ := wc.datas_below x hx
  obtain ⟨h1, h2⟩ := (g_file_has_prefix_iff _ _).1 (hc s hs)
  refine ⟨h1.trans hsx, ?_⟩
  intro e
  rw [e] at hsx
  exact h2 (prefix_antisymm hsx h1)

/-- A node and all below it are apart from everything after it in the chain. -/
theorem GNode.WF.next_apart {d : NodeData} {c n : GNode} (h : (GNode.node d c n).WF) :
    ∀ x, (x = d ∨ x ∈ c.datas) → ∀ y ∈ n.datas,
      ¬ x.file <+: y.file ∧ ¬ y.file <+: x.file := by
  have hin := h.children_inside
  obtain ⟨_, hn, _, wn⟩ := h
  intro x hx y hy
  have hdx : d.file <+: x.file := by
    rcases hx with hx | hx
    · subst hx; exact List.prefix_refl _
    · exact (hin x hx).1
  obtain ⟨s, hs, hsy⟩ := wn.datas_below y hy
  obtain ⟨h1, h2⟩ := hn s hs
  rw [parent_or_equals_false_iff] at h1 h2
  constructor
  · intro hxy
    rcases List.prefix_or_prefix_of_prefix (hdx.trans hxy) hsy with h | h
    · exact h2 h
    · exact h1 h
  · intro hyx
    rcases List.prefix_or_prefix_of_prefix hdx (hsy.trans hyx) with h | h
    · exact h2 h
    · exact h1 h

/-- No two nodes of a well shaped chain have the same file. -/
theorem GNode.WF.nodup_files {F : GNode} (h : F.WF) : (F.datas.map (·.file)).Nodup := by
  induction F with
  | null => simp [GNode.datas]
  | node d c n ihc ihn =>
    have hin := h.children_inside
    have hap := h.next_apart
    obtain ⟨_, _, wc, wn⟩ := h
    simp only [GNode.datas, List.map_append, List.map_cons]
    rw [List.nodup_append]
    refine ⟨ihc wc, ?_, ?_⟩
    · rw [List.nodup_cons]
      refine ⟨?_, ihn wn⟩
      intro hd
      obtain ⟨y, hy, hyd⟩ := List.mem_map.1 hd
      have := (hap d (Or.inl rfl) y hy).1
      rw [hyd] at this
      exact this (List.prefix_refl _)
    · intro f hf1 hf2
      obtain ⟨x, hx, hxf⟩ := List.mem_map.1 hf1
      rcases List.mem_cons.1 hf2 with hf2 | hf2
      · exact (hin x hx).2 (hxf.trans hf2)
      · obtain ⟨y, hy, hyf⟩ := List.mem_map.1 hf2
        have := (hap x (Or.inr hx) y hy).1
        rw [hxf, hyf] at this
        exact this (List.prefix_refl _)

/-! ## Finding a node -/

theorem find_directory_node_from_eq_none_iff (file : GFile) (func : GFile → GFile → Bool)
    (F : GNode) (parent : Option NodeData) :
    find_directory_node_from parent F file func = none ↔
      ∀ x ∈ F.datas, func file x.file = false := by
  induction F generalizing parent with
  | null => simp [find_directory_node_from, GNode.datas]
  | node d c n ihc ihn =>
    simp only [find_directory_node_from, GNode.datas, List.mem_append, List.mem_cons]
    cases hc : find_directory_node_from (some d) c file func with
    | some fd =>
      simp only [reduceCtorEq, false_iff]
      intro hall
      have := (ihc (some d)).2 (fun x hx => hall x (Or.inl hx))
      rw [hc] at this
      exact absurd this (by simp)
    | none =>
      have hc' := (ihc (some d)).1 hc
      by_cases hd : func file d.file = true
      · simp only [hd, if_true, reduceCtorEq, false_iff]
        intro hall
        have := hall d (Or.inr (Or.inl rfl))
        rw [hd] at this
        exact absurd this (by simp)
      · simp only [hd, if_false, Bool.false_eq_true]
        rw [ihn parent]
        constructor
        · intro hn x hx
          rcases hx with hx | hx | hx
          · exact hc' x hx
          · subst hx; simpa using hd
          · exact hn x hx
        · intro hall x hx
          exact hall x (Or.inr (Or.inr hx))

theorem find_directory_node_eq_none_iff (file : GFile) (func : GFile → GFile → Bool)
    (F : GNode) :
    find_directory_node F file func = none ↔ ∀ x ∈ F.datas, func file x.file = false :=
  find_directory_node_from_eq_none_iff file func F none

theorem find_directory_node_from_none_of_none {file : GFile} {func : GFile → GFile → Bool}
    {F : GNode} {p : Option NodeData} (q : Option NodeData)
    (h : find_directory_node_from p F file func = none) :
    find_directory_node_from q F file func = none :=
  (find_directory_node_from_eq_none_iff file func F q).2
    ((find_directory_node_from_eq_none_iff file func F p).1 h)

/-- What is known of the node found: `func` holds of it and of no node below it. -/
theorem find_directory_node_from_some {file : GFile} {func : GFile → GFile → Bool} :
    ∀ (F : GNode) (parent : Option NodeData) (fd : FoundNode),
      find_directory_node_from parent F file func = some fd →
      func file fd.data.file = true ∧ ∀ x ∈ fd.children.datas, func file x.file = false := by
  intro F
  induction F with
  | null => intro parent fd h; simp [find_directory_node_from] at h
  | node d c n ihc ihn =>
    intro parent fd h
    simp only [find_directory_node_from] at h
    cases hc : find_directory_node_from (some d) c file func with
    | some fd' =>
      rw [hc] at h
      simp only [Option.some.injEq] at h
      subst h
      exact ihc (some d) fd' hc
    | none =>
      rw [hc] at h
      simp only at h
      by_cases hd : func file d.file = true
      · simp only [hd, if_true, Option.some.injEq] at h
        subst h
        exact ⟨hd, (find_directory_node_from_eq_none_iff file func c (some d)).1 hc⟩
      · simp only [hd, if_false, Bool.false_eq_true] at h
        exact ihn parent fd h

/-- The node found is part of a well shaped chain, and so is itself well shaped; and it
lies strictly inside its parent when the chain searched does. -/
theorem find_directory_node_from_wf {file : GFile} {func : GFile → GFile → Bool} :
    ∀ (F : GNode) (parent : Option NodeData) (fd : FoundNode),
      find_directory_node_from parent F file func = some fd → F.WF →
      (∀ pd, parent = some pd → ∀ x ∈ F.siblings, g_file_has_prefix x.file pd.file = true) →
      fd.node.WF ∧
      ∀ pd, fd.parent = some pd →
        ∀ x ∈ fd.node.siblings, g_file_has_prefix x.file pd.file = true := by
  intro F
  induction F with
  | null => intro parent fd h; simp [find_directory_node_from] at h
  | node d c n ihc ihn =>
    intro parent fd h wf hb
    simp only [find_directory_node_from] at h
    cases hc : find_directory_node_from (some d) c file func with
    | some fd' =>
      rw [hc] at h
      simp only [Option.some.injEq] at h
      subst h
      refine ihc (some d) fd' hc wf.2.2.1 ?_
      intro pd hpd x hx
      simp only [Option.some.injEq] at hpd
      subst hpd
      exact wf.1 x hx
    | none =>
      rw [hc] at h
      simp only at h
      by_cases hd : func file d.file = true
      · simp only [hd, if_true, Option.some.injEq] at h
        subst h
        exact ⟨wf, hb⟩
      · simp only [hd, if_false, Bool.false_eq_true] at h
        refine ihn parent fd h wf.2.2.2 ?_
        intro pd hpd x hx
        exact hb pd hpd x (by simp [GNode.siblings, hx])

/-! ## Storing through a found node -/

theorem g_node_replace_found_node (file : GFile) (func : GFile → GFile → Bool)
    (d : NodeData) (c n repl : GNode) :
    g_node_replace_found (.node d c n) file func repl =
      if find_directory_node_from (some d) c file func ≠ none then
        .node d (g_node_replace_found c file func repl) n
      else if func file d.file then repl
      else .node d c (g_node_replace_found n file func repl) := by
  simp only [g_node_replace_found, find_directory_node]
  cases hc : find_directory_node_from none c file func with
  | some fd =>
    have : find_directory_node_from (some d) c file func ≠ none := by
      intro h
      rw [find_directory_node_from_none_of_none none h] at hc
      exact absurd hc (by simp)
    simp [this]
  | none =>
    simp [find_directory_node_from_none_of_none (some d) hc]

/-- A store through a found node keeps the shape of the tree, when what is stored has
the shape and each of its top members lies at or below one of the old members. -/
theorem g_node_replace_found_wf {file : GFile} {func : GFile → GFile → Bool} (repl : GNode) :
    ∀ (F : GNode) (parent : Option NodeData) (fd : FoundNode),
      find_directory_node_from parent F file func = some fd → F.WF → repl.WF →
      (∀ r ∈ repl.siblings, ∃ s ∈ fd.node.siblings, s.file <+: r.file) →
      (g_node_replace_found F file func repl).WF ∧
      ∀ r ∈ (g_node_replace_found F file func repl).siblings,
        ∃ s ∈ F.siblings, s.file <+: r.file := by
  intro F
  induction F with
  | null => intro parent fd h; simp [find_directory_node_from] at h
  | node d c n ihc ihn =>
    intro parent fd h wf wr href
    rw [g_node_replace_found_node]
    simp only [find_directory_node_from] at h
    cases hc : find_directory_node_from (some d) c file func with
    | some fd' =>
      rw [hc] at h
      simp only [Option.some.injEq] at h
      subst h
      simp only [ne_eq, reduceCtorEq, not_false_eq_true, if_true]
      obtain ⟨w1, w2⟩ := ihc (some d) fd' hc wf.2.2.1 wr href
      refine ⟨⟨?_, wf.2.1, w1, wf.2.2.2⟩, ?_⟩
      · intro r hr
        obtain ⟨s, hs, hsr⟩ := w2 r hr
        obtain ⟨h1, h2⟩ := (g_file_has_prefix_iff _ _).1 (wf.1 s hs)
        rw [g_file_has_prefix_iff]
        refine ⟨h1.trans hsr, ?_⟩
        intro e
        rw [e] at hsr
        exact h2 (prefix_antisymm hsr h1)
      · intro r hr
        exact ⟨r, hr, List.prefix_refl _⟩
    | none =>
      rw [hc] at h
      simp only at h
      simp only [ne_eq, not_true_eq_false, if_false]
      by_cases hd : func file d.file = true
      · simp only [hd, if_true, Option.some.injEq] at h
        subst h
        simp only [hd, if_true]
        exact ⟨wr, href⟩
      · simp only [hd, if_false, Bool.false_eq_true] at h
        simp only [hd, if_false, Bool.false_eq_true]
        obtain ⟨w1, w2⟩ := ihn parent fd h wf.2.2.2 wr href
        refine ⟨⟨wf.1, ?_, wf.2.2.1, w1⟩, ?_⟩
        · intro r hr
          obtain ⟨s, hs, hsr⟩ := w2 r hr
          obtain ⟨h1, h2⟩ := wf.2.1 s hs
          rw [parent_or_equals_false_iff] at h1 h2 ⊢
          rw [parent_or_equals_false_iff]
          constructor
          · intro hrd
            exact h1 (hsr.trans hrd)
          · intro hdr
            rcases List.prefix_or_prefix_of_prefix hsr hdr with h | h
            · exact h1 h
            · exact h2 h
        · intro r hr
          simp only [GNode.siblings, List.mem_cons] at hr
          rcases hr with hr | hr
          · subst hr
            exact ⟨r, by simp [GNode.siblings], List.prefix_refl _⟩
          · obtain ⟨s, hs, hsr⟩ := w2 r hr
            exact ⟨s, by simp [GNode.siblings, hs], hsr⟩

/-! ## Edges -/

theorem GNode.edges_map_snd (F : GNode) (q : Option NodeData) :
    (F.edges q).map Prod.snd = F.datas := by
  induction F generalizing q with
  | null => simp [GNode.edges, GNode.datas]
  | node d c n ihc ihn => simp [GNode.edges, GNode.datas, ihc, ihn]

theorem GNode.mem_datas_of_mem_edges {F : GNode} {q : Option NodeData}
    {e : Option NodeData × NodeData} (h : e ∈ F.edges q) : e.2 ∈ F.datas := by
  rw [← GNode.edges_map_snd F q]
  exact List.mem_map_of_mem _ h

theorem GNode.mem_edges_of_mem_datas {F : GNode} (q : Option NodeData) {x : NodeData}
    (h : x ∈ F.datas) : ∃ p, (p, x) ∈ F.edges q := by
  rw [← GNode.edges_map_snd F q] at h
  obtain ⟨e, he, hx⟩ := List.mem_map.1 h
  exact ⟨e.1, by rw [← hx]; exact he⟩

/-- The parent in an edge is the parent of the chain or one of its nodes. -/
theorem GNode.edges_parent (F : GNode) (q : Option NodeData) :
    ∀ e ∈ F.edges q, e.1 = q ∨ ∃ x ∈ F.datas, e.1 = some x := by
  induction F generalizing q with
  | null => intro e he; simp [GNode.edges] at he
  | node d c n ihc ihn =>
    intro e he
    simp only [GNode.edges, List.mem_append, List.mem_cons] at he
    simp only [GNode.datas, List.mem_append, List.mem_cons]
    rcases he with he | he | he
    · rcases ihc (some d) e he with h | ⟨x, hx, h⟩
      · exact Or.inr ⟨d, Or.inr (Or.inl rfl), h⟩
      · exact Or.inr ⟨x, Or.inl hx, h⟩
    · subst he
      exact Or.inl rfl
    · rcases ihn q e he with h | ⟨x, hx, h⟩
      · exact Or.inl h
      · exact Or.inr ⟨x, Or.inr (Or.inr hx), h⟩

/-- The edges around a found node: they stay as they are under a store through it. -/
theorem find_directory_node_from_context {file : GFile} {func : GFile → GFile → Bool} :
    ∀ (F : GNode) (parent : Option NodeData) (fd : FoundNode),
      find_directory_node_from parent F file func = some fd →
      ∃ epre epost : List (Option NodeData × NodeData),
        F.edges parent = epre ++ fd.node.edges fd.parent ++ epost ∧
        (∀ e ∈ epre ++ epost, e.1 = parent ∨ ∃ e' ∈ epre ++ epost, e.1 = some e'.2) ∧
        (fd.parent = parent ∨ ∃ e' ∈ epre ++ epost, fd.parent = some e'.2) ∧
        ∀ repl, (g_node_replace_found F file func repl).edges parent =
          epre ++ repl.edges fd.parent ++ epost := by
  intro F
  induction F with
  | null => intro parent fd h; simp [find_directory_node_from] at h
  | node d c n ihc ihn =>
    intro parent fd h
    simp only [find_directory_node_from] at h
    cases hc : find_directory_node_from (some d) c file func with
    | some fd' =>
      rw [hc] at h
      simp only [Option.some.injEq] at h
      subst h
      obtain ⟨epre, epost, h1, h2, h3, h4⟩ := ihc (some d) fd' hc
      refine ⟨epre, epost ++ (parent, d) :: n.edges parent, ?_, ?_, ?_, ?_⟩
      · simp only [GNode.edges, h1, List.append_assoc]
      · intro e he
        simp only [List.mem_append, List.mem_cons] at he
        have hmem : ∀ e', e' ∈ epre ++ epost →
            e' ∈ epre ++ (epost ++ (parent, d) :: n.edges parent) := by
          intro e' he'
          simp only [List.mem_append, List.mem_cons] at he' ⊢
          tauto
        have hinner : e ∈ epre ++ epost →
            e.1 = parent ∨ ∃ e' ∈ epre ++ (epost ++ (parent, d) :: n.edges parent),
              e.1 = some e'.2 := by
          intro hin
          rcases h2 e hin with h | ⟨e', he', h⟩
          · exact Or.inr ⟨(parent, d), by simp, h⟩
          · exact Or.inr ⟨e', hmem e' he', h⟩
        rcases he with he | he | he | he
        · exact hinner (by simp [he])
        · exact hinner (by simp [he])
        · subst he; exact Or.inl rfl
        · rcases GNode.edges_parent n parent e he with h | ⟨x, hx, h⟩
          · exact Or.inl h
          · obtain ⟨p, hp⟩ := GNode.mem_edges_of_mem_datas parent hx
            exact Or.inr ⟨(p, x), by simp [hp], h⟩
      · right
        rcases h3 with h | ⟨e', he', h⟩
        · exact ⟨(parent, d), by simp, h⟩
        · refine ⟨e', ?_, h⟩
          simp only [List.mem_append, List.mem_cons] at he' ⊢
          tauto
      · intro repl
        rw [g_node_replace_found_node]
        simp only [hc, ne_eq, reduceCtorEq, not_false_eq_true, if_true, GNode.edges, h4 repl,
          List.append_assoc]
    | none =>
      rw [hc] at h
      simp only at h
      by_cases hd : func file d.file = true
      · simp only [hd, if_true, Option.some.injEq] at h
        subst h
        refine ⟨[], [], by simp [FoundNode.node], by simp, Or.inl rfl, ?_⟩
        intro repl
        rw [g_node_replace_found_node]
        simp [hc, hd]
      · simp only [hd, if_false, Bool.false_eq_true] at h
        obtain ⟨epre, epost, h1, h2, h3, h4⟩ := ihn parent fd h
        refine ⟨c.edges (some d) ++ (parent, d) :: epre, epost, ?_, ?_, ?_, ?_⟩
        · simp only [GNode.edges, h1, List.append_assoc, List.cons_append]
        · intro e he
          simp only [List.mem_append, List.mem_cons] at he
          have hmem : ∀ e', e' ∈ epre ++ epost →
              e' ∈ (c.edges (some d) ++ (parent, d) :: epre) ++ epost := by
            intro e' he'
            simp only [List.mem_append, List.mem_cons] at he' ⊢
            tauto
          have hinner : e ∈ epre ++ epost →
              e.1 = parent ∨ ∃ e' ∈ (c.edges (some d) ++ (parent, d) :: epre) ++ epost,
                e.1 = some e'.2 := by
            intro hin
            rcases h2 e hin with h | ⟨e', he', h⟩
            · exact Or.inl h
            · exact Or.inr ⟨e', hmem e' he', h⟩
          rcases he with (he | he | he) | he
          · rcases GNode.edges_parent c (some d) e he with h | ⟨x, hx, h⟩
            · exact Or.inr ⟨(parent, d), by simp, h⟩
            · obtain ⟨p, hp⟩ := GNode.mem_edges_of_mem_datas (some d) hx
              exact Or.inr ⟨(p, x), by simp [hp], h⟩
          · subst he; exact Or.inl rfl
          · exact hinner (by simp [he])
          · exact hinner (by simp [he])
        · rcases h3 with h | ⟨e', he', h⟩
          · exact Or.inl h
          · right
            refine ⟨e', ?_, h⟩
            simp only [List.mem_append, List.mem_cons] at he' ⊢
            tauto
        · intro repl
          rw [g_node_replace_found_node]
          simp only [hc, ne_eq, not_true_eq_false, if_false, hd, Bool.false_eq_true,
            GNode.edges, h4 repl, List.append_assoc, List.cons_append]

/-! ## Appending and reparenting -/

theorem g_node_append_siblings (A B : GNode) :
    (g_node_append A B).siblings = A.siblings ++ B.siblings := by
  induction A with
  | null => simp [g_node_append, GNode.siblings]
  | node d c n _ ihn => simp [g_node_append, GNode.siblings, ihn]

theorem g_node_append_edges (A B : GNode) (q : Option NodeData) :
    (g_node_append A B).edges q = A.edges q ++ B.edges q := by
  induction A with
  | null => simp [g_node_append, GNode.edges]
  | node d c n _ ihn => simp [g_node_append, GNode.edges, ihn]

theorem g_node_append_datas (A B : GNode) :
    (g_node_append A B).datas = A.datas ++ B.datas := by
  induction A with
  | null => simp [g_node_append, GNode.datas]
  | node d c n _ ihn => simp [g_node_append, GNode.datas, ihn]

theorem g_node_append_wf {A B : GNode} (hA : A.WF) (hB : B.WF)
    (hAB : ∀ a ∈ A.siblings, ∀ b ∈ B.siblings,
      parent_or_equals a.file b.file = false ∧ parent_or_equals b.file a.file = false) :
    (g_node_append A B).WF := by
  induction A with
  | null => simpa [g_node_append] using hB
  | node d c n _ ihn =>
    simp only [g_node_append, GNode.WF]
    refine ⟨hA.1, ?_, hA.2.2.1, ihn hA.2.2.2 ?_⟩
    · intro y hy
      rw [g_node_append_siblings, List.mem_append] at hy
      rcases hy with hy | hy
      · exact hA.2.1 y hy
      · exact hAB d (by simp [GNode.siblings]) y hy
    · intro a ha b hb
      exact hAB a (by simp [GNode.siblings, ha]) b hb

theorem check_reparent_node_moved_siblings (f : GFile) (F : GNode) :
    (check_reparent_node_moved f F).siblings =
      F.siblings.filter (fun x => g_file_has_prefix x.file f) := by
  induction F with
  | null => simp [check_reparent_node_moved, GNode.siblings]
  | node d c n _ ihn =>
    by_cases h : g_file_has_prefix d.file f = true
    · simp [check_reparent_node_moved, GNode.siblings, h, ihn]
    · simp [check_reparent_node_moved, GNode.siblings, h, ihn]

theorem check_reparent_node_kept_siblings (f : GFile) (F : GNode) :
    (check_reparent_node_kept f F).siblings =
      F.siblings.filter (fun x => !( g_file_has_prefix x.file f)) := by
  induction F with
  | null => simp [check_reparent_node_kept, GNode.siblings]
  | node d c n _ ihn =>
    by_cases h : g_file_has_prefix d.file f = true
    · simp [check_reparent_node_kept, GNode.siblings, h, ihn]
    · simp [check_reparent_node_kept, GNode.siblings, h, ihn]

theorem check_reparent_node_moved_wf (f : GFile) {F : GNode} (h : F.WF) :
    (check_reparent_node_moved f F).WF := by
  induction F with
  | null => simp [check_reparent_node_moved, GNode.WF]
  | node d c n _ ihn =>
    by_cases hd : g_file_has_prefix d.file f = true
    · simp only [check_reparent_node_moved, hd, if_true, GNode.WF]
      refine ⟨h.1, ?_, h.2.2.1, ihn h.2.2.2⟩
      intro y hy
      rw [check_reparent_node_moved_siblings] at hy
      exact h.2.1 y (List.mem_filter.1 hy).1
    · simp only [check_reparent_node_moved, hd, if_false, Bool.false_eq_true]
      exact ihn h.2.2.2

theorem check_reparent_node_kept_wf (f : GFile) {F : GNode} (h : F.WF) :
    (check_reparent_node_kept f F).WF := by
  induction F with
  | null => simp [check_reparent_node_kept, GNode.WF]
  | node d c n _ ihn =>
    by_cases hd : g_file_has_prefix d.file f = true
    · simp only [check_reparent_node_kept, hd, if_true]
      exact ihn h.2.2.2
    · simp only [check_reparent_node_kept, hd, if_false, Bool.false_eq_true, GNode.WF]
      refine ⟨h.1, ?_, h.2.2.1, ihn h.2.2.2⟩
      intro y hy
      rw [check_reparent_node_kept_siblings] at hy
      exact h.2.1 y (List.mem_filter.1 hy).1

theorem GNode.mem_edges_iff (F : GNode) (q : Option NodeData)
    (e : Option NodeData × NodeData) :
    e ∈ F.edges q ↔ (e.1 = q ∧ e.2 ∈ F.siblings) ∨ e ∈ F.deep_edges := by
  induction F with
  | null => simp [GNode.edges, GNode.siblings, GNode.deep_edges]
  | node d c n _ ihn =>
    simp only [GNode.edges, GNode.siblings, GNode.deep_edges, List.mem_append, List.mem_cons, ihn]
    constructor
    · rintro (h | h | h | h)
      · exact Or.inr (Or.inl h)
      · subst h; exact Or.inl ⟨rfl, Or.inl rfl⟩
      · exact Or.inl ⟨h.1, Or.inr h.2⟩
      · exact Or.inr (Or.inr h)
    · rintro (⟨h1, h2 | h2⟩ | h | h)
      · right; left
        exact Prod.ext h1 h2
      · exact Or.inr (Or.inr (Or.inl ⟨h1, h2⟩))
      · exact Or.inl h
      · exact Or.inr (Or.inr (Or.inr h))

theorem GNode.deep_edges_parent (F : GNode) :
    ∀ e ∈ F.deep_edges, e.2 ∈ F.datas ∧ ∃ x ∈ F.datas, e.1 = some x := by
  induction F with
  | null => intro e he; simp [GNode.deep_edges] at he
  | node d c n _ ihn =>
    intro e he
    simp only [GNode.deep_edges, List.mem_append] at he
    simp only [GNode.datas, List.mem_append, List.mem_cons]
    rcases he with he | he
    · refine ⟨Or.inl (GNode.mem_datas_of_mem_edges he), ?_⟩
      rcases GNode.edges_parent c (some d) e he with h | ⟨x, hx, h⟩
      · exact ⟨d, Or.inr (Or.inl rfl), h⟩
      · exact ⟨x, Or.inl hx, h⟩
    · obtain ⟨h1, x, hx, h2⟩ := ihn e he
      exact ⟨Or.inr (Or.inr h1), x, Or.inr (Or.inr hx), h2⟩

theorem check_reparent_node_below (f : GFile) (F : GNode)
    (e : Option NodeData × NodeData) :
    e ∈ F.deep_edges ↔
      e ∈ (check_reparent_node_kept f F).deep_edges ∨ e ∈ (check_reparent_node_moved f F).deep_edges := by
  induction F with
  | null => simp [check_reparent_node_kept, check_reparent_node_moved, GNode.deep_edges]
  | node d c n _ ihn =>
    by_cases hd : g_file_has_prefix d.file f = true
    · simp only [check_reparent_node_kept, check_reparent_node_moved, hd, if_true, GNode.deep_edges,
        List.mem_append, ihn]
      tauto
    · simp only [check_reparent_node_kept, check_reparent_node_moved, hd, if_false,
        Bool.false_eq_true, GNode.deep_edges, List.mem_append, ihn]
      tauto

theorem check_reparent_node_datas (f : GFile) (F : GNode) :
    ((check_reparent_node_kept f F).datas ++ (check_reparent_node_moved f F).datas).Perm
      F.datas := by
  induction F with
  | null => simp [check_reparent_node_kept, check_reparent_node_moved, GNode.datas]
  | node d c n _ ihn =>
    by_cases hd : g_file_has_prefix d.file f = true
    · simp only [check_reparent_node_kept, check_reparent_node_moved, hd, if_true, GNode.datas]
      have h1 : ((check_reparent_node_kept f n).datas ++
          (c.datas ++ d :: (check_reparent_node_moved f n).datas)).Perm
          ((c.datas ++ [d]) ++ ((check_reparent_node_kept f n).datas ++
            (check_reparent_node_moved f n).datas)) := by
        have e1 : (check_reparent_node_kept f n).datas ++
            (c.datas ++ d :: (check_reparent_node_moved f n).datas) =
            ((check_reparent_node_kept f n).datas ++ (c.datas ++ [d])) ++
              (check_reparent_node_moved f n).datas := by simp
        have e2 : (c.datas ++ [d]) ++ ((check_reparent_node_kept f n).datas ++
            (check_reparent_node_moved f n).datas) =
            ((c.datas ++ [d]) ++ (check_reparent_node_kept f n).datas) ++
              (check_reparent_node_moved f n).datas := by simp
        rw [e1, e2]
        exact List.Perm.append_right _ List.perm_append_comm
      refine h1.trans ?_
      have : c.datas ++ d :: n.datas = (c.datas ++ [d]) ++ n.datas := by simp
      rw [this]
      exact List.Perm.append_left _ ihn
    · simp only [check_reparent_node_kept, check_reparent_node_moved, hd, if_false,
        Bool.false_eq_true, GNode.datas]
      have : (c.datas ++ d :: (check_reparent_node_kept f n).datas) ++
          (check_reparent_node_moved f n).datas =
          (c.datas ++ [d]) ++ ((check_reparent_node_kept f n).datas ++
            (check_reparent_node_moved f n).datas) := by simp
      rw [this]
      have : c.datas ++ d :: n.datas = (c.datas ++ [d]) ++ n.datas := by simp
      rw [this]
      exact List.Perm.append_left _ ihn

/-- When every child passes the test of `check_reparent_node`, all children move. -/
theorem check_reparent_node_moved_all (f : GFile) (F : GNode)
    (h : ∀ x ∈ F.siblings, g_file_has_prefix x.file f = true) :
    check_reparent_node_moved f F = F := by
  induction F with
  | null => simp [check_reparent_node_moved]
  | node d c n _ ihn =>
    have hd := h d (by simp [GNode.siblings])
    simp only [check_reparent_node_moved, hd, if_true]
    rw [ihn (fun x hx => h x (by simp [GNode.siblings, hx]))]

/-! ## The invariant -/

theorem node_update_flags_fst (d : NodeData) :
    (node_update_flags d).1 = { d with flags := node_get_flags d } := by
  unfold node_update_flags
  by_cases h : d.flags = node_get_flags d
  · simp only [ne_eq, h, not_true_eq_false, if_false]
    cases d
    simp only [NodeData.mk.injEq, true_and, and_true] at h ⊢
    exact h
  · simp [h]

theorem node_update_flags_snd (d : NodeData) :
    (node_update_flags d).2 =
      if d.flags ≠ node_get_flags d then [Signal.directory_updated d.file] else [] := by
  unfold node_update_flags
  by_cases h : d.flags = node_get_flags d
  · simp [h]
  · simp [h]

theorem GNode.WF.congr_data {d d' : NodeData} {c n : GNode} (h : (GNode.node d c n).WF)
    (e : d'.file = d.file) : (GNode.node d' c n).WF := by
  simp only [GNode.WF, e]
  exact h

theorem find_directory_node_from_parent {file : GFile} {func : GFile → GFile → Bool} :
    ∀ (F : GNode) (q : NodeData) (fd : FoundNode),
      find_directory_node_from (some q) F file func = some fd → ∃ q', fd.parent = some q' := by
  intro F
  induction F with
  | null => intro q fd h; simp [find_directory_node_from] at h
  | node d c n ihc ihn =>
    intro q fd h
    simp only [find_directory_node_from] at h
    cases hc : find_directory_node_from (some d) c file func with
    | some fd' =>
      rw [hc] at h
      simp only [Option.some.injEq] at h
      subst h
      exact ihc d fd' hc
    | none =>
      rw [hc] at h
      simp only at h
      by_cases hd : func file d.file = true
      · simp only [hd, if_true, Option.some.injEq] at h
        subst h
        exact ⟨q, rfl⟩
      · simp only [hd, if_false, Bool.false_eq_true] at h
        exact ihn q fd h

/-- The nodes around a found node stay as they are under a store through it. -/
theorem find_directory_node_from_datas {file : GFile} {func : GFile → GFile → Bool}
    {F : GNode} {parent : Option NodeData} {fd : FoundNode}
    (h : find_directory_node_from parent F file func = some fd) :
    ∃ pre post : List NodeData,
      F.datas = pre ++ fd.node.datas ++ post ∧
      ∀ repl, (g_node_replace_found F file func repl).datas = pre ++ repl.datas ++ post := by
  obtain ⟨epre, epost, h1, _, _, h4⟩ := find_directory_node_from_context F parent fd h
  refine ⟨epre.map Prod.snd, epost.map Prod.snd, ?_, ?_⟩
  · rw [← GNode.edges_map_snd F parent, h1]
    simp [GNode.edges_map_snd]
  · intro repl
    rw [← GNode.edges_map_snd _ parent, h4 repl]
    simp [GNode.edges_map_snd]

/-- What is found at the top of a tree whose top node has no sibling. -/
theorem find_directory_node_top {file : GFile} {func : GFile → GFile → Bool}
    {r : NodeData} {c : GNode} {fd : FoundNode}
    (h : find_directory_node (.node r c .null) file func = some fd) :
    (find_directory_node_from (some r) c file func = some fd ∧ ∃ q, fd.parent = some q) ∨
    (find_directory_node_from (some r) c file func = none ∧
      fd = { parent := none, data := r, children := c, next := .null }) := by
  simp only [find_directory_node, find_directory_node_from] at h
  cases hc : find_directory_node_from (some r) c file func with
  | some fd' =>
    rw [hc] at h
    simp only [Option.some.injEq] at h
    subst h
    exact Or.inl ⟨rfl, find_directory_node_from_parent c r fd' hc⟩
  | none =>
    rw [hc] at h
    simp only at h
    by_cases hd : func file r.file = true
    · simp only [hd, if_true, Option.some.injEq] at h
      exact Or.inr ⟨rfl, h.symm⟩
    · simp [hd] at h

/-- A store through a found node keeps the invariant when what is stored is well shaped,
lies where the old node lay, keeps the top node in place and brings in no node that is
shallow or without owner. -/
theorem Inv.replace {priv : TrackerIndexingTreePrivate} (h : Inv priv) {file : GFile}
    {func : GFile → GFile → Bool} {fd : FoundNode} {repl : GNode}
    (hfind : find_directory_node priv.config_tree file func = some fd)
    (hwf : repl.WF)
    (href : ∀ r ∈ repl.siblings, ∃ s ∈ fd.node.siblings, s.file <+: r.file)
    (hroot : fd.parent = none → fd.next = .null →
      (∀ x ∈ fd.children.datas, x.shallow = false ∧ x.owners ≠ []) →
      ∃ r' c', repl = .node r' c' .null ∧ r'.file = fd.data.file ∧
        ∀ x ∈ c'.datas, x.shallow = false ∧ x.owners ≠ [])
    (hinner : ∀ q, fd.parent = some q →
      (∀ x ∈ fd.node.datas, x.shallow = false ∧ x.owners ≠ []) →
      ∀ x ∈ repl.datas, x.shallow = false ∧ x.owners ≠ []) :
    Inv { priv with config_tree := g_node_replace_found priv.config_tree file func repl } := by
  constructor
  · obtain ⟨r, c, ht, hr, hP⟩ := h.top
    simp only
    rw [ht] at hfind ⊢
    rw [g_node_replace_found_node]
    rcases find_directory_node_top hfind with ⟨hc, q, hq⟩ | ⟨hc, hfd⟩
    · simp only [hc, ne_eq, reduceCtorEq, not_false_eq_true, if_true]
      refine ⟨r, _, rfl, hr, ?_⟩
      obtain ⟨pre, post, h1, h2⟩ := find_directory_node_from_datas hc
      intro x hx
      rw [h2 repl] at hx
      simp only [List.mem_append] at hx
      rcases hx with (hx | hx) | hx
      · exact hP x (by rw [h1]; simp [hx])
      · refine hinner q hq ?_ x hx
        intro y hy
        exact hP y (by rw [h1]; simp [hy])
      · exact hP x (by rw [h1]; simp [hx])
    · have hf := (find_directory_node_from_some _ _ _ hfind).1
      subst hfd
      simp only at hf
      simp only [hc, ne_eq, not_true_eq_false, if_false, hf, if_true]
      obtain ⟨r', c', e, hfile, hP'⟩ := hroot rfl rfl hP
      exact ⟨r', c', e, hfile.trans hr, hP'⟩
  · exact (g_node_replace_found_wf repl priv.config_tree none fd hfind h.wf hwf href).1

/-- The node found in the tree of an engine that keeps the invariant. -/
theorem Inv.found {priv : TrackerIndexingTreePrivate} (h : Inv priv) {file : GFile}
    {func : GFile → GFile → Bool} {fd : FoundNode}
    (hfind : find_directory_node priv.config_tree file func = some fd) :
    fd.node.WF ∧
    (∀ pd, fd.parent = some pd →
      ∀ x ∈ fd.node.siblings, g_file_has_prefix x.file pd.file = true) ∧
    (∀ x ∈ fd.node.datas, x ∈ priv.config_tree.datas) ∧
    (fd.parent = none → fd.next = .null ∧ fd.data.file = priv.root) ∧
    (fd.parent ≠ none → ∀ x ∈ fd.node.datas, x.shallow = false ∧ x.owners ≠ []) := by
  obtain ⟨w1, w2⟩ := find_directory_node_from_wf priv.config_tree none fd hfind h.wf
    (by intro pd hpd; simp at hpd)
  refine ⟨w1, w2, ?_, ?_, ?_⟩
  · obtain ⟨pre, post, h1, _⟩ := find_directory_node_from_datas hfind
    intro x hx
    rw [h1]
    simp [hx]
  · obtain ⟨r, c, ht, hr, hP⟩ := h.top
    rw [ht] at hfind
    intro hp
    rcases find_directory_node_top hfind with ⟨_, q, hq⟩ | ⟨_, hfd⟩
    · rw [hq] at hp; simp at hp
    · subst hfd
      exact ⟨rfl, hr⟩
  · obtain ⟨r, c, ht, hr, hP⟩ := h.top
    rw [ht] at hfind
    intro hp
    rcases find_directory_node_top hfind with ⟨hc, q, hq⟩ | ⟨_, hfd⟩
    · obtain ⟨pre, post, h1, _⟩ := find_directory_node_from_datas hc
      intro x hx
      exact hP x (by rw [h1]; simp [hx])
    · subst hfd
      simp at hp

/-- Writing new data with the old file into a found node keeps the invariant. -/
theorem Inv.set_data {priv : TrackerIndexingTreePrivate} (h : Inv priv) {file : GFile}
    {func : GFile → GFile → Bool} {fd : FoundNode} (d' : NodeData)
    (hfind : find_directory_node priv.config_tree file func = some fd)
    (hfile : d'.file = fd.data.file)
    (hP : fd.parent ≠ none → d'.shallow = false ∧ d'.owners ≠ []) :
    Inv { priv with config_tree :=
      g_node_replace_found priv.config_tree file func (.node d' fd.children fd.next) } := by
  obtain ⟨w1, _, _, _, _⟩ := h.found hfind
  refine h.replace hfind (w1.congr_data hfile) ?_ ?_ ?_
  · intro r hr
    simp only [GNode.siblings, List.mem_cons] at hr
    rcases hr with hr | hr
    · subst hr
      exact ⟨fd.data, by simp [FoundNode.node, GNode.siblings], by rw [hfile]⟩
    · exact ⟨r, by simp [FoundNode.node, GNode.siblings, hr], List.prefix_refl _⟩
  · intro _ hn hc
    exact ⟨d', fd.children, by rw [hn], hfile, hc⟩
  · intro q hq hall x hx
    simp only [GNode.datas, List.mem_append, List.mem_cons] at hx
    rcases hx with hx | hx | hx
    · exact hall x (by simp [FoundNode.node, GNode.datas, hx])
    · subst hx
      exact hP (by rw [hq]; simp)
    · exact hall x (by simp [FoundNode.node, GNode.datas, hx])

theorem Inv.constructed (root : Option GFile) :
    Inv (tracker_indexing_tree_new_with_root root) := by
  constructor
  · exact ⟨_, _, rfl, rfl, by simp [GNode.datas]⟩
  · simp [tracker_indexing_tree_new_with_root, GNode.WF, GNode.siblings]

/-- The new children of the insertion parent: the children left in place, then the new
node with the children moved under it. -/
theorem Inv.add_new {priv : TrackerIndexingTreePrivate} (h : Inv priv) {directory : GFile}
    {parent : FoundNode} (data : NodeData) (hdata : data.file = directory)
    (hP : data.shallow = false ∧ data.owners ≠ [])
    (hnone : find_directory_node priv.config_tree directory g_file_equal = none)
    (hfind : find_directory_node priv.config_tree directory g_file_has_prefix = some parent) :
    Inv { priv with
      config_tree := g_node_replace_found priv.config_tree directory g_file_has_prefix
        (.node parent.data
          (g_node_append (check_reparent_node_kept directory parent.children)
            (.node data (check_reparent_node_moved directory parent.children) .null))
          parent.next) } := by
  obtain ⟨w1, _, hsub, _, _⟩ := h.found hfind
  obtain ⟨hf1, hf2⟩ := find_directory_node_from_some _ _ _ hfind
  have hne := (find_directory_node_eq_none_iff _ _ _).1 hnone
  have hkept : ∀ a ∈ (check_reparent_node_kept directory parent.children).siblings,
      a ∈ parent.children.siblings ∧ g_file_has_prefix a.file directory = false := by
    intro a ha
    rw [check_reparent_node_kept_siblings] at ha
    simpa using List.mem_filter.1 ha
  have hwf : (GNode.node parent.data
      (g_node_append (check_reparent_node_kept directory parent.children)
        (.node data (check_reparent_node_moved directory parent.children) .null))
      parent.next).WF := by
    refine ⟨?_, w1.2.1, ?_, w1.2.2.2⟩
    · intro x hx
      rw [g_node_append_siblings, List.mem_append] at hx
      rcases hx with hx | hx
      · exact w1.1 x (hkept x hx).1
      · simp only [GNode.siblings, List.mem_singleton] at hx
        subst hx
        rw [hdata]
        exact hf1
    · refine g_node_append_wf (check_reparent_node_kept_wf _ w1.2.2.1) ?_ ?_
      · refine ⟨?_, by simp [GNode.siblings], check_reparent_node_moved_wf _ w1.2.2.1,
          by simp [GNode.WF]⟩
        intro x hx
        rw [check_reparent_node_moved_siblings] at hx
        rw [hdata]
        exact (List.mem_filter.1 hx).2
      · intro a ha b hb
        simp only [GNode.siblings, List.mem_singleton] at hb
        subst hb
        obtain ⟨ha1, ha2⟩ := hkept a ha
        have hain : a ∈ parent.children.datas := GNode.siblings_subset_datas _ a ha1
        have hne' : a.file ≠ directory := by
          have := hne a (hsub a (by simp [FoundNode.node, GNode.datas, hain]))
          intro e
          rw [e] at this
          simp [g_file_equal] at this
        have hnp := hf2 a hain
        rw [hdata]
        rw [parent_or_equals_false_iff, parent_or_equals_false_iff]
        constructor
        · intro hpre
          have := (g_file_has_prefix_iff a.file directory).2 ⟨hpre, hne'⟩
          rw [ha2] at this
          simp at this
        · intro hpre
          have := (g_file_has_prefix_iff directory a.file).2 ⟨hpre, fun e => hne' e.symm⟩
          rw [hnp] at this
          simp at this
  refine h.replace hfind hwf ?_ ?_ ?_
  · intro r hr
    exact ⟨r, hr, List.prefix_refl _⟩
  · intro _ hn hc
    refine ⟨parent.data, _, by rw [hn], rfl, ?_⟩
    intro x hx
    rw [g_node_append_datas] at hx
    simp only [GNode.datas, List.mem_append, List.mem_cons, List.append_nil,
      List.not_mem_nil, or_false] at hx
    have hperm := check_reparent_node_datas directory parent.children
    rcases hx with hx | hx | hx
    · exact hc x (hperm.subset (by simp [hx]))
    · exact hc x (hperm.subset (by simp [hx]))
    · subst hx; exact hP
  · intro q hq hall x hx
    simp only [GNode.datas, List.mem_append, List.mem_cons] at hx
    rw [g_node_append_datas] at hx
    simp only [GNode.datas, List.mem_append, List.mem_cons, List.append_nil,
      List.not_mem_nil, or_false] at hx
    have hperm := check_reparent_node_datas directory parent.children
    rcases hx with (hx | hx | hx) | hx | hx
    · exact hall x (by
        have := hperm.subset (show x ∈ _ ++ _ from by simp [hx])
        simp [FoundNode.node, GNode.datas, this])
    · exact hall x (by
        have := hperm.subset (show x ∈ _ ++ _ from by simp [hx])
        simp [FoundNode.node, GNode.datas, this])
    · subst hx; exact hP
    · rw [hx]; exact hall parent.data (by simp [FoundNode.node, GNode.datas])
    · exact hall x (by simp [FoundNode.node, GNode.datas, hx])

/-- Taking a node with a parent out of the tree and handing its children to the parent
keeps the invariant. -/
theorem Inv.remove_node {priv : TrackerIndexingTreePrivate} (h : Inv priv) {directory : GFile}
    {node : FoundNode} {parent : NodeData}
    (hfind : find_directory_node priv.config_tree directory g_file_equal = some node)
    (hparent : node.parent = some parent) :
    check_reparent_node_moved parent.file node.children = node.children ∧
    Inv { priv with
      config_tree := g_node_replace_found priv.config_tree directory g_file_equal
        (g_node_append node.next
          (check_reparent_node_moved parent.file node.children)) } := by
  obtain ⟨w1, w2, _, _, _⟩ := h.found hfind
  have hd := w2 parent hparent node.data (by simp [FoundNode.node, GNode.siblings])
  have hall : check_reparent_node_moved parent.file node.children = node.children := by
    apply check_reparent_node_moved_all
    intro x hx
    obtain ⟨h1, h2⟩ := (g_file_has_prefix_iff _ _).1 (w1.1 x hx)
    obtain ⟨h3, h4⟩ := (g_file_has_prefix_iff _ _).1 hd
    rw [g_file_has_prefix_iff]
    refine ⟨h3.trans h1, ?_⟩
    intro e
    rw [e] at h1
    exact h4 (prefix_antisymm h1 h3)
  refine ⟨hall, ?_⟩
  rw [hall]
  refine h.replace hfind ?_ ?_ ?_ ?_
  · refine g_node_append_wf w1.2.2.2 w1.2.2.1 ?_
    intro a ha b hb
    have := GNode.WF.next_apart w1 b (Or.inr (GNode.siblings_subset_datas _ b hb)) a
      (GNode.siblings_subset_datas _ a ha)
    rw [parent_or_equals_false_iff, parent_or_equals_false_iff]
    exact ⟨this.1, this.2⟩
  · intro r hr
    rw [g_node_append_siblings, List.mem_append] at hr
    rcases hr with hr | hr
    · exact ⟨r, by simp [FoundNode.node, GNode.siblings, hr], List.prefix_refl _⟩
    · exact ⟨node.data, by simp [FoundNode.node, GNode.siblings],
        ((g_file_has_prefix_iff _ _).1 (w1.1 r hr)).1⟩
  · intro hp
    rw [hparent] at hp
    simp at hp
  · intro q _ hall' x hx
    rw [g_node_append_datas, List.mem_append] at hx
    rcases hx with hx | hx
    · exact hall' x (by simp [FoundNode.node, GNode.datas, hx])
    · exact hall' x (by simp [FoundNode.node, GNode.datas, hx])

theorem g_list_remove_link_length (l : List NodeOwnerData) (i : Nat) :
    (g_list_remove_link l i).length = 0 ↔ g_list_remove_link l i = [] := by
  simp

theorem Inv.add {priv : TrackerIndexingTreePrivate} (h : Inv priv) (directory : GFile)
    (flags : Nat) (owner : String) :
    Inv (tracker_indexing_tree_add priv directory flags owner).1 := by
  unfold tracker_indexing_tree_add
  cases hfind : find_directory_node priv.config_tree directory g_file_equal with
  | some node =>
    simp only
    refine h.set_data _ hfind ?_ ?_
    · simp [node_update_flags_fst]
    · intro _
      simp [node_update_flags_fst]
  | none =>
    simp only
    cases hpar : find_directory_node priv.config_tree directory g_file_has_prefix with
    | none => exact h
    | some parent =>
      simp only
      exact h.add_new (node_data_new directory flags owner) rfl
        (by simp [node_data_new]) hfind hpar

theorem Inv.remove {priv : TrackerIndexingTreePrivate} (h : Inv priv) (directory : GFile)
    (owner : String) :
    Inv (tracker_indexing_tree_remove priv directory owner).1 := by
  unfold tracker_indexing_tree_remove
  cases hfind : find_directory_node priv.config_tree directory g_file_equal with
  | none => exact h
  | some node =>
    simp only
    cases hown : g_list_find_custom node.data.owners owner with
    | none => exact h
    | some item =>
      simp only
      by_cases hlen : (g_list_remove_link node.data.owners item).length = 0
      · simp only [hlen, if_true]
        cases hparent : node.parent with
        | none =>
          simp only
          refine h.set_data _ hfind rfl ?_
          intro hp
          exact absurd hparent hp
        | some parent =>
          simp only
          exact (h.remove_node hfind hparent).2
      · simp only [hlen, if_false]
        refine h.set_data _ hfind ?_ ?_
        · simp [node_update_flags_fst]
        · intro hp
          obtain ⟨_, _, _, _, hall⟩ := h.found hfind
          have := hall hp node.data (by simp [FoundNode.node, GNode.datas])
          simp only [node_update_flags_fst]
          refine ⟨this.1, ?_⟩
          intro e
          apply hlen
          rw [e]
          rfl

/-- Every engine that can be met keeps the invariant. -/
theorem Reachable.inv {priv : TrackerIndexingTreePrivate} (h : Reachable priv) : Inv priv := by
  induction h with
  | constructed root => exact Inv.constructed root
  | add _ directory flags owner ih => exact ih.add directory flags owner
  | remove _ directory owner ih => exact ih.remove directory owner
  | settings _ fp pol fh ih => exact ⟨ih.top, ih.wf⟩

/-! ## Addresses and containment -/

theorem GNode.addresses_shape (F : GNode) (up : List Nat) (i : Nat) :
    ∀ e ∈ F.addresses up i, (∃ j rest, i ≤ j ∧ e.1 = up ++ j :: rest) ∧ e.2 ∈ F.datas := by
  induction F generalizing up i with
  | null => intro e he; simp [GNode.addresses] at he
  | node d c n ihc ihn =>
    intro e he
    simp only [GNode.addresses, List.mem_append, List.mem_cons] at he
    simp only [GNode.datas, List.mem_append, List.mem_cons]
    rcases he with he | he | he
    · obtain ⟨⟨j, rest, _, h1⟩, h2⟩ := ihc (up ++ [i]) 0 e he
      exact ⟨⟨i, j :: rest, le_refl _, by simp [h1]⟩, Or.inl h2⟩
    · subst he
      exact ⟨⟨i, [], le_refl _, rfl⟩, Or.inr (Or.inl rfl)⟩
    · obtain ⟨⟨j, rest, h0, h1⟩, h2⟩ := ihn up (i + 1) e he
      exact ⟨⟨j, rest, by omega, h1⟩, Or.inr (Or.inr h2)⟩

theorem address_prefix_index {up r1 r2 : List Nat} {i j : Nat}
    (h : up ++ i :: r1 <+: up ++ j :: r2) : i = j := by
  rw [List.prefix_append_right_inj, List.cons_prefix_cons] at h
  exact h.1

/-- In a well shaped chain the files are ordered by containment exactly as the
addresses are: the file of `b` is the file of `a` or holds it, if and only if the node
`b` is the node `a` or above it. -/
theorem GNode.WF.addresses_iff {F : GNode} (h : F.WF) (up : List Nat) (i : Nat) :
    ∀ ea ∈ F.addresses up i, ∀ eb ∈ F.addresses up i,
      (eb.2.file <+: ea.2.file ↔ eb.1 <+: ea.1) := by
  induction F generalizing up i with
  | null => intro ea he; simp [GNode.addresses] at he
  | node d c n ihc ihn =>
    have hin := h.children_inside
    have hap := h.next_apart
    intro ea ha eb hb
    simp only [GNode.addresses, List.mem_append, List.mem_cons] at ha hb
    -- the three places a node can be in: below `d`, `d` itself, after `d`
    have hC : ∀ e ∈ c.addresses (up ++ [i]) 0,
        (∃ j rest, e.1 = up ++ i :: j :: rest) ∧ e.2 ∈ c.datas := by
      intro e he
      obtain ⟨⟨j, rest, _, h1⟩, h2⟩ := GNode.addresses_shape c (up ++ [i]) 0 e he
      exact ⟨⟨j, rest, by simp [h1]⟩, h2⟩
    have hN : ∀ e ∈ n.addresses up (i + 1),
        (∃ j rest, i < j ∧ e.1 = up ++ j :: rest) ∧ e.2 ∈ n.datas := by
      intro e he
      obtain ⟨⟨j, rest, h0, h1⟩, h2⟩ := GNode.addresses_shape n up (i + 1) e he
      exact ⟨⟨j, rest, by omega, h1⟩, h2⟩
    have apart : ∀ x y : List Nat × NodeData,
        ((∃ rest, x.1 = up ++ i :: rest) ∧ (x.2 = d ∨ x.2 ∈ c.datas)) →
        y ∈ n.addresses up (i + 1) →
        (y.2.file <+: x.2.file ↔ y.1 <+: x.1) ∧ (x.2.file <+: y.2.file ↔ x.1 <+: y.1) := by
      intro x y ⟨⟨rx, hx1⟩, hx2⟩ hy
      obtain ⟨⟨j, ry, hj, hy1⟩, hy2⟩ := hN y hy
      obtain ⟨f1, f2⟩ := hap x.2 hx2 y.2 hy2
      constructor
      · constructor
        · intro hf; exact absurd hf f2
        · intro hp
          rw [hx1, hy1] at hp
          have := address_prefix_index hp
          omega
      · constructor
        · intro hf; exact absurd hf f1
        · intro hp
          rw [hx1, hy1] at hp
          have := address_prefix_index hp
          omega
    have inC : ∀ e ∈ c.addresses (up ++ [i]) 0,
        (∃ rest, e.1 = up ++ i :: rest) ∧ (e.2 = d ∨ e.2 ∈ c.datas) := by
      intro e he
      obtain ⟨⟨j, rest, h1⟩, h2⟩ := hC e he
      exact ⟨⟨j :: rest, h1⟩, Or.inr h2⟩
    have inD : (∃ rest, ((up ++ [i], d) : List Nat × NodeData).1 = up ++ i :: rest) ∧
        (((up ++ [i], d) : List Nat × NodeData).2 = d ∨
          ((up ++ [i], d) : List Nat × NodeData).2 ∈ c.datas) :=
      ⟨⟨[], rfl⟩, Or.inl rfl⟩
    rcases ha with ha | ha | ha <;> rcases hb with hb | hb | hb
    · exact ihc h.2.2.1 (up ++ [i]) 0 ea ha eb hb
    · subst hb
      obtain ⟨⟨j, rest, h1⟩, h2⟩ := hC ea ha
      simp only [h1]
      constructor
      · intro _
        exact ⟨j :: rest, by simp⟩
      · intro _
        exact (hin ea.2 h2).1
    · exact (apart ea eb (inC ea ha) hb).1
    · subst ha
      obtain ⟨⟨j, rest, h1⟩, h2⟩ := hC eb hb
      simp only [h1]
      constructor
      · intro hf
        exact absurd (prefix_antisymm hf (hin eb.2 h2).1) (hin eb.2 h2).2
      · intro hp
        have := hp.length_le
        simp at this
    · subst ha; subst hb
      simp
    · subst ha
      exact (apart _ eb inD hb).1
    · exact (apart eb ea (inC eb hb) ha).2
    · subst hb
      exact (apart _ ea inD ha).2
    · exact ihn h.2.2.2 up (i + 1) ea ha eb hb

/-- In a well shaped chain that lies inside its parent, every node with a parent lies
strictly inside that parent. -/
theorem GNode.WF.edges_inside {F : GNode} (h : F.WF) (q : Option NodeData)
    (hq : ∀ pd, q = some pd → ∀ x ∈ F.siblings, g_file_has_prefix x.file pd.file = true) :
    ∀ e ∈ F.edges q, ∀ p, e.1 = some p → g_file_has_prefix e.2.file p.file = true := by
  induction F generalizing q with
  | null => intro e he; simp [GNode.edges] at he
  | node d c n ihc ihn =>
    intro e he p hp
    simp only [GNode.edges, List.mem_append, List.mem_cons] at he
    rcases he with he | he | he
    · refine ihc h.2.2.1 (some d) ?_ e he p hp
      intro pd hpd x hx
      simp only [Option.some.injEq] at hpd
      subst hpd
      exact h.1 x hx
    · subst he
      exact hq p hp d (by simp [GNode.siblings])
    · refine ihn h.2.2.2 q ?_ e he p hp
      intro pd hpd x hx
      exact hq pd hpd x (by simp [GNode.siblings, hx])

/-! ## Addresses name the nodes -/

/-- Every node has one address: the addresses list the nodes in post order. -/
theorem GNode.addresses_map_snd (F : GNode) (up : List Nat) (i : Nat) :
    (F.addresses up i).map Prod.snd = F.datas := by
  induction F generalizing up i with
  | null => simp [GNode.addresses, GNode.datas]
  | node d c n ihc ihn => simp [GNode.addresses, GNode.datas, ihc, ihn]

/-- No two nodes have the same address. -/
theorem GNode.addresses_nodup (F : GNode) (up : List Nat) (i : Nat) :
    ((F.addresses up i).map Prod.fst).Nodup := by
  induction F generalizing up i with
  | null => simp [GNode.addresses]
  | node d c n ihc ihn =>
    simp only [GNode.addresses, List.map_append, List.map_cons]
    rw [List.nodup_append]
    refine ⟨ihc (up ++ [i]) 0, ?_, ?_⟩
    · rw [List.nodup_cons]
      refine ⟨?_, ihn up (i + 1)⟩
      intro hmem
      obtain ⟨e, he, h1⟩ := List.mem_map.1 hmem
      obtain ⟨⟨j, rest, hj, h2⟩, _⟩ := GNode.addresses_shape n up (i + 1) e he
      rw [h2] at h1
      have := List.append_cancel_left h1
      simp only [List.cons.injEq] at this
      omega
    · intro a ha hb
      obtain ⟨e, he, h1⟩ := List.mem_map.1 ha
      obtain ⟨⟨j, rest, _, h2⟩, _⟩ := GNode.addresses_shape c (up ++ [i]) 0 e he
      rw [h2] at h1
      rcases List.mem_cons.1 hb with hb | hb
      · rw [hb] at h1
        have := congrArg List.length h1
        simp at this
      · obtain ⟨e', he', h1'⟩ := List.mem_map.1 hb
        obtain ⟨⟨k, rest', hk, h2'⟩, _⟩ := GNode.addresses_shape n up (i + 1) e' he'
        rw [h2', ← h1] at h1'
        simp only [List.append_assoc, List.singleton_append] at h1'
        have := List.append_cancel_left h1'
        simp only [List.cons.injEq] at this
        omega

/-! ## The invariants of the tree -/

theorem scenario_a_b_reachable : Reachable scenario_a_b :=
  Reachable.add (Reachable.constructed none) _ _ _

theorem scenario_reparent_reachable : Reachable scenario_reparent :=
  Reachable.add scenario_a_b_reachable _ _ _

/-- C3: after any sequence of add/remove calls starting from a fresh tree, the tree
encodes path containment exactly: for two distinct nodes `a` and `b` (nodes at
different addresses), the file of `a` lies strictly inside the file of `b` if and only
if `b` is an ancestor of `a`, that is, the address of `b` is a strict prefix of the
address of `a`. -/
theorem tree_encodes_containment (priv : TrackerIndexingTreePrivate) (h : Reachable priv)
    (pa pb : List Nat) (a b : NodeData)
    (ha : (pa, a) ∈ priv.config_tree.addresses [] 0)
    (hb : (pb, b) ∈ priv.config_tree.addresses [] 0)
    (hne : pa ≠ pb) :
    g_file_has_prefix a.file b.file = true ↔ (pb <+: pa ∧ pb ≠ pa) := by
  have hiff := h.inv.wf.addresses_iff [] 0
  rw [g_file_has_prefix_iff]
  constructor
  · rintro ⟨h1, _⟩
    exact ⟨(hiff (pa, a) ha (pb, b) hb).1 h1, fun e => hne e.symm⟩
  · rintro ⟨h1, _⟩
    refine ⟨(hiff (pa, a) ha (pb, b) hb).2 h1, ?_⟩
    intro e
    have h2 : pa <+: pb := (hiff (pb, b) hb (pa, a) ha).1 (by simp [e])
    exact hne (h2.eq_of_length_le h1.length_le)

/-- Scenario 3: `/a/b`, at address `[0, 0, 0]`, lies strictly inside `/a`, at `[0, 0]`. -/
theorem tree_encodes_containment_witness :
    Reachable scenario_reparent ∧
    ([0, 0, 0], scenario_reparent_a_b) ∈ scenario_reparent.config_tree.addresses [] 0 ∧
    ([0, 0], scenario_reparent_a) ∈ scenario_reparent.config_tree.addresses [] 0 ∧
    ([0, 0, 0] : List Nat) ≠ [0, 0] ∧
    ( g_file_has_prefix scenario_reparent_a_b.file scenario_reparent_a.file = true ↔
      (([0, 0] : List Nat) <+: [0, 0, 0] ∧ ([0, 0] : List Nat) ≠ [0, 0, 0])) :=
  ⟨scenario_reparent_reachable, by decide, by decide, by decide,
    tree_encodes_containment scenario_reparent scenario_reparent_reachable [0, 0, 0] [0, 0]
      scenario_reparent_a_b scenario_reparent_a (by decide) (by decide) (by decide)⟩

/-- C4: after any sequence of add/remove calls starting from a fresh tree, every node
other than the master root has a path that lies strictly inside its parent's path: of
every node paired with its parent, either there is no parent and the node is the master
root, or the file of the node has the file of the parent as a strict prefix. -/
theorem child_strictly_inside_parent (priv : TrackerIndexingTreePrivate)
    (h : Reachable priv) (e : Option NodeData × NodeData)
    (he : e ∈ priv.config_tree.edges none) :
    (e.1 = none ∧ e.2.file = priv.root) ∨
    (∃ p, e.1 = some p ∧ g_file_has_prefix e.2.file p.file = true) := by
  have hinv := h.inv
  cases hp : e.1 with
  | some p =>
    right
    refine ⟨p, rfl, ?_⟩
    exact hinv.wf.edges_inside none (by intro pd hpd; simp at hpd) e he p hp
  | none =>
    left
    refine ⟨rfl, ?_⟩
    obtain ⟨r, c, ht, hr, _⟩ := hinv.top
    rw [ht] at he
    simp only [GNode.edges, List.mem_append, List.mem_cons, List.not_mem_nil, or_false] at he
    rcases he with he | he
    · rcases GNode.edges_parent c (some r) e he with h1 | ⟨x, _, h1⟩
      · rw [hp] at h1; simp at h1
      · rw [hp] at h1; simp at h1
    · rw [he]
      exact hr

/-- Scenario 3: the node for `/a/b` has the node for `/a` as parent and lies inside it. -/
theorem child_strictly_inside_parent_witness :
    Reachable scenario_reparent ∧
    (some scenario_reparent_a, scenario_reparent_a_b) ∈
      scenario_reparent.config_tree.edges none ∧
    ((some scenario_reparent_a = none ∧ scenario_reparent_a_b.file = scenario_reparent.root) ∨
     (∃ p, some scenario_reparent_a = some p ∧
        g_file_has_prefix scenario_reparent_a_b.file p.file = true)) :=
  ⟨scenario_reparent_reachable, by decide,
    child_strictly_inside_parent scenario_reparent scenario_reparent_reachable
      (some scenario_reparent_a, scenario_reparent_a_b) (by decide)⟩

/-- C5: after any sequence of add/remove calls starting from a fresh tree, no two nodes
of the tree have equal paths: the files of the nodes, listed node by node, contain no
file twice. -/
theorem no_two_nodes_share_a_path (priv : TrackerIndexingTreePrivate) (h : Reachable priv) :
    (priv.config_tree.datas.map (·.file)).Nodup :=
  h.inv.wf.nodup_files

/-- Scenario 3: the three nodes have three different files. -/
theorem no_two_nodes_share_a_path_witness :
    Reachable scenario_reparent ∧
    (scenario_reparent.config_tree.datas.map (·.file)).Nodup :=
  ⟨scenario_reparent_reachable,
    no_two_nodes_share_a_path scenario_reparent scenario_reparent_reachable⟩

/-! ## `get_root` -/

theorem GNode.WF.eq_of_file_eq {F : GNode} (h : F.WF) {x y : NodeData} (hx : x ∈ F.datas)
    (hy : y ∈ F.datas) (e : x.file = y.file) : x = y :=
  List.inj_on_of_nodup_map h.nodup_files hx hy e

/-- The first node in post order for which `func` holds is the deepest one, when `func`
only holds of files that equal or hold `file`: every other node for which it holds
equals or holds the node found. -/
theorem find_directory_node_from_deepest {file : GFile} {func : GFile → GFile → Bool}
    (hfunc : ∀ x, func file x = true → x <+: file) :
    ∀ (F : GNode) (parent : Option NodeData) (fd : FoundNode),
      find_directory_node_from parent F file func = some fd → F.WF →
      ∀ m ∈ F.datas, func file m.file = true → m.file <+: fd.data.file := by
  intro F
  induction F with
  | null => intro parent fd h; simp [find_directory_node_from] at h
  | node d c n ihc ihn =>
    intro parent fd h wf m hm hmf
    have hin := wf.children_inside
    have hap := wf.next_apart
    have hfd := hfunc _ (find_directory_node_from_some _ _ _ h).1
    simp only [find_directory_node_from] at h
    simp only [GNode.datas, List.mem_append, List.mem_cons] at hm
    cases hc : find_directory_node_from (some d) c file func with
    | some fd' =>
      rw [hc] at h
      simp only [Option.some.injEq] at h
      subst h
      obtain ⟨pre, post, h1, _⟩ := find_directory_node_from_datas hc
      have hfdc : fd'.data ∈ c.datas := by
        rw [h1]; simp [FoundNode.node, GNode.datas]
      rcases hm with hm | hm | hm
      · exact ihc (some d) fd' hc wf.2.2.1 m hm hmf
      · subst hm
        exact (hin fd'.data hfdc).1
      · exfalso
        obtain ⟨f1, f2⟩ := hap fd'.data (Or.inr hfdc) m hm
        rcases List.prefix_or_prefix_of_prefix hfd (hfunc _ hmf) with h | h
        · exact f1 h
        · exact f2 h
    | none =>
      rw [hc] at h
      simp only at h
      have hcnone := (find_directory_node_from_eq_none_iff _ _ _ _).1 hc
      by_cases hd : func file d.file = true
      · simp only [hd, if_true, Option.some.injEq] at h
        subst h
        rcases hm with hm | hm | hm
        · have := hcnone m hm
          rw [hmf] at this
          simp at this
        · subst hm
          exact List.prefix_refl _
        · exfalso
          obtain ⟨f1, f2⟩ := hap d (Or.inl rfl) m hm
          rcases List.prefix_or_prefix_of_prefix hfd (hfunc _ hmf) with h | h
          · exact f1 h
          · exact f2 h
      · simp only [hd, if_false, Bool.false_eq_true] at h
        rcases hm with hm | hm | hm
        · have := hcnone m hm
          rw [hmf] at this
          simp at this
        · subst hm
          exact absurd hmf hd
        · exact ihn parent fd h wf.2.2.2 m hm hmf

theorem equal_or_inside_iff (file f : GFile) :
    (file = f ∨ g_file_has_prefix file f = true) ↔ f <+: file := by
  rw [← parent_or_equals_iff, parent_or_equals, Bool.or_eq_true, g_file_equal_iff]

/-- C1: for every tree reachable from a freshly constructed tree by add/remove calls,
and for every file, `get_root (file)` returns `(n.path, n.flags)` where `n` is the
deepest (longest path) non-shallow node whose path equals `file` or strictly contains
it, and returns nothing exactly when no non-shallow node equals or contains `file`. -/
theorem get_root_deepest_non_shallow (priv : TrackerIndexingTreePrivate)
    (h : Reachable priv) (file : GFile) :
    (∀ root flags, tracker_indexing_tree_get_root priv file = (some root, flags) ↔
      ∃ n ∈ priv.config_tree.datas,
        n.file = root ∧ n.flags = flags ∧ n.shallow = false ∧
        (file = n.file ∨ g_file_has_prefix file n.file = true) ∧
        ∀ m ∈ priv.config_tree.datas, m.shallow = false →
          (file = m.file ∨ g_file_has_prefix file m.file = true) →
          m.file.length ≤ n.file.length) ∧
    ((tracker_indexing_tree_get_root priv file).1 = none ↔
      ∀ n ∈ priv.config_tree.datas, n.shallow = false →
        ¬ (file = n.file ∨ g_file_has_prefix file n.file = true)) := by
  have hinv := h.inv
  simp only [equal_or_inside_iff]
  unfold tracker_indexing_tree_get_root
  cases hfind : find_directory_node priv.config_tree file parent_or_equals with
  | none =>
    have hnone := (find_directory_node_eq_none_iff _ _ _).1 hfind
    simp only [parent_or_equals_false_iff] at hnone
    simp only
    constructor
    · intro root flags
      constructor
      · intro e; simp at e
      · rintro ⟨n, hn, _, _, _, hpre, _⟩
        exact absurd hpre (hnone n hn)
    · simp only [true_iff]
      intro n hn _
      exact hnone n hn
  | some fd =>
    obtain ⟨_, _, hsub, _, hnonroot⟩ := hinv.found hfind
    have hfd := (parent_or_equals_iff _ _).1 (find_directory_node_from_some _ _ _ hfind).1
    have hdeep : ∀ m ∈ priv.config_tree.datas, m.file <+: file → m.file <+: fd.data.file :=
      fun m hm hmf => find_directory_node_from_deepest
        (fun x hx => (parent_or_equals_iff _ _).1 hx) _ _ _ hfind hinv.wf m hm
        ((parent_or_equals_iff _ _).2 hmf)
    have hmem : fd.data ∈ priv.config_tree.datas :=
      hsub fd.data (by simp [FoundNode.node, GNode.datas])
    have hpoe : (g_file_equal file fd.data.file || g_file_has_prefix file fd.data.file) = true :=
      (parent_or_equals_iff _ _).2 hfd
    simp only [hpoe, Bool.and_true]
    cases hsh : fd.data.shallow with
    | false =>
      simp only [Bool.not_false, if_true]
      constructor
      · intro root flags
        simp only [Prod.mk.injEq, Option.some.injEq]
        constructor
        · rintro ⟨e1, e2⟩
          refine ⟨fd.data, hmem, e1, e2, hsh, hfd, ?_⟩
          intro m hm _ hmf
          exact (hdeep m hm hmf).length_le
        · rintro ⟨n, hn, e1, e2, hns, hnf, hmax⟩
          have h1 : n.file <+: fd.data.file := hdeep n hn hnf
          have h2 : fd.data.file.length ≤ n.file.length := hmax fd.data hmem hsh hfd
          have h3 : n.file = fd.data.file := h1.eq_of_length_le h2
          have h4 : n = fd.data := hinv.wf.eq_of_file_eq hn hmem h3
          subst h4
          exact ⟨e1, e2⟩
      · simp only [reduceCtorEq, false_iff, not_forall, not_not]
        exact ⟨fd.data, hmem, hsh, hfd⟩
    | true =>
      simp only [Bool.not_true, Bool.false_eq_true, if_false]
      have hpar : fd.parent = none := by
        by_contra hp
        have := (hnonroot hp fd.data (by simp [FoundNode.node, GNode.datas])).1
        rw [hsh] at this
        simp at this
      have hno : ∀ n ∈ priv.config_tree.datas, n.shallow = false → ¬ n.file <+: file := by
        intro n hn hns hnf
        have h1 : n.file <+: fd.data.file := hdeep n hn hnf
        obtain ⟨r, c, ht, hr, _⟩ := hinv.top
        rw [ht] at hfind
        rcases find_directory_node_top hfind with ⟨_, q, hq⟩ | ⟨_, hfdeq⟩
        · rw [hq] at hpar; simp at hpar
        · subst hfdeq
          simp only at h1 hsh
          rw [ht] at hn
          simp only [GNode.datas, List.mem_append, List.mem_cons, List.not_mem_nil,
            or_false] at hn
          rcases hn with hn | hn
          · have := GNode.WF.children_inside (by rw [← ht]; exact hinv.wf) n hn
            exact this.2 (prefix_antisymm h1 this.1)
          · subst hn
            rw [hsh] at hns
            simp at hns
      constructor
      · intro root flags
        constructor
        · intro e; simp at e
        · rintro ⟨n, hn, _, _, hns, hnf, _⟩
          exact absurd hnf (hno n hn hns)
      · simp only [true_iff]
        exact hno

/-- Scenario 3: the root of `/a/b/c` is `/a/b`, not `/a`. -/
theorem get_root_deepest_non_shallow_witness :
    Reachable scenario_reparent ∧
    tracker_indexing_tree_get_root scenario_reparent ["a", "b", "c"] =
      (some ["a", "b"], TRACKER_DIRECTORY_FLAG_RECURSE) ∧
    ((∀ root flags,
      tracker_indexing_tree_get_root scenario_reparent ["a", "b", "c"] = (some root, flags) ↔
      ∃ n ∈ scenario_reparent.config_tree.datas,
        n.file = root ∧ n.flags = flags ∧ n.shallow = false ∧
        (["a", "b", "c"] = n.file ∨ g_file_has_prefix ["a", "b", "c"] n.file = true) ∧
        ∀ m ∈ scenario_reparent.config_tree.datas, m.shallow = false →
          (["a", "b", "c"] = m.file ∨ g_file_has_prefix ["a", "b", "c"] m.file = true) →
          m.file.length ≤ n.file.length) ∧
    ((tracker_indexing_tree_get_root scenario_reparent ["a", "b", "c"]).1 = none ↔
      ∀ n ∈ scenario_reparent.config_tree.datas, n.shallow = false →
        ¬ (["a", "b", "c"] = n.file ∨ g_file_has_prefix ["a", "b", "c"] n.file = true))) :=
  ⟨scenario_reparent_reachable, by decide,
    get_root_deepest_non_shallow scenario_reparent scenario_reparent_reachable
      ["a", "b", "c"]⟩

/-! ## `is_indexable` -/

/-- C2: for every engine state (reachable or not), every file and every file kind other
than `UNKNOWN`, `is_indexable (file, file_kind)` is true if and only if `get_root (file)`
yields some `(root, flags)`, `flags` lacks `IGNORE`, `is_filtered_out` of the `DIRECTORY`
or `FILE` filter (according to `file_kind`) is false for `file`, and either
`file == root`, or (`flags` has `RECURSE` or the parent of `file` is `root`) and not (the
hidden toggle is on and `file` is hidden). -/
theorem file_is_indexable_iff (env : Collaborators) (priv : TrackerIndexingTreePrivate)
    (file : GFile) (file_type : GFileType) (hk : file_type ≠ .G_FILE_TYPE_UNKNOWN) :
    tracker_indexing_tree_file_is_indexable env priv file file_type = true ↔
      ∃ root flags, tracker_indexing_tree_get_root priv file = (some root, flags) ∧
        flags &&& TRACKER_DIRECTORY_FLAG_IGNORE = 0 ∧
        indexing_tree_file_is_filtered env priv
          (if file_type = .G_FILE_TYPE_DIRECTORY then .TRACKER_FILTER_DIRECTORY
            else .TRACKER_FILTER_FILE) file = false ∧
        (file = root ∨
          ((flags &&& TRACKER_DIRECTORY_FLAG_RECURSE ≠ 0 ∨
              g_file_has_parent file root = true) ∧
            ¬ (priv.filter_hidden = true ∧ env.tracker_file_is_hidden file = true))) := by
  unfold tracker_indexing_tree_file_is_indexable
  rcases hroot : tracker_indexing_tree_get_root priv file with ⟨_ | config_file, config_flags⟩
  · simp
  · simp only [hk, false_and, if_false, ne_eq, not_false_eq_true, if_true,
      Prod.mk.injEq, Option.some.injEq, tracker_indexing_tree_get_filter_hidden]
    constructor
    · intro hres
      refine ⟨config_file, config_flags, ⟨rfl, rfl⟩, ?_⟩
      by_cases hf : indexing_tree_file_is_filtered env priv
          (if file_type = .G_FILE_TYPE_DIRECTORY then .TRACKER_FILTER_DIRECTORY
            else .TRACKER_FILTER_FILE) file = true
      · simp [hf] at hres
      · simp only [hf, Bool.false_eq_true, if_false] at hres
        by_cases hi : config_flags &&& TRACKER_DIRECTORY_FLAG_IGNORE = 0
        · simp only [hi, not_true_eq_false, if_false] at hres
          refine ⟨hi, by simpa using hf, ?_⟩
          by_cases he : g_file_equal file config_file = true
          · exact Or.inl ((g_file_equal_iff _ _).1 he)
          · simp only [he, Bool.false_eq_true, if_false] at hres
            right
            by_cases hr : config_flags &&& TRACKER_DIRECTORY_FLAG_RECURSE = 0 ∧
                ¬ g_file_has_parent file config_file = true
            · simp [hr] at hres
            · simp only [hr, if_false] at hres
              by_cases hh : priv.filter_hidden = true ∧ env.tracker_file_is_hidden file = true
              · simp [hh] at hres
              · refine ⟨?_, hh⟩
                by_cases h0 : config_flags &&& TRACKER_DIRECTORY_FLAG_RECURSE = 0
                · right
                  by_contra hp
                  exact hr ⟨h0, hp⟩
                · exact Or.inl h0
        · simp [hi] at hres
    · rintro ⟨root, flags, ⟨e1, e2⟩, hi, hf, hrest⟩
      subst e1; subst e2
      simp only [hf, Bool.false_eq_true, if_false, hi, not_true_eq_false]
      by_cases he : g_file_equal file config_file = true
      · simp [he]
      · simp only [he, Bool.false_eq_true, if_false]
        rcases hrest with hrest | ⟨hrp, hh⟩
        · exact absurd ((g_file_equal_iff _ _).2 hrest) he
        · have hr : ¬ (config_flags &&& TRACKER_DIRECTORY_FLAG_RECURSE = 0 ∧
              ¬ g_file_has_parent file config_file = true) := by
            rintro ⟨h0, hp⟩
            rcases hrp with h | h
            · exact h h0
            · exact hp h
          simp only [hr, if_false, hh]

/-- Scenario 1: under the root `/a` that does not recurse, `/a/x` is indexable and
`/a/b/x` is not. -/
theorem file_is_indexable_iff_witness :
    GFileType.G_FILE_TYPE_REGULAR ≠ GFileType.G_FILE_TYPE_UNKNOWN ∧
    (tracker_indexing_tree_file_is_indexable scenario_collaborators scenario_non_recursive
        ["a", "x"] .G_FILE_TYPE_REGULAR = true ↔
      ∃ root flags,
        tracker_indexing_tree_get_root scenario_non_recursive ["a", "x"] = (some root, flags) ∧
        flags &&& TRACKER_DIRECTORY_FLAG_IGNORE = 0 ∧
        indexing_tree_file_is_filtered scenario_collaborators scenario_non_recursive
          (if GFileType.G_FILE_TYPE_REGULAR = .G_FILE_TYPE_DIRECTORY then
            .TRACKER_FILTER_DIRECTORY else .TRACKER_FILTER_FILE) ["a", "x"] = false ∧
        (["a", "x"] = root ∨
          ((flags &&& TRACKER_DIRECTORY_FLAG_RECURSE ≠ 0 ∨
              g_file_has_parent ["a", "x"] root = true) ∧
            ¬ (scenario_non_recursive.filter_hidden = true ∧
              scenario_collaborators.tracker_file_is_hidden ["a", "x"] = true)))) ∧
    tracker_indexing_tree_file_is_indexable scenario_collaborators scenario_non_recursive
      ["a", "x"] .G_FILE_TYPE_REGULAR = true ∧
    tracker_indexing_tree_file_is_indexable scenario_collaborators scenario_non_recursive
      ["a", "b", "x"] .G_FILE_TYPE_REGULAR = false :=
  ⟨by decide,
    file_is_indexable_iff scenario_collaborators scenario_non_recursive ["a", "x"]
      .G_FILE_TYPE_REGULAR (by decide),
    by decide, by decide⟩

/-! ## The edges around a found node -/

/-- In a well shaped tree the edges split into those of the node found (with all below
and after it) and the rest; the rest stays under a store through the node found, and
no node of the rest, nor the parent of one, is a node of the part found. -/
theorem find_directory_node_edges {file : GFile} {func : GFile → GFile → Bool} {F : GNode}
    {fd : FoundNode} (hfind : find_directory_node F file func = some fd) (hwf : F.WF) :
    ∃ rest : List (Option NodeData × NodeData),
      (∀ e, e ∈ F.edges none ↔ e ∈ rest ∨ e ∈ fd.node.edges fd.parent) ∧
      (∀ repl e, e ∈ (g_node_replace_found F file func repl).edges none ↔
        e ∈ rest ∨ e ∈ repl.edges fd.parent) ∧
      (∀ repl, ((g_node_replace_found F file func repl).datas).Perm
        (rest.map Prod.snd ++ repl.datas)) ∧
      (F.datas.Perm (rest.map Prod.snd ++ fd.node.datas)) ∧
      (∀ e ∈ rest, ∀ x ∈ fd.node.datas, e.2 ≠ x ∧ e.1 ≠ some x) ∧
      (∀ x ∈ fd.node.datas, fd.parent ≠ some x) := by
  obtain ⟨epre, epost, h1, h2, h3, h4⟩ := find_directory_node_from_context F none fd hfind
  have hnd := hwf.nodup_files
  have hdatas : F.datas = epre.map Prod.snd ++ fd.node.datas ++ epost.map Prod.snd := by
    rw [← GNode.edges_map_snd F none, h1]
    simp [GNode.edges_map_snd]
  have hdisj : ∀ e ∈ epre ++ epost, ∀ x ∈ fd.node.datas, e.2 ≠ x := by
    intro e he x hx hex
    rw [hdatas] at hnd
    simp only [List.map_append, List.append_assoc] at hnd
    rw [List.nodup_append] at hnd
    obtain ⟨_, hnd2, hd1⟩ := hnd
    rw [List.nodup_append] at hnd2
    obtain ⟨_, _, hd2⟩ := hnd2
    have hxf : x.file ∈ fd.node.datas.map (·.file) := List.mem_map_of_mem _ hx
    rcases List.mem_append.1 he with he | he
    · have : e.2.file ∈ (epre.map Prod.snd).map (·.file) :=
        List.mem_map_of_mem _ (List.mem_map_of_mem _ he)
      refine hd1 this ?_
      rw [hex]
      simp only [List.mem_append]
      exact Or.inl hxf
    · have : e.2.file ∈ (epost.map Prod.snd).map (·.file) :=
        List.mem_map_of_mem _ (List.mem_map_of_mem _ he)
      refine hd2 ?_ this
      rw [hex]
      exact hxf
  refine ⟨epre ++ epost, ?_, ?_, ?_, ?_, ?_, ?_⟩
  · intro e
    rw [h1]
    simp only [List.mem_append]
    tauto
  · intro repl e
    rw [h4 repl]
    simp only [List.mem_append]
    tauto
  · intro repl
    rw [← GNode.edges_map_snd _ none, h4 repl]
    simp only [List.map_append, GNode.edges_map_snd, List.append_assoc]
    exact List.Perm.append_left _ List.perm_append_comm
  · rw [hdatas]
    simp only [List.map_append, List.append_assoc]
    exact List.Perm.append_left _ List.perm_append_comm
  · intro e he x hx
    refine ⟨hdisj e he x hx, ?_⟩
    intro hp
    rcases h2 e he with h | ⟨e', he', h⟩
    · rw [hp] at h; simp at h
    · rw [hp] at h
      simp only [Option.some.injEq] at h
      exact hdisj e' he' x hx h.symm
  · intro x hx hp
    rcases h3 with h | ⟨e', he', h⟩
    · rw [hp] at h; simp at h
    · rw [hp] at h
      simp only [Option.some.injEq] at h
      exact hdisj e' he' x hx h.symm

/-! ## Stored flags and derived flags -/

/-- C6, at the input where the code departs from it: `add (/a, IGNORE | MONITOR, o)` on
a fresh tree is a reachable state in which the node for `/a` has the single owner
`(o, IGNORE | MONITOR)` and stores the flags `IGNORE | MONITOR` (24) as given, while
the flags derived from its owners, `node_get_flags`, are `IGNORE` alone (16): the
stored flags of a node just created are not the derived ones. -/
theorem new_node_flags_not_derived :
    Reachable scenario_ignore_monitor ∧
    ∃ data ∈ scenario_ignore_monitor.config_tree.datas,
      data.file = ["a"] ∧
      data.owners = [{ name := "o", flags := 24 }] ∧
      data.flags = TRACKER_DIRECTORY_FLAG_IGNORE ||| TRACKER_DIRECTORY_FLAG_MONITOR ∧
      node_get_flags data = TRACKER_DIRECTORY_FLAG_IGNORE ∧
      data.flags ≠ node_get_flags data :=
  ⟨Reachable.add (Reachable.constructed none) _ _ _,
    { file := ["a"], flags := 24, shallow := false, owners := [{ name := "o", flags := 24 }] },
    by decide, by decide, by decide, by decide, by decide, by decide⟩

/-! ## Adding a root that has no node yet -/

/-- No edge around or below a found node has that node as the parent of its child,
apart from the edges to its children. -/
theorem found_not_parent {fd : FoundNode} (w1 : fd.node.WF)
    (d2 : ∀ x ∈ fd.node.datas, fd.parent ≠ some x) :
    fd.parent ≠ some fd.data ∧
    (∀ e ∈ fd.next.edges fd.parent, e.1 ≠ some fd.data ∧ e.2 ≠ fd.data) ∧
    (∀ e ∈ fd.children.deep_edges, e.1 ≠ some fd.data ∧ e.2 ≠ fd.data) ∧
    (∀ x ∈ fd.children.siblings, x ≠ fd.data) := by
  have hin := GNode.WF.children_inside w1
  have hap := GNode.WF.next_apart w1
  have hself : fd.data ∈ fd.node.datas := by simp [FoundNode.node, GNode.datas]
  refine ⟨d2 fd.data hself, ?_, ?_, ?_⟩
  · intro e he
    have hnot : ∀ x ∈ fd.next.datas, x ≠ fd.data := by
      intro x hx ex
      have := (hap fd.data (Or.inl rfl) x hx).1
      rw [ex] at this
      exact this (List.prefix_refl _)
    refine ⟨?_, hnot e.2 (GNode.mem_datas_of_mem_edges he)⟩
    rcases GNode.edges_parent fd.next fd.parent e he with h | ⟨x, hx, h⟩
    · rw [h]; exact d2 fd.data hself
    · rw [h]
      intro ex
      simp only [Option.some.injEq] at ex
      exact hnot x hx ex
  · intro e he
    obtain ⟨h1, x, hx, h2⟩ := GNode.deep_edges_parent fd.children e he
    refine ⟨?_, fun ex => (hin e.2 h1).2 (by rw [ex])⟩
    rw [h2]
    intro ex
    simp only [Option.some.injEq] at ex
    exact (hin x hx).2 (by rw [ex])
  · intro x hx ex
    exact (hin x (GNode.siblings_subset_datas _ x hx)).2 (by rw [ex])

/-- What `add` does for a path inside the master root that has no node yet, in a tree
that keeps the invariant: the pairs (parent, node) afterwards, the nodes afterwards and
the signal. -/
theorem Inv.add_new_node_edges {priv : TrackerIndexingTreePrivate} (hinv : Inv priv) (p : GFile)
    (f : Nat) (o : String) (N : NodeData)
    (hN : N = { file := p, flags := f, shallow := false, owners := [{ name := o, flags := f }] })
    (hin : g_file_has_prefix p priv.root = true)
    (hnew : ∀ x ∈ priv.config_tree.datas, x.file ≠ p) :
    ∃ P ∈ priv.config_tree.datas,
      g_file_has_prefix p P.file = true ∧
      (∀ m ∈ priv.config_tree.datas, g_file_has_prefix p m.file = true →
        m.file.length ≤ P.file.length) ∧
      (∀ e, e ∈ (tracker_indexing_tree_add priv p f o).1.config_tree.edges none ↔
        e = (some P, N) ∨
        (e.1 = some N ∧ (some P, e.2) ∈ priv.config_tree.edges none ∧
          g_file_has_prefix e.2.file p = true) ∨
        (e ∈ priv.config_tree.edges none ∧
          ¬ (e.1 = some P ∧ g_file_has_prefix e.2.file p = true))) ∧
      ((tracker_indexing_tree_add priv p f o).1.config_tree.datas).Perm
        (N :: priv.config_tree.datas) ∧
      (tracker_indexing_tree_add priv p f o).2 = [Signal.directory_added p] := by
  obtain ⟨r, c, ht, hr, _⟩ := hinv.top
  have hnone : find_directory_node priv.config_tree p g_file_equal = none := by
    rw [find_directory_node_eq_none_iff]
    intro x hx
    have := hnew x hx
    simp only [g_file_equal, beq_eq_false_iff_ne, ne_eq]
    exact fun e => this e.symm
  cases hpar : find_directory_node priv.config_tree p g_file_has_prefix with
  | none =>
    exfalso
    have := (find_directory_node_eq_none_iff _ _ _).1 hpar r (by rw [ht]; simp [GNode.datas])
    rw [hr, hin] at this
    simp at this
  | some fd =>
    obtain ⟨w1, _, hsub, _, _⟩ := hinv.found hpar
    obtain ⟨hf1, _⟩ := find_directory_node_from_some _ _ _ hpar
    obtain ⟨rest, e1, e2, p1, p2, d1, d2⟩ := find_directory_node_edges hpar hinv.wf
    obtain ⟨A2, A3, A4, _⟩ := found_not_parent w1 d2
    have hself : fd.data ∈ fd.node.datas := by simp [FoundNode.node, GNode.datas]
    have A1 : ∀ e ∈ rest, e.1 ≠ some fd.data := fun e he => (d1 e he fd.data hself).2
    have hadd : tracker_indexing_tree_add priv p f o =
        ({ priv with
            config_tree := g_node_replace_found priv.config_tree p g_file_has_prefix
              (.node fd.data
                (g_node_append (check_reparent_node_kept p fd.children)
                  (.node N (check_reparent_node_moved p fd.children) .null))
                fd.next) },
          [Signal.directory_added p]) := by
      simp only [tracker_indexing_tree_add, hnone, hpar, hN, node_data_new,
        node_owner_data_new]
    -- the edges of the old node and of what is stored in its place
    have hold : ∀ e, e ∈ fd.node.edges fd.parent ↔
        ((e.1 = some fd.data ∧ e.2 ∈ fd.children.siblings) ∨ e ∈ fd.children.deep_edges) ∨
        e = (fd.parent, fd.data) ∨ e ∈ fd.next.edges fd.parent := by
      intro e
      simp only [FoundNode.node, GNode.edges, List.mem_append, List.mem_cons,
        GNode.mem_edges_iff]
    have hnew' : ∀ e, e ∈ (GNode.node fd.data
          (g_node_append (check_reparent_node_kept p fd.children)
            (.node N (check_reparent_node_moved p fd.children) .null))
          fd.next).edges fd.parent ↔
        (((e.1 = some fd.data ∧ e.2 ∈ fd.children.siblings ∧
              g_file_has_prefix e.2.file p = false) ∨
            e ∈ (check_reparent_node_kept p fd.children).deep_edges) ∨
          ((e.1 = some N ∧ e.2 ∈ fd.children.siblings ∧
              g_file_has_prefix e.2.file p = true) ∨
            e ∈ (check_reparent_node_moved p fd.children).deep_edges) ∨
          e = (some fd.data, N)) ∨
        e = (fd.parent, fd.data) ∨ e ∈ fd.next.edges fd.parent := by
      intro e
      simp only [GNode.edges, g_node_append_edges, List.mem_append, List.mem_cons,
        GNode.mem_edges_iff, check_reparent_node_kept_siblings,
        check_reparent_node_moved_siblings, List.mem_filter, Bool.not_eq_true',
        List.not_mem_nil, or_false, GNode.siblings, GNode.deep_edges, List.append_nil,
        and_false, false_or]
    refine ⟨fd.data, hsub fd.data hself, hf1, ?_, ?_, ?_, ?_⟩
    · intro m hm hmf
      exact (find_directory_node_from_deepest
        (fun x hx => ((g_file_has_prefix_iff _ _).1 hx).1) _ _ _ hpar hinv.wf m hm
        hmf).length_le
    · intro e
      rw [hadd]
      simp only
      rw [e2, hnew']
      have old : ∀ x, x ∈ priv.config_tree.edges none ↔ x ∈ rest ∨
          ((x.1 = some fd.data ∧ x.2 ∈ fd.children.siblings) ∨
            x ∈ fd.children.deep_edges) ∨
          x = (fd.parent, fd.data) ∨ x ∈ fd.next.edges fd.parent := by
        intro x
        rw [e1, hold]
      constructor
      · rintro (hrest | ((((⟨k1, k2, k3⟩ | hk) | (⟨m1, m2, m3⟩ | hm) | hN') | hpd | hn)))
        · exact Or.inr (Or.inr ⟨(old e).2 (Or.inl hrest), fun hp => A1 e hrest hp.1⟩)
        · refine Or.inr (Or.inr ⟨(old e).2 (Or.inr (Or.inl (Or.inl ⟨k1, k2⟩))), ?_⟩)
          intro hp
          rw [k3] at hp
          simp at hp
        · have hdeep := (check_reparent_node_below p fd.children e).2 (Or.inl hk)
          exact Or.inr (Or.inr ⟨(old e).2 (Or.inr (Or.inl (Or.inr hdeep))),
            fun hp => (A4 e hdeep).1 hp.1⟩)
        · refine Or.inr (Or.inl ⟨m1, ?_, m3⟩)
          exact (old _).2 (Or.inr (Or.inl (Or.inl ⟨rfl, m2⟩)))
        · have hdeep := (check_reparent_node_below p fd.children e).2 (Or.inr hm)
          exact Or.inr (Or.inr ⟨(old e).2 (Or.inr (Or.inl (Or.inr hdeep))),
            fun hp => (A4 e hdeep).1 hp.1⟩)
        · exact Or.inl hN'
        · refine Or.inr (Or.inr ⟨(old e).2 (Or.inr (Or.inr (Or.inl hpd))), ?_⟩)
          intro hp
          rw [hpd] at hp
          exact A2 hp.1
        · exact Or.inr (Or.inr ⟨(old e).2 (Or.inr (Or.inr (Or.inr hn))),
            fun hp => (A3 e hn).1 hp.1⟩)
      · rintro (hN' | ⟨h1, h2, h3⟩ | ⟨h1, h2⟩)
        · exact Or.inr (Or.inl (Or.inr (Or.inr hN')))
        · rcases (old _).1 h2 with hrest | ((⟨_, hs⟩ | hdeep) | hpd | hn)
          · exact absurd rfl (A1 _ hrest)
          · exact Or.inr (Or.inl (Or.inr (Or.inl (Or.inl ⟨h1, hs, h3⟩))))
          · exact absurd rfl (A4 _ hdeep).1
          · simp only [Prod.mk.injEq] at hpd
            exact absurd hpd.1.symm A2
          · exact absurd rfl (A3 _ hn).1
        · rcases (old e).1 h1 with hrest | ((⟨c1, c2⟩ | hdeep) | hpd | hn)
          · exact Or.inl hrest
          · have hc3 : g_file_has_prefix e.2.file p = false := by
              cases hv : g_file_has_prefix e.2.file p with
              | false => rfl
              | true => exact absurd ⟨c1, hv⟩ h2
            exact Or.inr (Or.inl (Or.inl (Or.inl ⟨c1, c2, hc3⟩)))
          · rcases (check_reparent_node_below p fd.children e).1 hdeep with hk | hm
            · exact Or.inr (Or.inl (Or.inl (Or.inr hk)))
            · exact Or.inr (Or.inl (Or.inr (Or.inl (Or.inr hm))))
          · exact Or.inr (Or.inr (Or.inl hpd))
          · exact Or.inr (Or.inr (Or.inr hn))
    · rw [hadd]
      simp only
      refine (p1 _).trans ?_
      have hperm := check_reparent_node_datas p fd.children
      have h1 : (GNode.node fd.data
          (g_node_append (check_reparent_node_kept p fd.children)
            (.node N (check_reparent_node_moved p fd.children) .null))
          fd.next).datas.Perm (N :: fd.node.datas) := by
        have e0 : (GNode.node fd.data
            (g_node_append (check_reparent_node_kept p fd.children)
              (.node N (check_reparent_node_moved p fd.children) .null))
            fd.next).datas =
            (((check_reparent_node_kept p fd.children).datas ++
              (check_reparent_node_moved p fd.children).datas) ++ [N]) ++
              (fd.data :: fd.next.datas) := by
          simp [GNode.datas, g_node_append_datas]
        rw [e0]
        have e3 : N :: fd.node.datas = ([N] ++ fd.children.datas) ++
            (fd.data :: fd.next.datas) := by
          simp [FoundNode.node, GNode.datas]
        rw [e3]
        refine List.Perm.append_right _ ?_
        exact List.perm_append_comm.trans (List.Perm.append_left _ hperm)
      refine (List.Perm.append_left _ h1).trans ?_
      refine List.perm_middle.trans ?_
      exact List.Perm.cons _ p2.symm
    · rw [hadd]

/-- C7: for every reachable tree and every path `p` inside the master root that has no
node yet, `add (p, f, o)` creates the non-shallow node `N` for `p` with the single owner
`(o, f)`; its parent `P` is the deepest pre-existing node whose path strictly contains
`p`; its children are exactly the former children of `P` whose paths lie strictly
inside `p`; every other node keeps its parent, its owners and its flags; one node is
added and none is lost; and the signal emitted is `directory-added (p)`.  The pairs
(parent, node) of the new tree are exactly: `(P, N)`; `(N, c)` for the children `c` of
`P` inside `p`; and the old pairs other than those `(P, c)`. -/
theorem add_new_node (priv : TrackerIndexingTreePrivate) (h : Reachable priv) (p : GFile)
    (f : Nat) (o : String) (N : NodeData)
    (hN : N = { file := p, flags := f, shallow := false, owners := [{ name := o, flags := f }] })
    (hin : g_file_has_prefix p priv.root = true)
    (hnew : ∀ x ∈ priv.config_tree.datas, x.file ≠ p) :
    ∃ P ∈ priv.config_tree.datas,
      g_file_has_prefix p P.file = true ∧
      (∀ m ∈ priv.config_tree.datas, g_file_has_prefix p m.file = true →
        m.file.length ≤ P.file.length) ∧
      (∀ e, e ∈ (tracker_indexing_tree_add priv p f o).1.config_tree.edges none ↔
        e = (some P, N) ∨
        (e.1 = some N ∧ (some P, e.2) ∈ priv.config_tree.edges none ∧
          g_file_has_prefix e.2.file p = true) ∨
        (e ∈ priv.config_tree.edges none ∧
          ¬ (e.1 = some P ∧ g_file_has_prefix e.2.file p = true))) ∧
      ((tracker_indexing_tree_add priv p f o).1.config_tree.datas).Perm
        (N :: priv.config_tree.datas) ∧
      (tracker_indexing_tree_add priv p f o).2 = [Signal.directory_added p] :=
  h.inv.add_new_node_edges p f o N hN hin hnew

/-- Scenario 3: with `/a/b` present, adding `/a` makes `/a/b` a child of `/a`. -/
theorem add_new_node_witness :
    Reachable scenario_a_b ∧
    g_file_has_prefix ["a"] scenario_a_b.root = true ∧
    (∀ x ∈ scenario_a_b.config_tree.datas, x.file ≠ ["a"]) ∧
    (some scenario_reparent_a, scenario_reparent_a_b) ∈
      (tracker_indexing_tree_add scenario_a_b ["a"] 2 "o2").1.config_tree.edges none ∧
    (∃ P ∈ scenario_a_b.config_tree.datas,
      g_file_has_prefix ["a"] P.file = true ∧
      (∀ m ∈ scenario_a_b.config_tree.datas, g_file_has_prefix ["a"] m.file = true →
        m.file.length ≤ P.file.length) ∧
      (∀ e, e ∈ (tracker_indexing_tree_add scenario_a_b ["a"] 2 "o2").1.config_tree.edges
            none ↔
        e = (some P, scenario_reparent_a) ∨
        (e.1 = some scenario_reparent_a ∧ (some P, e.2) ∈ scenario_a_b.config_tree.edges none ∧
          g_file_has_prefix e.2.file ["a"] = true) ∨
        (e ∈ scenario_a_b.config_tree.edges none ∧
          ¬ (e.1 = some P ∧ g_file_has_prefix e.2.file ["a"] = true))) ∧
      ((tracker_indexing_tree_add scenario_a_b ["a"] 2 "o2").1.config_tree.datas).Perm
        (scenario_reparent_a :: scenario_a_b.config_tree.datas) ∧
      (tracker_indexing_tree_add scenario_a_b ["a"] 2 "o2").2 =
        [Signal.directory_added ["a"]]) :=
  ⟨scenario_a_b_reachable, by decide, by decide, by decide,
    add_new_node scenario_a_b scenario_a_b_reachable ["a"] 2 "o2" scenario_reparent_a rfl
      (by decide) (by decide)⟩

/-! ## Adding an owner to a node that exists -/

theorem GNode.map_id_of {g : NodeData → NodeData} :
    ∀ (F : GNode), (∀ x ∈ F.datas, g x = x) → F.map g = F := by
  intro F
  induction F with
  | null => intro _; rfl
  | node d c n ihc ihn =>
    intro hall
    simp only [GNode.datas, List.mem_append, List.mem_cons] at hall
    simp only [GNode.map]
    rw [hall d (Or.inr (Or.inl rfl)), ihc (fun x hx => hall x (Or.inl hx)),
      ihn (fun x hx => hall x (Or.inr (Or.inr hx)))]

/-- Writing new data into the node found by its file changes the data of that node and
nothing else, the files of the nodes being all different. -/
theorem g_node_replace_found_eq_map {file : GFile} (d' : NodeData) :
    ∀ (F : GNode) (parent : Option NodeData) (fd : FoundNode),
      find_directory_node_from parent F file g_file_equal = some fd →
      (F.datas.map (·.file)).Nodup →
      g_node_replace_found F file g_file_equal (.node d' fd.children fd.next) =
        F.map (fun x => if x.file = file then d' else x) := by
  intro F
  induction F with
  | null => intro parent fd h; simp [find_directory_node_from] at h
  | node d c n ihc ihn =>
    intro parent fd h hnd
    have hfd := (g_file_equal_iff _ _).1 (find_directory_node_from_some _ _ _ h).1
    simp only [GNode.datas, List.map_append, List.map_cons] at hnd
    rw [List.nodup_append] at hnd
    obtain ⟨ndc, ndn, hdisj⟩ := hnd
    rw [List.nodup_cons] at ndn
    obtain ⟨hdn, ndn⟩ := ndn
    rw [g_node_replace_found_node]
    simp only [find_directory_node_from] at h
    simp only [GNode.map]
    have hid : ∀ (G : GNode), file ∉ G.datas.map (·.file) →
        G.map (fun x => if x.file = file then d' else x) = G := by
      intro G hG
      apply GNode.map_id_of
      intro x hx
      have : x.file ≠ file := fun e => hG (by rw [← e]; exact List.mem_map_of_mem _ hx)
      simp [this]
    cases hc : find_directory_node_from (some d) c file g_file_equal with
    | some fd' =>
      rw [hc] at h
      simp only [Option.some.injEq] at h
      subst h
      simp only [ne_eq, reduceCtorEq, not_false_eq_true, if_true]
      obtain ⟨pre, post, h1, _⟩ := find_directory_node_from_datas hc
      have hfc : file ∈ c.datas.map (·.file) := by
        rw [hfd]
        apply List.mem_map_of_mem
        rw [h1]
        simp [FoundNode.node, GNode.datas]
      have hd : d.file ≠ file := fun e => hdisj hfc (by rw [e]; simp)
      have hn : file ∉ n.datas.map (·.file) := fun hx => hdisj hfc (by simp [hx])
      rw [ihc (some d) fd' hc ndc, hid n hn]
      simp [hd]
    | none =>
      rw [hc] at h
      simp only at h
      simp only [ne_eq, not_true_eq_false, if_false]
      have hcn : file ∉ c.datas.map (·.file) := by
        intro hx
        obtain ⟨x, hx1, hx2⟩ := List.mem_map.1 hx
        have := (find_directory_node_from_eq_none_iff _ _ _ _).1 hc x hx1
        rw [hx2] at this
        simp [g_file_equal] at this
      by_cases hd : g_file_equal file d.file = true
      · simp only [hd, if_true, Option.some.injEq] at h
        subst h
        have hde : d.file = file := ((g_file_equal_iff _ _).1 hd).symm
        have hn : file ∉ n.datas.map (·.file) := by
          rw [← hde]
          exact hdn
        simp only [hd, if_true]
        rw [hid c hcn, hid n hn]
        simp [hde]
      · simp only [hd, if_false, Bool.false_eq_true] at h
        have hde : d.file ≠ file := fun e => hd ((g_file_equal_iff _ _).2 e.symm)
        simp only [hd, Bool.false_eq_true, if_false]
        rw [ihn parent fd h ndn, hid c hcn]
        simp [hde]

/-- The node found by its file is the node of the tree that has this file. -/
theorem Inv.found_equal {priv : TrackerIndexingTreePrivate} (h : Inv priv) {p : GFile}
    {d : NodeData} (hd : d ∈ priv.config_tree.datas) (hp : d.file = p) :
    ∃ fd, find_directory_node priv.config_tree p g_file_equal = some fd ∧ fd.data = d := by
  cases hfind : find_directory_node priv.config_tree p g_file_equal with
  | none =>
    have := (find_directory_node_eq_none_iff _ _ _).1 hfind d hd
    rw [hp] at this
    simp [g_file_equal] at this
  | some fd =>
    refine ⟨fd, rfl, ?_⟩
    obtain ⟨_, _, hsub, _, _⟩ := h.found hfind
    have hfd := (g_file_equal_iff _ _).1 (find_directory_node_from_some _ _ _ hfind).1
    exact h.wf.eq_of_file_eq (hsub fd.data (by simp [FoundNode.node, GNode.datas])) hd
      (by rw [← hfd, hp])

/-- C8: for every reachable tree and every path `p` that already has a node `d`,
`add (p, f, o)` leaves the set of nodes and the shape of the tree unchanged (the new tree
is the old one with the data of the node for `p` replaced by `d'` and every other node
as it was), `d'` has exactly one more owner entry, `(o, f)`, its shallow bit is false,
its flags are recomputed from its owners, and exactly one `directory-updated (p)` is
emitted if the stored flags changed and no signal otherwise (never `directory-added`). -/
theorem add_existing_node (priv : TrackerIndexingTreePrivate) (h : Reachable priv)
    (p : GFile) (f : Nat) (o : String) (d : NodeData)
    (hd : d ∈ priv.config_tree.datas) (hp : d.file = p) :
    ∃ d' : NodeData,
      d'.file = p ∧ d'.shallow = false ∧
      d'.owners = { name := o, flags := f } :: d.owners ∧
      d'.flags = node_get_flags d' ∧
      (tracker_indexing_tree_add priv p f o).1.config_tree =
        priv.config_tree.map (fun x => if x.file = p then d' else x) ∧
      (tracker_indexing_tree_add priv p f o).2 =
        (if d'.flags ≠ d.flags then [Signal.directory_updated p] else []) := by
  have hinv := h.inv
  obtain ⟨fd, hfind, hfd⟩ := hinv.found_equal hd hp
  subst hfd
  refine ⟨(node_update_flags { fd.data with
      shallow := false
      owners := node_owner_data_new o f :: fd.data.owners }).1, ?_, ?_, ?_, ?_, ?_, ?_⟩
  · simp [node_update_flags_fst, hp]
  · simp [node_update_flags_fst]
  · simp [node_update_flags_fst, node_owner_data_new]
  · simp [node_update_flags_fst, node_get_flags]
  · simp only [tracker_indexing_tree_add, hfind]
    exact g_node_replace_found_eq_map _ _ _ _ hfind hinv.wf.nodup_files
  · simp only [tracker_indexing_tree_add, hfind, node_update_flags_snd, node_update_flags_fst,
      hp]
    simp only [ne_eq, ite_not]
    split_ifs with h1 h2 h2
    · rfl
    · exact absurd h1.symm h2
    · exact absurd h2.symm h1
    · rfl

/-- Scenario 4, second step: adding `o2` with `RECURSE` to `/x` gives two owners, the
flags `MONITOR | RECURSE` and one `directory-updated`. -/
theorem add_existing_node_witness :
    Reachable scenario_x_o1 ∧
    scenario_x_o1_node ∈ scenario_x_o1.config_tree.datas ∧
    scenario_x_o1_node.file = ["x"] ∧
    (tracker_indexing_tree_add scenario_x_o1 ["x"] 2 "o2").1.config_tree =
      scenario_x_o1.config_tree.map
        (fun x => if x.file = ["x"] then scenario_x_o1_o2_node else x) ∧
    (tracker_indexing_tree_add scenario_x_o1 ["x"] 2 "o2").2 =
      [Signal.directory_updated ["x"]] ∧
    (∃ d' : NodeData,
      d'.file = ["x"] ∧ d'.shallow = false ∧
      d'.owners = { name := "o2", flags := 2 } :: scenario_x_o1_node.owners ∧
      d'.flags = node_get_flags d' ∧
      (tracker_indexing_tree_add scenario_x_o1 ["x"] 2 "o2").1.config_tree =
        scenario_x_o1.config_tree.map (fun x => if x.file = ["x"] then d' else x) ∧
      (tracker_indexing_tree_add scenario_x_o1 ["x"] 2 "o2").2 =
        (if d'.flags ≠ scenario_x_o1_node.flags then [Signal.directory_updated ["x"]]
          else [])) :=
  ⟨Reachable.add (Reachable.constructed none) _ _ _, by decide, by decide, by decide,
    by decide,
    add_existing_node scenario_x_o1 (Reachable.add (Reachable.constructed none) _ _ _)
      ["x"] 2 "o2" scenario_x_o1_node (by decide) (by decide)⟩

/-! ## Removing an owner -/

theorem g_list_find_custom_eq_none_iff (l : List NodeOwnerData) (o : String) :
    g_list_find_custom l o = none ↔ ∀ w ∈ l, w.name ≠ o := by
  induction l with
  | nil => simp [g_list_find_custom]
  | cons a l ih =>
    by_cases ha : a.name = o
    · simp [g_list_find_custom, node_owner_match, ha]
    · simp [g_list_find_custom, node_owner_match, ha, ih]

/-- The link that `g_list_find_custom` finds and `g_list_remove_link` takes out is the
first owner of that name. -/
theorem g_list_remove_link_eq_eraseP (l : List NodeOwnerData) (o : String) (i : Nat)
    (h : g_list_find_custom l o = some i) :
    g_list_remove_link l i = l.eraseP (fun w => decide (w.name = o)) := by
  induction l generalizing i with
  | nil => simp [g_list_find_custom] at h
  | cons a l ih =>
    by_cases ha : a.name = o
    · simp only [g_list_find_custom, node_owner_match, ha, if_true, Option.some.injEq] at h
      subst h
      simp [g_list_remove_link, List.eraseP_cons, ha]
    · simp only [g_list_find_custom, node_owner_match, ha, if_false, one_ne_zero,
        Option.map_eq_some'] at h
      obtain ⟨j, hj, rfl⟩ := h
      have := ih j hj
      simp only [g_list_remove_link] at this ⊢
      simp [List.eraseP_cons, ha, this]

theorem g_list_find_custom_of_mem (l : List NodeOwnerData) (o : String)
    (h : ∃ w ∈ l, w.name = o) : ∃ i, g_list_find_custom l o = some i := by
  cases hf : g_list_find_custom l o with
  | some i => exact ⟨i, rfl⟩
  | none =>
    obtain ⟨w, hw, hwo⟩ := h
    exact absurd hwo ((g_list_find_custom_eq_none_iff l o).1 hf w hw)

/-- C9: for every reachable tree, when `remove (p, o)` removes an owner (the first owner
entry named `o`) from a node `d` that still has at least one other owner, the node stays
in the tree at the same place with the remaining owners (the new tree is the old one
with the data of the node for `p` replaced by `d'`, all else as it was), its flags
become the flags derived from the remaining owners, exactly one `directory-updated (p)`
is emitted if the stored flags changed and none otherwise, and no `directory-removed`
is emitted. -/
theorem remove_owner_keeps_node (priv : TrackerIndexingTreePrivate) (h : Reachable priv)
    (p : GFile) (o : String) (d : NodeData)
    (hd : d ∈ priv.config_tree.datas) (hp : d.file = p)
    (ho : ∃ w ∈ d.owners, w.name = o)
    (hrem : d.owners.eraseP (fun w => decide (w.name = o)) ≠ []) :
    ∃ d' : NodeData,
      d'.file = p ∧ d'.shallow = d.shallow ∧
      d'.owners = d.owners.eraseP (fun w => decide (w.name = o)) ∧
      d'.flags = node_get_flags d' ∧
      (tracker_indexing_tree_remove priv p o).1.config_tree =
        priv.config_tree.map (fun x => if x.file = p then d' else x) ∧
      (tracker_indexing_tree_remove priv p o).2 =
        (if d'.flags ≠ d.flags then [Signal.directory_updated p] else []) := by
  have hinv := h.inv
  obtain ⟨fd, hfind, hfd⟩ := hinv.found_equal hd hp
  subst hfd
  obtain ⟨i, hi⟩ := g_list_find_custom_of_mem _ _ ho
  have herase := g_list_remove_link_eq_eraseP _ _ _ hi
  have hlen : ¬ (g_list_remove_link fd.data.owners i).length = 0 := by
    rw [herase]
    simpa using hrem
  refine ⟨(node_update_flags { fd.data with
      owners := g_list_remove_link fd.data.owners i }).1, ?_, ?_, ?_, ?_, ?_, ?_⟩
  · simp [node_update_flags_fst, hp]
  · simp [node_update_flags_fst]
  · simp [node_update_flags_fst, herase]
  · simp [node_update_flags_fst, node_get_flags]
  · simp only [tracker_indexing_tree_remove, hfind, hi, hlen, if_false]
    exact g_node_replace_found_eq_map _ _ _ _ hfind hinv.wf.nodup_files
  · simp only [tracker_indexing_tree_remove, hfind, hi, hlen, if_false, node_update_flags_snd,
      node_update_flags_fst, hp]
    simp only [ne_eq, ite_not]
    split_ifs with h1 h2 h2
    · rfl
    · exact absurd h1.symm h2
    · exact absurd h2.symm h1
    · rfl

/-- Scenario 4: after `remove (/x, o1)` the node has the owner `o2` alone and the flags
`RECURSE`, and one `directory-updated` is emitted. -/
theorem remove_owner_keeps_node_witness :
    Reachable scenario_x_o1_o2 ∧
    scenario_x_o1_o2_node ∈ scenario_x_o1_o2.config_tree.datas ∧
    (tracker_indexing_tree_remove scenario_x_o1_o2 ["x"] "o1").1.config_tree =
      scenario_x_o1_o2.config_tree.map
        (fun x => if x.file = ["x"] then
          { file := ["x"], flags := TRACKER_DIRECTORY_FLAG_RECURSE, shallow := false,
            owners := [{ name := "o2", flags := TRACKER_DIRECTORY_FLAG_RECURSE }] }
          else x) ∧
    (tracker_indexing_tree_remove scenario_x_o1_o2 ["x"] "o1").2 =
      [Signal.directory_updated ["x"]] ∧
    (∃ d' : NodeData,
      d'.file = ["x"] ∧ d'.shallow = scenario_x_o1_o2_node.shallow ∧
      d'.owners = scenario_x_o1_o2_node.owners.eraseP (fun w => decide (w.name = "o1")) ∧
      d'.flags = node_get_flags d' ∧
      (tracker_indexing_tree_remove scenario_x_o1_o2 ["x"] "o1").1.config_tree =
        scenario_x_o1_o2.config_tree.map (fun x => if x.file = ["x"] then d' else x) ∧
      (tracker_indexing_tree_remove scenario_x_o1_o2 ["x"] "o1").2 =
        (if d'.flags ≠ scenario_x_o1_o2_node.flags then [Signal.directory_updated ["x"]]
          else [])) :=
  ⟨Reachable.add (Reachable.add (Reachable.constructed none) _ _ _) _ _ _, by decide,
    by decide, by decide,
    remove_owner_keeps_node scenario_x_o1_o2
      (Reachable.add (Reachable.add (Reachable.constructed none) _ _ _) _ _ _)
      ["x"] "o1" scenario_x_o1_o2_node (by decide) (by decide) (by decide) (by decide)⟩

/-! ## Removing the last owner of a node -/

/-- What `remove` does when it takes the last owner of a node other than the master
root, in a tree that keeps the invariant: the pairs (parent, node) afterwards, the
nodes afterwards and the signal. -/
theorem Inv.remove_last_owner_edges {priv : TrackerIndexingTreePrivate} (hinv : Inv priv)
    (p : GFile) (o : String) (d : NodeData)
    (hd : d ∈ priv.config_tree.datas) (hp : d.file = p) (hroot : p ≠ priv.root)
    (ho : ∃ w ∈ d.owners, w.name = o)
    (hlast : d.owners.eraseP (fun w => decide (w.name = o)) = []) :
    ∃ Q : NodeData,
      (some Q, d) ∈ priv.config_tree.edges none ∧
      (∀ e, e ∈ (tracker_indexing_tree_remove priv p o).1.config_tree.edges none ↔
        (e ∈ priv.config_tree.edges none ∧ e.2 ≠ d ∧ e.1 ≠ some d) ∨
        (e.1 = some Q ∧ (some d, e.2) ∈ priv.config_tree.edges none)) ∧
      priv.config_tree.datas.Perm
        (d :: (tracker_indexing_tree_remove priv p o).1.config_tree.datas) ∧
      (tracker_indexing_tree_remove priv p o).2 = [Signal.directory_removed p] := by
  obtain ⟨fd, hfind, hfd⟩ := hinv.found_equal hd hp
  subst hfd
  obtain ⟨i, hi⟩ := g_list_find_custom_of_mem _ _ ho
  have herase := g_list_remove_link_eq_eraseP _ _ _ hi
  have hlen : (g_list_remove_link fd.data.owners i).length = 0 := by
    rw [herase, hlast]
    rfl
  obtain ⟨w1, _, _, hpr, _⟩ := hinv.found hfind
  cases hparent : fd.parent with
  | none =>
    exfalso
    exact hroot (hp.symm.trans (hpr hparent).2)
  | some Q =>
    obtain ⟨hall, _⟩ := hinv.remove_node hfind hparent
    obtain ⟨rest, e1, e2, p1, p2, d1, d2⟩ := find_directory_node_edges hfind hinv.wf
    obtain ⟨A2, A3, A4, A5⟩ := found_not_parent w1 d2
    have hself : fd.data ∈ fd.node.datas := by simp [FoundNode.node, GNode.datas]
    have hrm : tracker_indexing_tree_remove priv p o =
        ({ priv with
            config_tree := g_node_replace_found priv.config_tree p g_file_equal
              (g_node_append fd.next fd.children) },
          [Signal.directory_removed p]) := by
      simp only [tracker_indexing_tree_remove, hfind, hi, hlen, if_true, hparent, hall, hp]
    have old : ∀ x, x ∈ priv.config_tree.edges none ↔ x ∈ rest ∨
        ((x.1 = some fd.data ∧ x.2 ∈ fd.children.siblings) ∨
          x ∈ fd.children.deep_edges) ∨
        x = (some Q, fd.data) ∨ x ∈ fd.next.edges (some Q) := by
      intro x
      rw [e1]
      simp only [FoundNode.node, GNode.edges, List.mem_append, List.mem_cons,
        GNode.mem_edges_iff, hparent]
    have new : ∀ x, x ∈ (g_node_replace_found priv.config_tree p g_file_equal
          (g_node_append fd.next fd.children)).edges none ↔ x ∈ rest ∨
        x ∈ fd.next.edges (some Q) ∨
        ((x.1 = some Q ∧ x.2 ∈ fd.children.siblings) ∨ x ∈ fd.children.deep_edges) := by
      intro x
      rw [e2]
      simp only [g_node_append_edges, List.mem_append, hparent]
      rw [GNode.mem_edges_iff fd.children]
    rw [hparent] at A2 A3
    refine ⟨Q, (old _).2 (Or.inr (Or.inr (Or.inl rfl))), ?_, ?_, ?_⟩
    · intro e
      rw [hrm]
      simp only
      rw [new]
      constructor
      · rintro (hrest | hn | ⟨c1, c2⟩ | hdeep)
        · exact Or.inl ⟨(old e).2 (Or.inl hrest), (d1 e hrest fd.data hself).1,
            (d1 e hrest fd.data hself).2⟩
        · exact Or.inl ⟨(old e).2 (Or.inr (Or.inr (Or.inr hn))), (A3 e hn).2, (A3 e hn).1⟩
        · exact Or.inr ⟨c1, (old _).2 (Or.inr (Or.inl (Or.inl ⟨rfl, c2⟩)))⟩
        · exact Or.inl ⟨(old e).2 (Or.inr (Or.inl (Or.inr hdeep))), (A4 e hdeep).2,
            (A4 e hdeep).1⟩
      · rintro (⟨h1, h2, h3⟩ | ⟨h1, h2⟩)
        · rcases (old e).1 h1 with hrest | ((⟨c1, _⟩ | hdeep) | hpd | hn)
          · exact Or.inl hrest
          · exact absurd c1 h3
          · exact Or.inr (Or.inr (Or.inr hdeep))
          · rw [hpd] at h2
            exact absurd rfl h2
          · exact Or.inr (Or.inl hn)
        · rcases (old _).1 h2 with hrest | ((⟨_, c2⟩ | hdeep) | hpd | hn)
          · exact absurd rfl (d1 _ hrest fd.data hself).2
          · exact Or.inr (Or.inr (Or.inl ⟨h1, c2⟩))
          · exact absurd rfl (A4 _ hdeep).1
          · simp only [Prod.mk.injEq, Option.some.injEq] at hpd
            exact absurd (congrArg some hpd.1.symm) A2
          · exact absurd rfl (A3 _ hn).1
    · rw [hrm]
      simp only
      refine p2.trans ?_
      have h1 : fd.node.datas.Perm (fd.data :: (g_node_append fd.next fd.children).datas) := by
        have e0 : fd.node.datas = fd.children.datas ++ ([fd.data] ++ fd.next.datas) := by
          simp [FoundNode.node, GNode.datas]
        have e3 : fd.data :: (g_node_append fd.next fd.children).datas =
            ([fd.data] ++ fd.next.datas) ++ fd.children.datas := by
          simp [g_node_append_datas]
        rw [e0, e3]
        exact List.perm_append_comm
      refine (List.Perm.append_left _ h1).trans ?_
      refine List.perm_middle.trans ?_
      exact List.Perm.cons _ (p1 _).symm
    · rw [hrm]

/-- C10: for every reachable tree, when `remove (p, o)` removes the last owner of a node
`d` other than the master root, exactly that node disappears from the tree, each of its
children becomes a direct child of its former parent `Q`, every other node keeps its
owners, flags and shallow bit (and its parent), and the only signal emitted is one
`directory-removed (p)`.  The pairs (parent, node) of the new tree are exactly: the old
pairs in which `d` is neither the node nor the parent; and `(Q, c)` for the former
children `c` of `d`. -/
theorem remove_last_owner (priv : TrackerIndexingTreePrivate) (h : Reachable priv)
    (p : GFile) (o : String) (d : NodeData)
    (hd : d ∈ priv.config_tree.datas) (hp : d.file = p) (hroot : p ≠ priv.root)
    (ho : ∃ w ∈ d.owners, w.name = o)
    (hlast : d.owners.eraseP (fun w => decide (w.name = o)) = []) :
    ∃ Q : NodeData,
      (some Q, d) ∈ priv.config_tree.edges none ∧
      (∀ e, e ∈ (tracker_indexing_tree_remove priv p o).1.config_tree.edges none ↔
        (e ∈ priv.config_tree.edges none ∧ e.2 ≠ d ∧ e.1 ≠ some d) ∨
        (e.1 = some Q ∧ (some d, e.2) ∈ priv.config_tree.edges none)) ∧
      priv.config_tree.datas.Perm
        (d :: (tracker_indexing_tree_remove priv p o).1.config_tree.datas) ∧
      (tracker_indexing_tree_remove priv p o).2 = [Signal.directory_removed p] :=
  h.inv.remove_last_owner_edges p o d hd hp hroot ho hlast

/-- Scenario 3 undone: removing the only owner of `/a` hands `/a/b` back to the master
root and gives the tree that held `/a/b` alone. -/
theorem remove_last_owner_witness :
    Reachable scenario_reparent ∧
    scenario_reparent_a ∈ scenario_reparent.config_tree.datas ∧
    scenario_reparent_a.file ≠ scenario_reparent.root ∧
    (tracker_indexing_tree_remove scenario_reparent ["a"] "o2").1.config_tree =
      scenario_a_b.config_tree ∧
    (∃ Q : NodeData,
      (some Q, scenario_reparent_a) ∈ scenario_reparent.config_tree.edges none ∧
      (∀ e, e ∈ (tracker_indexing_tree_remove scenario_reparent ["a"] "o2").1.config_tree.edges
            none ↔
        (e ∈ scenario_reparent.config_tree.edges none ∧ e.2 ≠ scenario_reparent_a ∧
          e.1 ≠ some scenario_reparent_a) ∨
        (e.1 = some Q ∧
          (some scenario_reparent_a, e.2) ∈ scenario_reparent.config_tree.edges none)) ∧
      scenario_reparent.config_tree.datas.Perm
        (scenario_reparent_a ::
          (tracker_indexing_tree_remove scenario_reparent ["a"] "o2").1.config_tree.datas) ∧
      (tracker_indexing_tree_remove scenario_reparent ["a"] "o2").2 =
        [Signal.directory_removed ["a"]]) :=
  ⟨scenario_reparent_reachable, by decide, by decide, by decide,
    remove_last_owner scenario_reparent scenario_reparent_reachable ["a"] "o2"
      scenario_reparent_a (by decide) (by decide) (by decide) (by decide) (by decide)⟩

/-! ## `is_root` -/

/-- C16: for every tree (reachable or not) and every path, `is_root (path)` is true if
and only if a node with exactly that path exists in the tree, shallow or not; so it is
true for the master root of a fresh tree, whatever root the tree was constructed with. -/
theorem file_is_root_iff (priv : TrackerIndexingTreePrivate) (file : GFile) :
    (tracker_indexing_tree_file_is_root priv file = true ↔
      ∃ x ∈ priv.config_tree.datas, x.file = file) ∧
    (∀ root, tracker_indexing_tree_file_is_root (tracker_indexing_tree_new_with_root root)
      (tracker_indexing_tree_new_with_root root).root = true ∧
      ∀ x ∈ (tracker_indexing_tree_new_with_root root).config_tree.datas,
        x.shallow = true) := by
  constructor
  · unfold tracker_indexing_tree_file_is_root
    rw [Option.isSome_iff_ne_none, ne_eq, find_directory_node_eq_none_iff]
    simp only [not_forall, Bool.not_eq_false, g_file_equal_iff]
    constructor
    · rintro ⟨x, hx, e⟩
      exact ⟨x, hx, e.symm⟩
    · rintro ⟨x, hx, e⟩
      exact ⟨x, hx, e.symm⟩
  · intro root
    constructor
    · simp [tracker_indexing_tree_file_is_root, tracker_indexing_tree_new_with_root,
        find_directory_node, find_directory_node_from, g_file_equal, node_data_new]
    · simp [tracker_indexing_tree_new_with_root, GNode.datas]

/-! ## Removes that change nothing -/

/-- C17: for every reachable tree, if the node `d` for path `p` exists but has no owner
named `o`, `remove (p, o)` is a no-op: the engine, and so the tree with its nodes,
owners, flags and shallow bits, is as before, and no signal is emitted. -/
theorem remove_unknown_owner_noop (priv : TrackerIndexingTreePrivate) (h : Reachable priv)
    (p : GFile) (o : String) (d : NodeData)
    (hd : d ∈ priv.config_tree.datas) (hp : d.file = p)
    (hno : ∀ w ∈ d.owners, w.name ≠ o) :
    tracker_indexing_tree_remove priv p o = (priv, []) := by
  obtain ⟨fd, hfind, hfd⟩ := h.inv.found_equal hd hp
  subst hfd
  have hown := (g_list_find_custom_eq_none_iff fd.data.owners o).2 hno
  simp only [tracker_indexing_tree_remove, hfind, hown]

/-- Scenario 3: `/a` is owned by `o2` alone, so `remove (/a, o1)` changes nothing. -/
theorem remove_unknown_owner_noop_witness :
    Reachable scenario_reparent ∧
    scenario_reparent_a ∈ scenario_reparent.config_tree.datas ∧
    scenario_reparent_a.file = ["a"] ∧
    (∀ w ∈ scenario_reparent_a.owners, w.name ≠ "o1") ∧
    tracker_indexing_tree_remove scenario_reparent ["a"] "o1" = (scenario_reparent, []) :=
  ⟨scenario_reparent_reachable, by decide, by decide, by decide,
    remove_unknown_owner_noop scenario_reparent scenario_reparent_reachable ["a"] "o1"
      scenario_reparent_a (by decide) (by decide) (by decide)⟩

/-- C18: for every tree (reachable or not) and every path `p` that has no node in the
tree, `remove (p, o)` is a no-op for every owner `o`: the engine, and so the tree, is
as before and no signal is emitted. -/
theorem remove_missing_node_noop (priv : TrackerIndexingTreePrivate) (p : GFile)
    (o : String) (hnone : ∀ x ∈ priv.config_tree.datas, x.file ≠ p) :
    tracker_indexing_tree_remove priv p o = (priv, []) := by
  have hfind : find_directory_node priv.config_tree p g_file_equal = none := by
    rw [find_directory_node_eq_none_iff]
    intro x hx
    simp only [g_file_equal, beq_eq_false_iff_ne, ne_eq]
    exact fun e => hnone x hx e.symm
  simp only [tracker_indexing_tree_remove, hfind]

/-- Scenario 3: there is no node for `/b`, so `remove (/b, o1)` changes nothing. -/
theorem remove_missing_node_noop_witness :
    (∀ x ∈ scenario_reparent.config_tree.datas, x.file ≠ ["b"]) ∧
    tracker_indexing_tree_remove scenario_reparent ["b"] "o1" = (scenario_reparent, []) :=
  ⟨by decide, remove_missing_node_noop scenario_reparent ["b"] "o1" (by decide)⟩

/-! ## The master root stays -/

/-- Neither `add` nor `remove` changes the root the engine was constructed with. -/
theorem tracker_indexing_tree_remove_root (priv : TrackerIndexingTreePrivate) (p : GFile)
    (o : String) : (tracker_indexing_tree_remove priv p o).1.root = priv.root := by
  unfold tracker_indexing_tree_remove
  cases find_directory_node priv.config_tree p g_file_equal with
  | none => rfl
  | some node =>
    simp only
    cases g_list_find_custom node.data.owners o with
    | none => rfl
    | some item =>
      simp only
      split_ifs
      · cases node.parent <;> rfl
      · rfl

theorem tracker_indexing_tree_add_root (priv : TrackerIndexingTreePrivate) (p : GFile)
    (f : Nat) (o : String) : (tracker_indexing_tree_add priv p f o).1.root = priv.root := by
  unfold tracker_indexing_tree_add
  cases find_directory_node priv.config_tree p g_file_equal with
  | some node => rfl
  | none =>
    simp only
    cases find_directory_node priv.config_tree p g_file_has_prefix <;> rfl

/-- The top node is found by its file, and found as the top node. -/
theorem Inv.found_top {priv : TrackerIndexingTreePrivate} (h : Inv priv) {r : NodeData}
    {c : GNode} (ht : priv.config_tree = .node r c .null) :
    r.file = priv.root ∧
    find_directory_node priv.config_tree priv.root g_file_equal =
      some { parent := none, data := r, children := c, next := .null } ∧
    ∀ repl, g_node_replace_found priv.config_tree priv.root g_file_equal repl = repl := by
  obtain ⟨r', c', ht', hr, _⟩ := h.top
  rw [ht] at ht'
  simp only [GNode.node.injEq, and_true] at ht'
  obtain ⟨e1, e2⟩ := ht'
  subst e1; subst e2
  have hmem : r ∈ priv.config_tree.datas := by rw [ht]; simp [GNode.datas]
  obtain ⟨fd, hfind, hfd⟩ := h.found_equal hmem hr
  have hwf : (GNode.node r c .null).WF := by rw [← ht]; exact h.wf
  have hfind' := hfind
  rw [ht] at hfind'
  rcases find_directory_node_top hfind' with ⟨hc, _⟩ | ⟨hc, hfdeq⟩
  · exfalso
    obtain ⟨pre, post, h1, _⟩ := find_directory_node_from_datas hc
    have : fd.data ∈ c.datas := by rw [h1]; simp [FoundNode.node, GNode.datas]
    rw [hfd] at this
    exact (hwf.children_inside r this).2 rfl
  · refine ⟨hr, by rw [hfind, hfdeq], ?_⟩
    intro repl
    rw [ht, g_node_replace_found_node]
    have hf : g_file_equal priv.root r.file = true := by
      rw [g_file_equal_iff]; exact hr.symm
    simp [hc, hf]

/-- C11: for every reachable tree, with top node `r` and children `c`, when
`remove (master_root, o)` removes the last owner of the master root node, the node stays
as the top of the tree with its children untouched, its shallow bit becomes true (its
owner list is empty, its file and stored flags are as before), and no signal is emitted;
and no `remove` whatever deletes the master root node: after every `remove (p, o')` the
top of the tree is still a node for the master root, without siblings. -/
theorem remove_last_owner_of_master_root (priv : TrackerIndexingTreePrivate)
    (h : Reachable priv) (o : String) (r : NodeData) (c : GNode)
    (ht : priv.config_tree = .node r c .null)
    (ho : ∃ w ∈ r.owners, w.name = o)
    (hlast : r.owners.eraseP (fun w => decide (w.name = o)) = []) :
    (tracker_indexing_tree_remove priv priv.root o).1.config_tree =
      .node { file := priv.root, flags := r.flags, shallow := true, owners := [] } c .null ∧
    (tracker_indexing_tree_remove priv priv.root o).2 = [] ∧
    ∀ p o', ∃ r' c', (tracker_indexing_tree_remove priv p o').1.config_tree =
      .node r' c' .null ∧ r'.file = priv.root ∧
      (tracker_indexing_tree_remove priv p o').1.root = priv.root := by
  have hinv := h.inv
  obtain ⟨hr, hfind, hrepl⟩ := hinv.found_top ht
  obtain ⟨i, hi⟩ := g_list_find_custom_of_mem _ _ ho
  have herase := g_list_remove_link_eq_eraseP _ _ _ hi
  rw [hlast] at herase
  refine ⟨?_, ?_, ?_⟩
  · simp only [tracker_indexing_tree_remove, hfind, hi, herase, List.length_nil, if_true,
      hrepl, hr]
  · simp only [tracker_indexing_tree_remove, hfind, hi, herase, List.length_nil, if_true]
  · intro p o'
    have hinv' := (Reachable.remove h p o').inv
    obtain ⟨r', c', ht', hr', _⟩ := hinv'.top
    exact ⟨r', c', ht', by rw [hr', tracker_indexing_tree_remove_root],
      tracker_indexing_tree_remove_root priv p o'⟩

/-- The fresh tree: removing the owner that `constructed` gave the master root leaves
the root in place, shallow, without owner, and emits nothing. -/
theorem remove_last_owner_of_master_root_witness :
    Reachable tracker_indexing_tree_new ∧
    tracker_indexing_tree_new.config_tree = .node scenario_fresh_root .null .null ∧
    (∃ w ∈ scenario_fresh_root.owners, w.name = "TrackerIndexingTree") ∧
    scenario_fresh_root.owners.eraseP (fun w => decide (w.name = "TrackerIndexingTree")) = [] ∧
    ((tracker_indexing_tree_remove tracker_indexing_tree_new tracker_indexing_tree_new.root
        "TrackerIndexingTree").1.config_tree =
      .node { file := tracker_indexing_tree_new.root, flags := scenario_fresh_root.flags,
              shallow := true, owners := [] } .null .null ∧
    (tracker_indexing_tree_remove tracker_indexing_tree_new tracker_indexing_tree_new.root
        "TrackerIndexingTree").2 = [] ∧
    ∀ p o', ∃ r' c', (tracker_indexing_tree_remove tracker_indexing_tree_new p o').1.config_tree =
      .node r' c' .null ∧ r'.file = tracker_indexing_tree_new.root ∧
      (tracker_indexing_tree_remove tracker_indexing_tree_new p o').1.root =
        tracker_indexing_tree_new.root) :=
  ⟨Reachable.constructed none, by decide, by decide, by decide,
    remove_last_owner_of_master_root tracker_indexing_tree_new (Reachable.constructed none)
      "TrackerIndexingTree" scenario_fresh_root .null (by decide) (by decide) (by decide)⟩

/-! ## `list_roots` -/

/-- C15, at the input where the code departs from it: on a fresh tree the only node is
the master root, and it is shallow; `list_roots ()` still returns its path,
`file:///`, where the claim has the empty list: `prepend_config_root` puts every node
in the list without looking at its shallow bit. -/
theorem list_roots_lists_shallow_root :
    Reachable tracker_indexing_tree_new ∧
    tracker_indexing_tree_new.config_tree.datas = [scenario_fresh_root] ∧
    scenario_fresh_root.shallow = true ∧
    tracker_indexing_tree_list_roots tracker_indexing_tree_new = [[]] ∧
    tracker_indexing_tree_list_roots tracker_indexing_tree_new ≠
      (tracker_indexing_tree_new.config_tree.datas.filter (fun x => !x.shallow)).map
        (·.file) :=
  ⟨Reachable.constructed none, by decide, by decide, by decide, by decide⟩

/-! ## Adding and then removing an owner -/

/-- C13, at the input where the code departs from it: on a fresh tree, whose master
root is shallow, `add (file:///, RECURSE, o)` followed by `remove (file:///, o)` gives
the master root its owner list and its stored flags back, but not its shallow bit: the
owner that `constructed` gave the root is still there, so `remove` takes the branch for
a node that still has owners and never marks the root as shallow again.  From then on
`get_root` answers with the master root for files that had no root before. -/
theorem add_remove_root_not_restored :
    Reachable tracker_indexing_tree_new ∧
    Reachable scenario_root_added_removed ∧
    tracker_indexing_tree_new.config_tree = .node scenario_fresh_root .null .null ∧
    scenario_root_added_removed.config_tree =
      .node { scenario_fresh_root with shallow := false } .null .null ∧
    scenario_fresh_root.shallow = true ∧
    scenario_root_added_removed.config_tree ≠ tracker_indexing_tree_new.config_tree ∧
    tracker_indexing_tree_get_root tracker_indexing_tree_new ["etc"] = (none, 0) ∧
    tracker_indexing_tree_get_root scenario_root_added_removed ["etc"] = (some [], 0) :=
  ⟨Reachable.constructed none,
    Reachable.remove (Reachable.add (Reachable.constructed none) _ _ _) _ _,
    by decide, by decide, by decide, by decide, by decide, by decide⟩

/-! ## Adding an owner twice -/

theorem GNode.datas_map (g : NodeData → NodeData) (F : GNode) :
    (F.map g).datas = F.datas.map g := by
  induction F with
  | null => rfl
  | node d c n ihc ihn => simp [GNode.map, GNode.datas, ihc, ihn]

/-- Against C19 as it is stated: in scenario 4, after `add (/x, MONITOR, o1)`, the node
for `/x` has the owner entry `(o1, MONITOR)`; a second identical add does not leave the
owner list unchanged but makes it `[(o1, MONITOR), (o1, MONITOR)]`, and a second add with
the flags `RECURSE` does not replace the entry but makes the list
`[(o1, RECURSE), (o1, MONITOR)]`. -/
theorem add_owner_twice_not_idempotent :
    Reachable scenario_x_o1 ∧
    scenario_x_o1_node ∈ scenario_x_o1.config_tree.datas ∧
    ({ name := "o1", flags := 8 } : NodeOwnerData) ∈ scenario_x_o1_node.owners ∧
    (∃ d' ∈ (tracker_indexing_tree_add scenario_x_o1 ["x"] 8 "o1").1.config_tree.datas,
      d'.file = ["x"] ∧
      d'.owners = [{ name := "o1", flags := 8 }, { name := "o1", flags := 8 }] ∧
      d'.owners ≠ scenario_x_o1_node.owners) ∧
    (∃ d' ∈ (tracker_indexing_tree_add scenario_x_o1 ["x"] 2 "o1").1.config_tree.datas,
      d'.file = ["x"] ∧
      d'.owners = [{ name := "o1", flags := 2 }, { name := "o1", flags := 8 }] ∧
      d'.owners ≠ [{ name := "o1", flags := 2 }]) :=
  ⟨Reachable.add (Reachable.constructed none) _ _ _, by decide, by decide, by decide,
    by decide⟩

/-- C19, amended: adding an owner twice is not idempotent.  For every reachable tree in
which the node `d` for `p` already has an owner entry `(o, f)`, a second
`add (p, f2, o)`, with the same flags or with different ones, puts one more entry
`(o, f2)` in front of the owner list of that node and keeps the entry `(o, f)`: the
list is one entry longer, and the tree is otherwise as it was. -/
theorem add_owner_twice_prepends (priv : TrackerIndexingTreePrivate) (h : Reachable priv)
    (p : GFile) (f f2 : Nat) (o : String) (d : NodeData)
    (hd : d ∈ priv.config_tree.datas) (hp : d.file = p)
    (hown : ({ name := o, flags := f } : NodeOwnerData) ∈ d.owners) :
    ∃ d' ∈ (tracker_indexing_tree_add priv p f2 o).1.config_tree.datas,
      d'.file = p ∧
      d'.owners = { name := o, flags := f2 } :: d.owners ∧
      d'.owners.length = d.owners.length + 1 ∧
      ({ name := o, flags := f } : NodeOwnerData) ∈ d'.owners.tail ∧
      (tracker_indexing_tree_add priv p f2 o).1.config_tree =
        priv.config_tree.map (fun x => if x.file = p then d' else x) := by
  have hinv := h.inv
  obtain ⟨fd, hfind, hfd⟩ := hinv.found_equal hd hp
  subst hfd
  have htree : (tracker_indexing_tree_add priv p f2 o).1.config_tree =
      priv.config_tree.map (fun x => if x.file = p then
        (node_update_flags { fd.data with
          shallow := false
          owners := node_owner_data_new o f2 :: fd.data.owners }).1 else x) := by
    simp only [tracker_indexing_tree_add, hfind]
    exact g_node_replace_found_eq_map _ _ _ _ hfind hinv.wf.nodup_files
  refine ⟨(node_update_flags { fd.data with
      shallow := false
      owners := node_owner_data_new o f2 :: fd.data.owners }).1, ?_, ?_, ?_, ?_, ?_, htree⟩
  · rw [htree, GNode.datas_map]
    refine List.mem_map.2 ⟨fd.data, hd, ?_⟩
    simp [hp]
  · simp [node_update_flags_fst, hp]
  · simp [node_update_flags_fst, node_owner_data_new]
  · simp [node_update_flags_fst]
  · simpa [node_update_flags_fst] using hown

/-- Scenario 4, first step, then the same add again: `/x` has the owner `o1` twice. -/
theorem add_owner_twice_prepends_witness :
    Reachable scenario_x_o1 ∧
    scenario_x_o1_node ∈ scenario_x_o1.config_tree.datas ∧
    scenario_x_o1_node.file = ["x"] ∧
    ({ name := "o1", flags := 8 } : NodeOwnerData) ∈ scenario_x_o1_node.owners ∧
    (∃ d' ∈ (tracker_indexing_tree_add scenario_x_o1 ["x"] 8 "o1").1.config_tree.datas,
      d'.file = ["x"] ∧
      d'.owners = { name := "o1", flags := 8 } :: scenario_x_o1_node.owners ∧
      d'.owners.length = scenario_x_o1_node.owners.length + 1 ∧
      ({ name := "o1", flags := 8 } : NodeOwnerData) ∈ d'.owners.tail ∧
      (tracker_indexing_tree_add scenario_x_o1 ["x"] 8 "o1").1.config_tree =
        scenario_x_o1.config_tree.map (fun x => if x.file = ["x"] then d' else x)) :=
  ⟨Reachable.add (Reachable.constructed none) _ _ _, by decide, by decide, by decide,
    add_owner_twice_prepends scenario_x_o1 (Reachable.add (Reachable.constructed none) _ _ _)
      ["x"] 8 8 "o1" scenario_x_o1_node (by decide) (by decide) (by decide)⟩

/-! ## `clear_filters` -/

/-- C20, at the input where the code departs from it: with the two file filters `*.a`
and `*.b`, `clear_filters (FILE)` deletes `*.a`, sets `l` to the new head `*.b` and
steps over it, so that the loop ends with `*.b`, an entry of the kind that was to be
cleared, still in the list; and `matches (FILE, x.b)` is still true afterwards. -/
theorem clear_filters_keeps_an_entry :
    ∃ priv', tracker_indexing_tree_clear_filters scenario_two_file_filters
        .TRACKER_FILTER_FILE = some priv' ∧
      priv'.filter_patterns = [scenario_filter_b] ∧
      scenario_filter_b.type = .TRACKER_FILTER_FILE ∧
      tracker_indexing_tree_file_matches_filter scenario_suffix_collaborators priv'
        .TRACKER_FILTER_FILE ["x.b"] = true := by
  refine ⟨{ scenario_two_file_filters with filter_patterns := [scenario_filter_b] }, ?_, rfl,
    rfl, by decide⟩
  simp [tracker_indexing_tree_clear_filters, tracker_indexing_tree_clear_filters_loop,
    scenario_two_file_filters, scenario_filter_a, scenario_filter_b]

/-! ## Adding a new root and removing it again -/

/-- C12: for every reachable tree `T`, every path `p` inside the master root that has no
node in `T`, every flag set `f` and owner `o`: `add (p, f, o)` followed by `remove (p, o)`
yields a tree equal to `T`, children compared as unordered sets: the pairs (parent, node)
are the same as in `T`, so every node has the same parent, owners, flags and shallow bit,
and the nodes are the same, each as often as before; and the signals emitted by the two
calls are exactly `directory-added (p)` and then `directory-removed (p)`, with no
`directory-updated`. -/
theorem add_then_remove_new_node (priv : TrackerIndexingTreePrivate) (h : Reachable priv)
    (p : GFile) (f : Nat) (o : String)
    (hin : g_file_has_prefix p priv.root = true)
    (hnew : ∀ x ∈ priv.config_tree.datas, x.file ≠ p) :
    (∀ e, e ∈ (tracker_indexing_tree_remove (tracker_indexing_tree_add priv p f o).1 p
          o).1.config_tree.edges none ↔
        e ∈ priv.config_tree.edges none) ∧
    ((tracker_indexing_tree_remove (tracker_indexing_tree_add priv p f o).1 p
        o).1.config_tree.datas).Perm priv.config_tree.datas ∧
    (tracker_indexing_tree_add priv p f o).2 ++
        (tracker_indexing_tree_remove (tracker_indexing_tree_add priv p f o).1 p o).2 =
      [Signal.directory_added p, Signal.directory_removed p] := by
  have hinv := h.inv
  have hinv1 := (Reachable.add h p f o).inv
  obtain ⟨N, hNdef⟩ : ∃ N : NodeData, N =
      { file := p, flags := f, shallow := false, owners := [{ name := o, flags := f }] } :=
    ⟨_, rfl⟩
  obtain ⟨P, hP, _, _, hadd, hperm1, hsig1⟩ := hinv.add_new_node_edges p f o N hNdef hin hnew
  have hNfile : N.file = p := by rw [hNdef]
  have hNold : N ∉ priv.config_tree.datas := fun hmem => hnew N hmem hNfile
  have hNmem : N ∈ (tracker_indexing_tree_add priv p f o).1.config_tree.datas :=
    hperm1.symm.subset (by simp)
  have hroot : p ≠ (tracker_indexing_tree_add priv p f o).1.root := by
    rw [tracker_indexing_tree_add_root]
    exact ((g_file_has_prefix_iff _ _).1 hin).2
  obtain ⟨Q, hQ, hrm, hperm2, hsig2⟩ := hinv1.remove_last_owner_edges p o N hNmem hNfile hroot
    (by rw [hNdef]; exact ⟨{ name := o, flags := f }, by simp, rfl⟩)
    (by rw [hNdef]; simp [List.eraseP_cons])
  -- what is known of the old pairs: the new node is in none of them
  have hold2 : ∀ e ∈ priv.config_tree.edges none, e.2 ≠ N := by
    intro e he e2
    exact hNold (by rw [← e2]; exact GNode.mem_datas_of_mem_edges he)
  have hold1 : ∀ e ∈ priv.config_tree.edges none, e.1 ≠ some N := by
    intro e he e1
    rcases GNode.edges_parent _ none e he with h1 | ⟨x, hx, h1⟩
    · rw [e1] at h1; simp at h1
    · rw [e1] at h1
      simp only [Option.some.injEq] at h1
      exact hNold (by rw [h1]; exact hx)
  have hPN : P ≠ N := fun e => hNold (by rw [← e]; exact hP)
  -- the parent the new node is taken from is the parent it was put under
  have hQP : Q = P := by
    rcases (hadd _).1 hQ with h1 | ⟨_, h1, _⟩ | ⟨h1, _⟩
    · simp only [Prod.mk.injEq, Option.some.injEq, and_true] at h1
      exact h1
    · exact absurd rfl (hold2 _ h1)
    · exact absurd rfl (hold2 _ h1)
  subst hQP
  refine ⟨?_, ?_, ?_⟩
  · intro e
    rw [hrm]
    constructor
    · rintro (⟨h1, h2, h3⟩ | ⟨h1, h2⟩)
      · rcases (hadd e).1 h1 with h4 | ⟨h4, _⟩ | ⟨h4, _⟩
        · rw [h4] at h2
          exact absurd rfl h2
        · exact absurd h4 h3
        · exact h4
      · rcases (hadd _).1 h2 with h4 | ⟨_, h4, _⟩ | ⟨h4, _⟩
        · simp only [Prod.mk.injEq, Option.some.injEq] at h4
          exact absurd h4.1.symm hPN
        · have : e = (some Q, e.2) := Prod.ext h1 rfl
          rw [this]
          exact h4
        · exact absurd rfl (hold1 _ h4)
    · intro he
      by_cases hm : e.1 = some Q ∧ g_file_has_prefix e.2.file p = true
      · right
        refine ⟨hm.1, (hadd _).2 (Or.inr (Or.inl ⟨rfl, ?_, hm.2⟩))⟩
        have : (some Q, e.2) = e := Prod.ext hm.1.symm rfl
        rw [this]
        exact he
      · left
        exact ⟨(hadd e).2 (Or.inr (Or.inr ⟨he, hm⟩)), hold2 e he, hold1 e he⟩
  · exact ((hperm1.symm.trans hperm2).cons_inv).symm
  · rw [hsig1, hsig2]
    rfl

/-- Scenario 3 and back: adding `/a` to the tree that holds `/a/b` and removing it again
gives the tree that holds `/a/b`, with `directory-added` and `directory-removed`. -/
theorem add_then_remove_new_node_witness :
    Reachable scenario_a_b ∧
    g_file_has_prefix ["a"] scenario_a_b.root = true ∧
    (∀ x ∈ scenario_a_b.config_tree.datas, x.file ≠ ["a"]) ∧
    (tracker_indexing_tree_remove (tracker_indexing_tree_add scenario_a_b ["a"] 2 "o2").1
      ["a"] "o2").1.config_tree = scenario_a_b.config_tree ∧
    ((∀ e, e ∈ (tracker_indexing_tree_remove
          (tracker_indexing_tree_add scenario_a_b ["a"] 2 "o2").1 ["a"]
          "o2").1.config_tree.edges none ↔
        e ∈ scenario_a_b.config_tree.edges none) ∧
    ((tracker_indexing_tree_remove (tracker_indexing_tree_add scenario_a_b ["a"] 2 "o2").1
        ["a"] "o2").1.config_tree.datas).Perm scenario_a_b.config_tree.datas ∧
    (tracker_indexing_tree_add scenario_a_b ["a"] 2 "o2").2 ++
        (tracker_indexing_tree_remove (tracker_indexing_tree_add scenario_a_b ["a"] 2 "o2").1
          ["a"] "o2").2 =
      [Signal.directory_added ["a"], Signal.directory_removed ["a"]]) :=
  ⟨scenario_a_b_reachable, by decide, by decide, by decide,
    add_then_remove_new_node scenario_a_b scenario_a_b_reachable ["a"] 2 "o2" (by decide)
      (by decide)⟩

/-! ## What holds of the data of every node -/

/-- A property of node data holds of every node of every reachable tree when it holds of
the data that the code writes: the master root as constructed, a new node, a node after
`node_update_flags`, and the master root marked shallow when it has lost its owners. -/
theorem Reachable.forall_datas {P : NodeData → Prop}
    (hroot : ∀ root, P { node_data_new root 0 "TrackerIndexingTree" with shallow := true })
    (hnew : ∀ file flags owner, P (node_data_new file flags owner))
    (hupd : ∀ d, P (node_update_flags d).1)
    (hempty : ∀ d : NodeData, d.owners.length = 0 → P { d with shallow := true })
    {priv : TrackerIndexingTreePrivate} (h : Reachable priv) :
    ∀ x ∈ priv.config_tree.datas, P x := by
  have step : ∀ (t : GNode) (file : GFile) (func : GFile → GFile → Bool) (fd : FoundNode)
      (repl : GNode), find_directory_node t file func = some fd →
      (∀ x ∈ t.datas, P x) → (∀ x ∈ repl.datas, x ∈ fd.node.datas ∨ P x) →
      ∀ x ∈ (g_node_replace_found t file func repl).datas, P x := by
    intro t file func fd repl hfind hold hrepl x hx
    obtain ⟨pre, post, h1, h2⟩ := find_directory_node_from_datas hfind
    rw [h2 repl] at hx
    simp only [List.mem_append] at hx
    rcases hx with (hx | hx) | hx
    · exact hold x (by rw [h1]; simp [hx])
    · rcases hrepl x hx with hx' | hx'
      · exact hold x (by rw [h1]; simp [hx'])
      · exact hx'
    · exact hold x (by rw [h1]; simp [hx])
  have setd : ∀ (fd : FoundNode) (d' : NodeData), P d' →
      ∀ x ∈ (GNode.node d' fd.children fd.next).datas, x ∈ fd.node.datas ∨ P x := by
    intro fd d' hd' x hx
    simp only [GNode.datas, List.mem_append, List.mem_cons] at hx
    simp only [FoundNode.node, GNode.datas, List.mem_append, List.mem_cons]
    rcases hx with hx | hx | hx
    · exact Or.inl (Or.inl hx)
    · exact Or.inr (hx ▸ hd')
    · exact Or.inl (Or.inr (Or.inr hx))
  induction h with
  | constructed root =>
    intro x hx
    simp only [tracker_indexing_tree_new_with_root, GNode.datas, List.nil_append,
      List.mem_singleton] at hx
    rw [hx]
    exact hroot _
  | @add priv _ directory flags owner ih =>
    unfold tracker_indexing_tree_add
    cases hfind : find_directory_node priv.config_tree directory g_file_equal with
    | some node =>
      simp only
      exact step _ _ _ node _ hfind ih (setd node _ (hupd _))
    | none =>
      simp only
      cases hpar : find_directory_node priv.config_tree directory g_file_has_prefix with
      | none => exact ih
      | some parent =>
        simp only
        refine step _ _ _ parent _ hpar ih ?_
        intro x hx
        simp only [GNode.datas, g_node_append_datas, List.mem_append, List.mem_cons,
          List.append_nil, List.not_mem_nil, or_false] at hx
        have hperm := check_reparent_node_datas directory parent.children
        simp only [FoundNode.node, GNode.datas, List.mem_append, List.mem_cons]
        rcases hx with (hx | hx | hx) | hx | hx
        · exact Or.inl (Or.inl (hperm.subset (by simp [hx])))
        · exact Or.inl (Or.inl (hperm.subset (by simp [hx])))
        · exact Or.inr (hx ▸ hnew _ _ _)
        · exact Or.inl (Or.inr (Or.inl hx))
        · exact Or.inl (Or.inr (Or.inr hx))
  | @remove priv _ directory owner ih =>
    unfold tracker_indexing_tree_remove
    cases hfind : find_directory_node priv.config_tree directory g_file_equal with
    | none => exact ih
    | some node =>
      simp only
      cases hown : g_list_find_custom node.data.owners owner with
      | none => exact ih
      | some item =>
        simp only
        by_cases hlen : (g_list_remove_link node.data.owners item).length = 0
        · simp only [hlen, if_true]
          cases hparent : node.parent with
          | none =>
            simp only
            exact step _ _ _ node _ hfind ih (setd node _
              (hempty { node.data with
                owners := g_list_remove_link node.data.owners item } hlen))
          | some parent =>
            simp only
            refine step _ _ _ node _ hfind ih ?_
            intro x hx
            rw [g_node_append_datas, List.mem_append] at hx
            have hperm := check_reparent_node_datas parent.file node.children
            simp only [FoundNode.node, GNode.datas, List.mem_append, List.mem_cons]
            rcases hx with hx | hx
            · exact Or.inl (Or.inr (Or.inr hx))
            · exact Or.inl (Or.inl (hperm.subset (by simp [hx])))
        · simp only [hlen, if_false]
          exact step _ _ _ node _ hfind ih (setd node _ (hupd _))
  | settings _ fp pol fh ih => exact ih

/-! ## `IGNORE` -/

theorem and_ignore_ne_zero_iff (n : Nat) :
    n &&& TRACKER_DIRECTORY_FLAG_IGNORE ≠ 0 ↔ n.testBit 4 = true := by
  have : TRACKER_DIRECTORY_FLAG_IGNORE = 2 ^ 4 := rfl
  rw [this, Nat.and_two_pow]
  cases n.testBit 4 <;> simp

theorem node_get_flags_loop_ignore (owners : List NodeOwnerData) (flags : Nat) :
    (node_get_flags_loop flags owners).testBit 4 =
      (flags.testBit 4 || owners.any (fun w => w.flags.testBit 4)) := by
  induction owners generalizing flags with
  | nil => simp [node_get_flags_loop]
  | cons w rest ih =>
    simp only [node_get_flags_loop, ih, Nat.testBit_or, List.any_cons, Bool.or_assoc]

/-- The flags derived from the owners contain `IGNORE` as soon as one owner has it. -/
theorem node_get_flags_ignore (d : NodeData)
    (h : ∃ w ∈ d.owners, w.flags &&& TRACKER_DIRECTORY_FLAG_IGNORE ≠ 0) :
    node_get_flags d &&& TRACKER_DIRECTORY_FLAG_IGNORE ≠ 0 := by
  obtain ⟨w, hw, hbit⟩ := h
  rw [and_ignore_ne_zero_iff] at hbit
  have hloop : (node_get_flags_loop 0 d.owners).testBit 4 = true := by
    rw [node_get_flags_loop_ignore]
    simp only [Nat.zero_testBit, Bool.false_or, List.any_eq_true]
    exact ⟨w, hw, hbit⟩
  unfold node_get_flags
  simp only
  have hc : node_get_flags_loop 0 d.owners &&& TRACKER_DIRECTORY_FLAG_IGNORE ≠ 0 :=
    (and_ignore_ne_zero_iff _).2 hloop
  rw [if_pos hc, and_ignore_ne_zero_iff, Nat.testBit_and, hloop]
  decide

/-- In every reachable tree the stored flags of a node contain `IGNORE` as soon as one
of its owners has it. -/
theorem Reachable.ignore_stored {priv : TrackerIndexingTreePrivate} (h : Reachable priv) :
    ∀ x ∈ priv.config_tree.datas,
      (∃ w ∈ x.owners, w.flags &&& TRACKER_DIRECTORY_FLAG_IGNORE ≠ 0) →
      x.flags &&& TRACKER_DIRECTORY_FLAG_IGNORE ≠ 0 := by
  refine Reachable.forall_datas ?_ ?_ ?_ ?_ h
  · intro root
    rintro ⟨w, hw, hbit⟩
    simp only [node_data_new, node_owner_data_new, List.mem_singleton] at hw
    subst hw
    exact absurd rfl hbit
  · intro file flags owner
    rintro ⟨w, hw, hbit⟩
    simp only [node_data_new, node_owner_data_new, List.mem_singleton] at hw
    subst hw
    exact hbit
  · intro d hex
    rw [node_update_flags_fst] at hex ⊢
    exact node_get_flags_ignore d hex
  · intro d hlen
    rintro ⟨w, hw, _⟩
    simp only at hw
    rw [List.length_eq_zero] at hlen
    rw [hlen] at hw
    simp at hw

/-- C14: for every reachable engine state and every file whose governing root `n` (the
node whose path `get_root` returns) has at least one owner whose flags contain `IGNORE`,
`is_indexable (file, kind)` is false for every file kind, whatever the filters, the
policies, the hidden toggle and the collaborators are. -/
theorem ignore_owner_never_indexable (env : Collaborators)
    (priv : TrackerIndexingTreePrivate) (h : Reachable priv) (file : GFile)
    (file_type : GFileType) (n : NodeData)
    (hn : n ∈ priv.config_tree.datas)
    (hroot : (tracker_indexing_tree_get_root priv file).1 = some n.file)
    (hign : ∃ w ∈ n.owners, w.flags &&& TRACKER_DIRECTORY_FLAG_IGNORE ≠ 0) :
    tracker_indexing_tree_file_is_indexable env priv file file_type = false := by
  have hinv := h.inv
  have hflags := h.ignore_stored n hn hign
  have hget : tracker_indexing_tree_get_root priv file = (some n.file, n.flags) := by
    unfold tracker_indexing_tree_get_root at hroot ⊢
    cases hfind : find_directory_node priv.config_tree file parent_or_equals with
    | none =>
      rw [hfind] at hroot
      simp at hroot
    | some fd =>
      rw [hfind] at hroot
      simp only at hroot ⊢
      obtain ⟨_, _, hsub, _, _⟩ := hinv.found hfind
      split_ifs at hroot ⊢ with hc
      · simp only [Option.some.injEq] at hroot
        have := hinv.wf.eq_of_file_eq
          (hsub fd.data (by simp [FoundNode.node, GNode.datas])) hn hroot
        rw [this]
  unfold tracker_indexing_tree_file_is_indexable
  rw [hget]
  simp only [hflags, ne_eq, not_false_eq_true, if_true]
  split_ifs <;> rfl

/-- Scenario 5: `/x` has the owner `user` with `IGNORE`, so `/x/file` is not indexable. -/
theorem ignore_owner_never_indexable_witness :
    Reachable scenario_ignore ∧
    scenario_ignore_node ∈ scenario_ignore.config_tree.datas ∧
    (tracker_indexing_tree_get_root scenario_ignore ["x", "file"]).1 =
      some scenario_ignore_node.file ∧
    (∃ w ∈ scenario_ignore_node.owners, w.flags &&& TRACKER_DIRECTORY_FLAG_IGNORE ≠ 0) ∧
    tracker_indexing_tree_get_root scenario_ignore ["x"] =
      (some ["x"], TRACKER_DIRECTORY_FLAG_IGNORE) ∧
    tracker_indexing_tree_file_is_indexable scenario_collaborators scenario_ignore
      ["x", "file"] .G_FILE_TYPE_REGULAR = false :=
  ⟨Reachable.add (Reachable.add (Reachable.constructed none) _ _ _) _ _ _, by decide,
    by decide, by decide, by decide,
    ignore_owner_never_indexable scenario_collaborators scenario_ignore
      (Reachable.add (Reachable.add (Reachable.constructed none) _ _ _) _ _ _)
      ["x", "file"] .G_FILE_TYPE_REGULAR scenario_ignore_node (by decide) (by decide)
      (by decide)⟩

/-! ## Filters and policies -/

theorem tracker_indexing_tree_file_matches_filter_iff (env : Collaborators)
    (priv : TrackerIndexingTreePrivate) (type : TrackerFilterType) (file : GFile) :
    tracker_indexing_tree_file_matches_filter env priv type file = true ↔
      ∃ data ∈ priv.filter_patterns, data.type = type ∧
        ((∃ data_file, data.file = some data_file ∧
            (file = data_file ∨ g_file_has_prefix file data_file = true)) ∨
          env.g_pattern_match_string data.pattern (g_file_get_basename file) = true) := by
  unfold tracker_indexing_tree_file_matches_filter
  simp only [List.any_eq_true, Bool.and_eq_true, Bool.or_eq_true, decide_eq_true_eq]
  constructor
  · rintro ⟨data, hmem, htype, h⟩
    refine ⟨data, hmem, htype, ?_⟩
    rcases h with h | h
    · left
      cases hfile : data.file with
      | none => rw [hfile] at h; simp at h
      | some data_file =>
        rw [hfile] at h
        simp only [Bool.or_eq_true, g_file_equal_iff] at h
        exact ⟨data_file, rfl, h⟩
    · exact Or.inr h
  · rintro ⟨data, hmem, htype, h⟩
    refine ⟨data, hmem, htype, ?_⟩
    rcases h with ⟨data_file, hfile, h⟩ | h
    · left
      rw [hfile]
      simpa only [Bool.or_eq_true, g_file_equal_iff] using h
    · exact Or.inr h

/-- C23: for every filter set, policy table, kind and file, `is_filtered_out (kind, file)`
holds exactly when (`matches (kind, file)` and `policy[kind] = ACCEPT`) or (not
`matches (kind, file)` and `policy[kind] = DENY`); so under `ACCEPT` a file is filtered
out exactly when a filter matches it (a blacklist) and under `DENY` exactly when none
does (a whitelist). -/
theorem file_is_filtered_iff (env : Collaborators) (priv : TrackerIndexingTreePrivate)
    (filter : TrackerFilterType) (file : GFile) :
    (indexing_tree_file_is_filtered env priv filter file = true ↔
      (tracker_indexing_tree_file_matches_filter env priv filter file = true ∧
          priv.policies filter = .TRACKER_FILTER_POLICY_ACCEPT) ∨
        (tracker_indexing_tree_file_matches_filter env priv filter file = false ∧
          priv.policies filter = .TRACKER_FILTER_POLICY_DENY)) ∧
    (priv.policies filter = .TRACKER_FILTER_POLICY_ACCEPT →
      indexing_tree_file_is_filtered env priv filter file =
        tracker_indexing_tree_file_matches_filter env priv filter file) ∧
    (priv.policies filter = .TRACKER_FILTER_POLICY_DENY →
      indexing_tree_file_is_filtered env priv filter file =
        !tracker_indexing_tree_file_matches_filter env priv filter file) := by
  unfold indexing_tree_file_is_filtered
  cases tracker_indexing_tree_file_matches_filter env priv filter file <;>
    cases priv.policies filter <;> simp

/-- C30: on a freshly constructed engine `get_default_policy (kind)` is `ACCEPT` for each
of `FILE`, `DIRECTORY` and `PARENT_DIRECTORY`; and for every state, after
`set_default_policy (kind, p)`, `get_default_policy (kind)` returns `p` while the
policies of the other two kinds, the filter list, the hidden toggle and the tree (and
the master root) are unchanged. -/
theorem set_default_policy_frame (root : Option GFile) (priv : TrackerIndexingTreePrivate)
    (filter : TrackerFilterType) (policy : TrackerFilterPolicy) :
    (tracker_indexing_tree_get_default_policy (tracker_indexing_tree_new_with_root root)
        .TRACKER_FILTER_FILE = .TRACKER_FILTER_POLICY_ACCEPT ∧
      tracker_indexing_tree_get_default_policy (tracker_indexing_tree_new_with_root root)
        .TRACKER_FILTER_DIRECTORY = .TRACKER_FILTER_POLICY_ACCEPT ∧
      tracker_indexing_tree_get_default_policy (tracker_indexing_tree_new_with_root root)
        .TRACKER_FILTER_PARENT_DIRECTORY = .TRACKER_FILTER_POLICY_ACCEPT) ∧
    tracker_indexing_tree_get_default_policy
      (tracker_indexing_tree_set_default_policy priv filter policy) filter = policy ∧
    (∀ other, other ≠ filter →
      tracker_indexing_tree_get_default_policy
        (tracker_indexing_tree_set_default_policy priv filter policy) other =
      tracker_indexing_tree_get_default_policy priv other) ∧
    (tracker_indexing_tree_set_default_policy priv filter policy).filter_patterns =
      priv.filter_patterns ∧
    (tracker_indexing_tree_set_default_policy priv filter policy).filter_hidden =
      priv.filter_hidden ∧
    (tracker_indexing_tree_set_default_policy priv filter policy).config_tree =
      priv.config_tree ∧
    (tracker_indexing_tree_set_default_policy priv filter policy).root = priv.root := by
  refine ⟨⟨rfl, rfl, rfl⟩, ?_, ?_, rfl, rfl, rfl, rfl⟩
  · simp [tracker_indexing_tree_get_default_policy, tracker_indexing_tree_set_default_policy]
  · intro other hne
    simp [tracker_indexing_tree_get_default_policy, tracker_indexing_tree_set_default_policy,
      hne]

/-! ## `parent_is_indexable` -/

theorem tracker_indexing_tree_parent_is_indexable_loop_iff (env : Collaborators)
    (priv : TrackerIndexingTreePrivate) (children : List GFile) :
    tracker_indexing_tree_parent_is_indexable_loop env priv children = true ↔
      ∀ child ∈ children,
        indexing_tree_file_is_filtered env priv .TRACKER_FILTER_PARENT_DIRECTORY child =
          false := by
  induction children with
  | nil => simp [tracker_indexing_tree_parent_is_indexable_loop]
  | cons child children ih =>
    simp only [tracker_indexing_tree_parent_is_indexable_loop, List.mem_cons, forall_eq_or_imp]
    cases indexing_tree_file_is_filtered env priv .TRACKER_FILTER_PARENT_DIRECTORY child
    · simpa using ih
    · simp

/-- C24: for every engine state (reachable or not), directory `parent` and list
`children`, `parent_is_indexable (parent, children)` is true if and only if
`is_indexable (parent, DIRECTORY)` is true and `is_filtered_out (PARENT_DIRECTORY, c)`
is false for every `c` in `children`.  In scenario 6 (root `/a`, recursive; filter
`.nobackup` for parent directories, under `ACCEPT`) `/a/b` with the children `file`
and `.nobackup` is not indexable, and with the child `file` alone it is. -/
theorem parent_is_indexable_iff (env : Collaborators) (priv : TrackerIndexingTreePrivate)
    (parent : GFile) (children : List GFile) :
    (tracker_indexing_tree_parent_is_indexable env priv parent children = true ↔
      tracker_indexing_tree_file_is_indexable env priv parent .G_FILE_TYPE_DIRECTORY = true ∧
      ∀ c ∈ children,
        indexing_tree_file_is_filtered env priv .TRACKER_FILTER_PARENT_DIRECTORY c = false) ∧
    tracker_indexing_tree_parent_is_indexable scenario_glob_collaborators scenario_nobackup
      ["a", "b"] [["a", "b", "file"], ["a", "b", ".nobackup"]] = false ∧
    tracker_indexing_tree_parent_is_indexable scenario_glob_collaborators scenario_nobackup
      ["a", "b"] [["a", "b", "file"]] = true := by
  refine ⟨?_, by decide, by decide⟩
  unfold tracker_indexing_tree_parent_is_indexable
  rw [← tracker_indexing_tree_parent_is_indexable_loop_iff]
  cases tracker_indexing_tree_file_is_indexable env priv parent .G_FILE_TYPE_DIRECTORY <;> simp

/-! ## `add_filter` -/

theorem add_filters_filter_patterns (adds : List (TrackerFilterType × String))
    (priv : TrackerIndexingTreePrivate) :
    (add_filters priv adds).filter_patterns =
      (adds.map fun a => pattern_data_new a.2 a.1).reverse ++ priv.filter_patterns := by
  induction adds generalizing priv with
  | nil => simp [add_filters]
  | cons a adds ih =>
    have := ih (tracker_indexing_tree_add_filter priv a.1 a.2)
    simp only [add_filters, List.foldl_cons] at this ⊢
    rw [this]
    simp [tracker_indexing_tree_add_filter]

theorem add_filters_matches_iff (env : Collaborators) (priv : TrackerIndexingTreePrivate)
    (adds : List (TrackerFilterType × String)) (hempty : priv.filter_patterns = [])
    (hrel : ∀ a ∈ adds, g_path_is_absolute a.2 = false) (type : TrackerFilterType)
    (file : GFile) :
    tracker_indexing_tree_file_matches_filter env (add_filters priv adds) type file = true ↔
      ∃ a ∈ adds, a.1 = type ∧
        env.g_pattern_match_string a.2 (g_file_get_basename file) = true := by
  rw [tracker_indexing_tree_file_matches_filter_iff, add_filters_filter_patterns, hempty]
  simp only [List.append_nil, List.mem_reverse, List.mem_map]
  constructor
  · rintro ⟨data, ⟨a, ha, rfl⟩, htype, h⟩
    refine ⟨a, ha, htype, ?_⟩
    rcases h with ⟨data_file, hfile, _⟩ | h
    · simp [pattern_data_new, hrel a ha] at hfile
    · exact h
  · rintro ⟨a, ha, htype, h⟩
    exact ⟨_, ⟨a, ha, rfl⟩, htype, Or.inr h⟩

/-- C21: for every filter set whose entries were all added (to an engine without
filters) from glob strings that are not absolute, `matches (kind, file)` is true if and
only if some entry of exactly that kind has a glob that the basename of `file`
satisfies; the entries of other kinds never influence the result (two such filter sets
with the same entries of that kind give the same result), and the result does not
depend on the order in which the filters were added. -/
theorem file_matches_filter_basename (env : Collaborators)
    (priv : TrackerIndexingTreePrivate) (adds : List (TrackerFilterType × String))
    (hempty : priv.filter_patterns = [])
    (hrel : ∀ a ∈ adds, g_path_is_absolute a.2 = false) (type : TrackerFilterType)
    (file : GFile) :
    (tracker_indexing_tree_file_matches_filter env (add_filters priv adds) type file = true ↔
      ∃ a ∈ adds, a.1 = type ∧
        env.g_pattern_match_string a.2 (g_file_get_basename file) = true) ∧
    (∀ others : List (TrackerFilterType × String),
      (∀ a ∈ others, g_path_is_absolute a.2 = false) →
      others.filter (fun a => a.1 = type) = adds.filter (fun a => a.1 = type) →
      tracker_indexing_tree_file_matches_filter env (add_filters priv others) type file =
        tracker_indexing_tree_file_matches_filter env (add_filters priv adds) type file) ∧
    (∀ reordered : List (TrackerFilterType × String), reordered.Perm adds →
      tracker_indexing_tree_file_matches_filter env (add_filters priv reordered) type file =
        tracker_indexing_tree_file_matches_filter env (add_filters priv adds) type file) := by
  refine ⟨add_filters_matches_iff env priv adds hempty hrel type file, ?_, ?_⟩
  · intro others hothers hsame
    rw [Bool.eq_iff_iff, add_filters_matches_iff env priv adds hempty hrel,
      add_filters_matches_iff env priv others hempty hothers]
    have key : ∀ l : List (TrackerFilterType × String),
        (∃ a ∈ l, a.1 = type ∧
          env.g_pattern_match_string a.2 (g_file_get_basename file) = true) ↔
        ∃ a ∈ l.filter (fun a => a.1 = type),
          env.g_pattern_match_string a.2 (g_file_get_basename file) = true := by
      intro l
      simp only [List.mem_filter, decide_eq_true_eq]
      constructor
      · rintro ⟨a, ha, h1, h2⟩; exact ⟨a, ⟨ha, h1⟩, h2⟩
      · rintro ⟨a, ⟨ha, h1⟩, h2⟩; exact ⟨a, ha, h1, h2⟩
    rw [key others, key adds, hsame]
  · intro reordered hperm
    have hre : ∀ a ∈ reordered, g_path_is_absolute a.2 = false :=
      fun a ha => hrel a (hperm.mem_iff.1 ha)
    rw [Bool.eq_iff_iff, add_filters_matches_iff env priv adds hempty hrel,
      add_filters_matches_iff env priv reordered hempty hre]
    constructor
    · rintro ⟨a, ha, h⟩; exact ⟨a, hperm.mem_iff.1 ha, h⟩
    · rintro ⟨a, ha, h⟩; exact ⟨a, hperm.mem_iff.2 ha, h⟩

/-- Scenario 2: after `add_filter (FILE, "*.tmp")` and a directory filter `po`, the file
filters match `/a/b/junk.tmp` and not `/a/b/keep.txt` or `/a/po`. -/
theorem file_matches_filter_basename_witness :
    tracker_indexing_tree_new.filter_patterns = [] ∧
    (∀ a ∈ [(TrackerFilterType.TRACKER_FILTER_FILE, "*.tmp"),
        (TrackerFilterType.TRACKER_FILTER_DIRECTORY, "po")],
      g_path_is_absolute a.2 = false) ∧
    tracker_indexing_tree_file_matches_filter scenario_glob_collaborators
      (add_filters tracker_indexing_tree_new
        [(.TRACKER_FILTER_FILE, "*.tmp"), (.TRACKER_FILTER_DIRECTORY, "po")])
      .TRACKER_FILTER_FILE ["a", "b", "junk.tmp"] = true ∧
    tracker_indexing_tree_file_matches_filter scenario_glob_collaborators
      (add_filters tracker_indexing_tree_new
        [(.TRACKER_FILTER_FILE, "*.tmp"), (.TRACKER_FILTER_DIRECTORY, "po")])
      .TRACKER_FILTER_FILE ["a", "b", "keep.txt"] = false ∧
    tracker_indexing_tree_file_matches_filter scenario_glob_collaborators
      (add_filters tracker_indexing_tree_new
        [(.TRACKER_FILTER_FILE, "*.tmp"), (.TRACKER_FILTER_DIRECTORY, "po")])
      .TRACKER_FILTER_FILE ["a", "po"] = false ∧
    (tracker_indexing_tree_file_matches_filter scenario_glob_collaborators
        (add_filters tracker_indexing_tree_new
          [(.TRACKER_FILTER_FILE, "*.tmp"), (.TRACKER_FILTER_DIRECTORY, "po")])
        .TRACKER_FILTER_FILE ["a", "b", "junk.tmp"] = true ↔
      ∃ a ∈ [(TrackerFilterType.TRACKER_FILTER_FILE, "*.tmp"),
          (TrackerFilterType.TRACKER_FILTER_DIRECTORY, "po")],
        a.1 = .TRACKER_FILTER_FILE ∧
        scenario_glob_collaborators.g_pattern_match_string a.2
          (g_file_get_basename ["a", "b", "junk.tmp"]) = true) :=
  ⟨rfl, by decide, by decide, by decide, by decide,
    (file_matches_filter_basename scenario_glob_collaborators tracker_indexing_tree_new
      [(.TRACKER_FILTER_FILE, "*.tmp"), (.TRACKER_FILTER_DIRECTORY, "po")] rfl (by decide)
      .TRACKER_FILTER_FILE ["a", "b", "junk.tmp"]).1⟩

/-! ## Filters made from an absolute path -/

/-- C22, as it is written, fails at the top of the file system: the entry made from the
absolute glob `/*` has the file `/*` as its path, `/` neither is that file nor lies
inside it, and yet the entry matches `/`, because the glob `/*` matches the basename
of `/`, which is `/`. -/
theorem absolute_filter_matches_by_basename :
    g_path_is_absolute "/*" = true ∧
    (pattern_data_new "/*" .TRACKER_FILTER_FILE).file = some ["*"] ∧
    g_file_equal [] ["*"] = false ∧
    g_file_has_prefix [] ["*"] = false ∧
    g_file_get_basename [] = "/" ∧
    tracker_indexing_tree_new.filter_patterns = [] ∧
    tracker_indexing_tree_file_matches_filter scenario_glob_collaborators
      (tracker_indexing_tree_add_filter tracker_indexing_tree_new .TRACKER_FILTER_FILE "/*")
      .TRACKER_FILTER_FILE [] = true := by
  decide

/-- A glob that starts with a slash only matches strings that start with a slash. -/
theorem g_pattern_match_chars_slash (pattern string : List Char)
    (h : g_pattern_match_chars ('/' :: pattern) string = true) : string.head? = some '/' := by
  cases string with
  | nil => simp [g_pattern_match_chars] at h
  | cons d rest =>
    simp only [g_pattern_match_chars, Char.reduceEq, if_false, decide_False, Bool.false_or,
      Bool.and_eq_true, beq_iff_eq] at h
    simp [← h.1]

/-- C22, amended: with globs matched as `g_pattern_match_string` matches them, for every
filter entry made by `add_filter` from an absolute glob string and every file: the
filters of the entry's kind match `file` afterwards if and only if `file` is the
entry's path, or lies strictly inside it, or the basename of `file` begins with a slash
and satisfies the entry's glob, or a filter that was there before matches `file`.  So
for every file whose basename does not begin with a slash, the entry matches exactly
the files at and inside its path; these are all files but the top directory `/`, whose
basename is `/`, the names of directory entries having no slash in them. -/
theorem absolute_filter_matches_iff (env : Collaborators)
    (henv : ∀ pattern string, env.g_pattern_match_string pattern string =
      g_pattern_match_chars pattern.toList string.toList)
    (priv : TrackerIndexingTreePrivate) (type : TrackerFilterType) (glob_string : String)
    (habs : g_path_is_absolute glob_string = true) (file : GFile) :
    (pattern_data_new glob_string type).file = some (g_file_new_for_path glob_string) ∧
    (tracker_indexing_tree_file_matches_filter env
        (tracker_indexing_tree_add_filter priv type glob_string) type file = true ↔
      (file = g_file_new_for_path glob_string ∨
        g_file_has_prefix file (g_file_new_for_path glob_string) = true ∨
        ((g_file_get_basename file).toList.head? = some '/' ∧
          g_pattern_match_chars glob_string.toList (g_file_get_basename file).toList = true)) ∨
      tracker_indexing_tree_file_matches_filter env priv type file = true) ∧
    ((g_file_get_basename file).toList.head? ≠ some '/' →
      (tracker_indexing_tree_file_matches_filter env
          (tracker_indexing_tree_add_filter priv type glob_string) type file = true ↔
        (file = g_file_new_for_path glob_string ∨
          g_file_has_prefix file (g_file_new_for_path glob_string) = true) ∨
        tracker_indexing_tree_file_matches_filter env priv type file = true)) ∧
    (file ≠ [] → (∀ name ∈ file, name.toList.head? ≠ some '/') →
      (tracker_indexing_tree_file_matches_filter env
          (tracker_indexing_tree_add_filter priv type glob_string) type file = true ↔
        (file = g_file_new_for_path glob_string ∨
          g_file_has_prefix file (g_file_new_for_path glob_string) = true) ∨
        tracker_indexing_tree_file_matches_filter env priv type file = true)) := by
  have hslash : g_pattern_match_chars glob_string.toList (g_file_get_basename file).toList =
      true → (g_file_get_basename file).toList.head? = some '/' := by
    intro hm
    have hhead : glob_string.toList.head? = some '/' := by
      simpa [g_path_is_absolute] using habs
    cases hg : glob_string.toList with
    | nil => rw [hg] at hhead; simp at hhead
    | cons c pattern =>
      rw [hg] at hhead hm
      simp only [List.head?_cons, Option.some.injEq] at hhead
      subst hhead
      exact g_pattern_match_chars_slash _ _ hm
  have hiff : tracker_indexing_tree_file_matches_filter env
        (tracker_indexing_tree_add_filter priv type glob_string) type file = true ↔
      (file = g_file_new_for_path glob_string ∨
        g_file_has_prefix file (g_file_new_for_path glob_string) = true ∨
        g_pattern_match_chars glob_string.toList (g_file_get_basename file).toList = true) ∨
      tracker_indexing_tree_file_matches_filter env priv type file = true := by
    simp only [tracker_indexing_tree_file_matches_filter, tracker_indexing_tree_add_filter,
      pattern_data_new, habs, if_true, List.any_cons, decide_True, Bool.true_and,
      Bool.or_eq_true, g_file_equal_iff, henv]
    tauto
  have hrest : (g_file_get_basename file).toList.head? ≠ some '/' →
      (tracker_indexing_tree_file_matches_filter env
          (tracker_indexing_tree_add_filter priv type glob_string) type file = true ↔
        (file = g_file_new_for_path glob_string ∨
          g_file_has_prefix file (g_file_new_for_path glob_string) = true) ∨
        tracker_indexing_tree_file_matches_filter env priv type file = true) := by
    intro hbase
    rw [hiff]
    constructor
    · rintro ((h | h | h) | h)
      · exact Or.inl (Or.inl h)
      · exact Or.inl (Or.inr h)
      · exact absurd (hslash h) hbase
      · exact Or.inr h
    · rintro ((h | h) | h)
      · exact Or.inl (Or.inl h)
      · exact Or.inl (Or.inr (Or.inl h))
      · exact Or.inr h
  refine ⟨by simp [pattern_data_new, habs], ?_, hrest, ?_⟩
  · rw [hiff]
    constructor
    · rintro ((h | h | h) | h)
      · exact Or.inl (Or.inl h)
      · exact Or.inl (Or.inr (Or.inl h))
      · exact Or.inl (Or.inr (Or.inr ⟨hslash h, h⟩))
      · exact Or.inr h
    · rintro ((h | h | ⟨_, h⟩) | h)
      · exact Or.inl (Or.inl h)
      · exact Or.inl (Or.inr (Or.inl h))
      · exact Or.inl (Or.inr (Or.inr h))
      · exact Or.inr h
  · intro hne hnames
    apply hrest
    have hlast : g_file_get_basename file = file.getLast hne := by
      simp [g_file_get_basename, List.getLast?_eq_getLast _ hne]
    rw [hlast]
    exact hnames _ (List.getLast_mem hne)

/-- The filter `/a` on a fresh engine matches `/a` and `/a/x`, and not `/b`; the filter
`//a`, whose path lies below the root `//`, matches none of them. -/
theorem absolute_filter_matches_iff_witness :
    (∀ pattern string, scenario_glob_collaborators.g_pattern_match_string pattern string =
      g_pattern_match_chars pattern.toList string.toList) ∧
    g_path_is_absolute "/a" = true ∧
    (g_file_get_basename ["a", "x"]).toList.head? ≠ some '/' ∧
    g_file_new_for_path "/a" = ["a"] ∧
    g_file_new_for_path "//a" = ["/", "a"] ∧
    g_file_new_for_path "///a" = ["a"] ∧
    tracker_indexing_tree_file_matches_filter scenario_glob_collaborators
      (tracker_indexing_tree_add_filter tracker_indexing_tree_new .TRACKER_FILTER_DIRECTORY
        "/a") .TRACKER_FILTER_DIRECTORY ["a"] = true ∧
    tracker_indexing_tree_file_matches_filter scenario_glob_collaborators
      (tracker_indexing_tree_add_filter tracker_indexing_tree_new .TRACKER_FILTER_DIRECTORY
        "/a") .TRACKER_FILTER_DIRECTORY ["a", "x"] = true ∧
    tracker_indexing_tree_file_matches_filter scenario_glob_collaborators
      (tracker_indexing_tree_add_filter tracker_indexing_tree_new .TRACKER_FILTER_DIRECTORY
        "/a") .TRACKER_FILTER_DIRECTORY ["b"] = false ∧
    tracker_indexing_tree_file_matches_filter scenario_glob_collaborators
      (tracker_indexing_tree_add_filter tracker_indexing_tree_new .TRACKER_FILTER_DIRECTORY
        "//a") .TRACKER_FILTER_DIRECTORY ["a"] = false ∧
    (tracker_indexing_tree_file_matches_filter scenario_glob_collaborators
        (tracker_indexing_tree_add_filter tracker_indexing_tree_new
          .TRACKER_FILTER_DIRECTORY "/a") .TRACKER_FILTER_DIRECTORY ["a", "x"] = true ↔
      (["a", "x"] = g_file_new_for_path "/a" ∨
        g_file_has_prefix ["a", "x"] (g_file_new_for_path "/a") = true) ∨
      tracker_indexing_tree_file_matches_filter scenario_glob_collaborators
        tracker_indexing_tree_new .TRACKER_FILTER_DIRECTORY ["a", "x"] = true) :=
  ⟨fun _ _ => rfl, by decide, by decide, by decide, by decide, by decide, by decide,
    by decide, by decide, by decide,
    (absolute_filter_matches_iff scenario_glob_collaborators (fun _ _ => rfl)
      tracker_indexing_tree_new .TRACKER_FILTER_DIRECTORY "/a" (by decide)
      ["a", "x"]).2.2.1 (by decide)⟩

/-! ## The governing root of a file -/

theorem Inv.get_root_some {priv : TrackerIndexingTreePrivate} (h : Inv priv) {file root : GFile}
    {flags : Nat} (hroot : tracker_indexing_tree_get_root priv file = (some root, flags)) :
    ∃ n ∈ priv.config_tree.datas, n.file = root ∧ n.flags = flags ∧ n.shallow = false := by
  unfold tracker_indexing_tree_get_root at hroot
  cases hfind : find_directory_node priv.config_tree file parent_or_equals with
  | none =>
    rw [hfind] at hroot
    simp at hroot
  | some fd =>
    rw [hfind] at hroot
    simp only at hroot
    obtain ⟨_, _, hsub, _, _⟩ := h.found hfind
    split_ifs at hroot with hc
    · simp only [Prod.mk.injEq, Option.some.injEq] at hroot
      simp only [Bool.and_eq_true, Bool.not_eq_true'] at hc
      exact ⟨fd.data, hsub fd.data (by simp [FoundNode.node, GNode.datas]), hroot.1, hroot.2,
        hc.1⟩
    · simp at hroot

theorem Inv.get_root_node {priv : TrackerIndexingTreePrivate} (h : Inv priv) {r : NodeData}
    (hr : r ∈ priv.config_tree.datas) (hshallow : r.shallow = false) :
    tracker_indexing_tree_get_root priv r.file = (some r.file, r.flags) := by
  unfold tracker_indexing_tree_get_root
  cases hfind : find_directory_node priv.config_tree r.file parent_or_equals with
  | none =>
    have := (find_directory_node_eq_none_iff _ _ _).1 hfind r hr
    rw [parent_or_equals_false_iff] at this
    exact absurd (List.prefix_refl _) this
  | some fd =>
    obtain ⟨_, _, hsub, _, _⟩ := h.found hfind
    have h1 := (parent_or_equals_iff _ _).1 (find_directory_node_from_some _ _ _ hfind).1
    have h2 : r.file <+: fd.data.file :=
      find_directory_node_from_deepest (fun x hx => (parent_or_equals_iff _ _).1 hx) _ _ _
        hfind h.wf r hr ((parent_or_equals_iff _ _).2 (List.prefix_refl _))
    have h3 : fd.data = r :=
      h.wf.eq_of_file_eq (hsub fd.data (by simp [FoundNode.node, GNode.datas])) hr
        (prefix_antisymm h1 h2)
    simp [h3, hshallow, g_file_equal]

theorem indexing_tree_file_is_filtered_of_no_filters (env : Collaborators)
    (priv : TrackerIndexingTreePrivate) (hfilters : priv.filter_patterns = [])
    (filter : TrackerFilterType)
    (hpolicy : priv.policies filter = .TRACKER_FILTER_POLICY_ACCEPT) (file : GFile) :
    indexing_tree_file_is_filtered env priv filter file = false := by
  simp [indexing_tree_file_is_filtered, tracker_indexing_tree_file_matches_filter, hfilters,
    hpolicy]

/-! ## Roots that do not recurse -/

/-- C25: with no filters, all policies `ACCEPT` and the hidden toggle off: for every
file whose governing root `r` has flags containing neither `RECURSE` nor `IGNORE`, and
every file kind (known or not), `is_indexable (file, kind)` is true if and only if
`file == r` or the direct parent of `file` is `r`. -/
theorem non_recursive_root_direct_children (env : Collaborators)
    (priv : TrackerIndexingTreePrivate) (hfilters : priv.filter_patterns = [])
    (hpolicies : ∀ kind, priv.policies kind = .TRACKER_FILTER_POLICY_ACCEPT)
    (hhidden : priv.filter_hidden = false) (file r : GFile) (flags : Nat)
    (hroot : tracker_indexing_tree_get_root priv file = (some r, flags))
    (hrecurse : flags &&& TRACKER_DIRECTORY_FLAG_RECURSE = 0)
    (hignore : flags &&& TRACKER_DIRECTORY_FLAG_IGNORE = 0) (file_type : GFileType) :
    tracker_indexing_tree_file_is_indexable env priv file file_type = true ↔
      file = r ∨ g_file_has_parent file r = true := by
  unfold tracker_indexing_tree_file_is_indexable
  rw [hroot]
  simp only [indexing_tree_file_is_filtered_of_no_filters env priv hfilters _ (hpolicies _),
    ite_self, Bool.false_eq_true, if_false, hignore, ne_eq, not_true_eq_false, hrecurse,
    true_and, tracker_indexing_tree_get_filter_hidden, hhidden, false_and]
  by_cases he : g_file_equal file r = true
  · simp only [he, if_true, true_iff]
    exact Or.inl ((g_file_equal_iff _ _).1 he)
  · have hne : file ≠ r := fun e => he ((g_file_equal_iff _ _).2 e)
    simp only [he, Bool.false_eq_true, if_false, hne, false_or]
    by_cases hp : g_file_has_parent file r = true
    · simp [hp]
    · simp [hp]

/-- Scenario 1: under the root `/a` that does not recurse, `/a` and `/a/x` are
indexable and `/a/b/x` is not. -/
theorem non_recursive_root_direct_children_witness :
    scenario_non_recursive.filter_patterns = [] ∧
    (∀ kind, scenario_non_recursive.policies kind = .TRACKER_FILTER_POLICY_ACCEPT) ∧
    scenario_non_recursive.filter_hidden = false ∧
    tracker_indexing_tree_get_root scenario_non_recursive ["a", "b", "x"] =
      (some ["a"], TRACKER_DIRECTORY_FLAG_NONE) ∧
    tracker_indexing_tree_file_is_indexable scenario_collaborators scenario_non_recursive
      ["a"] .G_FILE_TYPE_DIRECTORY = true ∧
    tracker_indexing_tree_file_is_indexable scenario_collaborators scenario_non_recursive
      ["a", "x"] .G_FILE_TYPE_REGULAR = true ∧
    tracker_indexing_tree_file_is_indexable scenario_collaborators scenario_non_recursive
      ["a", "b", "x"] .G_FILE_TYPE_REGULAR = false ∧
    (tracker_indexing_tree_file_is_indexable scenario_collaborators scenario_non_recursive
        ["a", "b", "x"] .G_FILE_TYPE_REGULAR = true ↔
      ["a", "b", "x"] = ["a"] ∨ g_file_has_parent ["a", "b", "x"] ["a"] = true) :=
  ⟨rfl, fun _ => rfl, rfl, by decide, by decide, by decide, by decide,
    non_recursive_root_direct_children scenario_collaborators scenario_non_recursive rfl
      (fun _ => rfl) rfl ["a", "b", "x"] ["a"] TRACKER_DIRECTORY_FLAG_NONE (by decide)
      (by decide) (by decide) .G_FILE_TYPE_REGULAR⟩

/-! ## Hidden files -/

/-- C26: when the hidden toggle is on, for every reachable tree and every file whose
basename begins with `.` (which the collaborators report as hidden),
`is_indexable (file, kind)` is false for every file kind, unless a node that is not
shallow has exactly that path. -/
theorem hidden_file_not_indexable (env : Collaborators) (priv : TrackerIndexingTreePrivate)
    (h : Reachable priv) (henv : HiddenBasenames env) (hhidden : priv.filter_hidden = true)
    (file : GFile) (hdot : (g_file_get_basename file).toList.head? = some '.')
    (hnode : ∀ n ∈ priv.config_tree.datas, n.file = file → n.shallow = true)
    (file_type : GFileType) :
    tracker_indexing_tree_file_is_indexable env priv file file_type = false := by
  have hinv := h.inv
  unfold tracker_indexing_tree_file_is_indexable
  rcases hroot : tracker_indexing_tree_get_root priv file with ⟨_ | config_file, config_flags⟩
  · rfl
  · obtain ⟨n, hn, hfile, _, hshallow⟩ := hinv.get_root_some hroot
    have hne : g_file_equal file config_file = false := by
      rw [Bool.eq_false_iff]
      intro he
      have := hnode n hn (by rw [hfile, (g_file_equal_iff _ _).1 he])
      rw [hshallow] at this
      exact Bool.false_ne_true this
    have hh : tracker_indexing_tree_get_filter_hidden priv = true ∧
        env.tracker_file_is_hidden file = true := ⟨hhidden, henv file hdot⟩
    simp only [hne, Bool.false_eq_true, if_false, hh, and_self, if_true]
    split_ifs <;> rfl

/-- With the hidden toggle on and the root `/a`, `/a/.git` is not indexable. -/
theorem hidden_file_not_indexable_witness :
    Reachable scenario_hidden ∧
    HiddenBasenames scenario_glob_collaborators ∧
    scenario_hidden.filter_hidden = true ∧
    (g_file_get_basename ["a", ".git"]).toList.head? = some '.' ∧
    (∀ n ∈ scenario_hidden.config_tree.datas, n.file = ["a", ".git"] → n.shallow = true) ∧
    tracker_indexing_tree_file_is_indexable scenario_glob_collaborators scenario_hidden
      ["a", ".git"] .G_FILE_TYPE_DIRECTORY = false :=
  ⟨Reachable.settings (Reachable.add (Reachable.constructed none) _ _ _) _ _ _,
    fun file hfile => by simpa [scenario_glob_collaborators] using hfile,
    rfl, by decide, by decide,
    hidden_file_not_indexable scenario_glob_collaborators scenario_hidden
      (Reachable.settings (Reachable.add (Reachable.constructed none) _ _ _) _ _ _)
      (fun file hfile => by simpa [scenario_glob_collaborators] using hfile)
      rfl ["a", ".git"] (by decide) (by decide) .G_FILE_TYPE_DIRECTORY⟩

/-! ## Roots and the filters -/

/-- C27, as it is written, fails when a filter holds of the root itself: with the root
`/a` (recursive, not ignored) and the directory filter `a` under `ACCEPT`, `/a` is not
indexable as a directory. -/
theorem filtered_root_not_indexable :
    Reachable scenario_filtered_root ∧
    scenario_recursive_node ∈ scenario_filtered_root.config_tree.datas ∧
    scenario_recursive_node.file = ["a"] ∧
    scenario_recursive_node.shallow = false ∧
    scenario_recursive_node.flags &&& TRACKER_DIRECTORY_FLAG_IGNORE = 0 ∧
    tracker_indexing_tree_file_is_indexable scenario_glob_collaborators scenario_filtered_root
      scenario_recursive_node.file .G_FILE_TYPE_DIRECTORY = false :=
  ⟨Reachable.settings (Reachable.add (Reachable.constructed none) _ _ _) _ _ _, by decide,
    rfl, rfl, by decide, by decide⟩

/-- C27, amended: for every reachable engine state, every non-shallow node `r` whose
flags lack `IGNORE`, and every file kind, `is_indexable (r.path, file_kind)` is true if
and only if the filters made for that kind do not filter `r.path` out: the `DIRECTORY`
or `FILE` filters of a known kind, the filters of the probed kind when the kind is
`UNKNOWN` and the flags of `r` contain `NO_STAT`, and none otherwise. -/
theorem root_is_indexable_iff (env : Collaborators) (priv : TrackerIndexingTreePrivate)
    (h : Reachable priv) (r : NodeData) (hr : r ∈ priv.config_tree.datas)
    (hshallow : r.shallow = false)
    (hignore : r.flags &&& TRACKER_DIRECTORY_FLAG_IGNORE = 0) (file_type : GFileType) :
    tracker_indexing_tree_file_is_indexable env priv r.file file_type = true ↔
      (file_type ≠ .G_FILE_TYPE_UNKNOWN →
        indexing_tree_file_is_filtered env priv
          (if file_type = .G_FILE_TYPE_DIRECTORY then .TRACKER_FILTER_DIRECTORY
            else .TRACKER_FILTER_FILE) r.file = false) ∧
      (file_type = .G_FILE_TYPE_UNKNOWN →
        r.flags &&& TRACKER_DIRECTORY_FLAG_NO_STAT ≠ 0 →
        indexing_tree_file_is_filtered env priv
          (if env.g_file_query_file_type r.file = .G_FILE_TYPE_DIRECTORY then
            .TRACKER_FILTER_DIRECTORY else .TRACKER_FILTER_FILE) r.file = false) := by
  unfold tracker_indexing_tree_file_is_indexable
  rw [h.inv.get_root_node hr hshallow]
  have he : g_file_equal r.file r.file = true := (g_file_equal_iff _ _).2 rfl
  simp only [hignore, ne_eq, not_true_eq_false, if_false, he, if_true]
  by_cases hk : file_type = .G_FILE_TYPE_UNKNOWN
  · subst hk
    by_cases hn : r.flags &&& TRACKER_DIRECTORY_FLAG_NO_STAT = 0
    · simp [hn]
    · simp [hn]
  · simp [hk]

/-- Scenario 2: the root `/a` is not held by the file filter `*.tmp`, so it is
indexable as a directory. -/
theorem root_is_indexable_iff_witness :
    Reachable scenario_tmp_filter ∧
    scenario_recursive_node ∈ scenario_tmp_filter.config_tree.datas ∧
    scenario_recursive_node.shallow = false ∧
    scenario_recursive_node.flags &&& TRACKER_DIRECTORY_FLAG_IGNORE = 0 ∧
    tracker_indexing_tree_file_is_indexable scenario_glob_collaborators scenario_tmp_filter
      scenario_recursive_node.file .G_FILE_TYPE_DIRECTORY = true ∧
    (tracker_indexing_tree_file_is_indexable scenario_glob_collaborators scenario_tmp_filter
        scenario_recursive_node.file .G_FILE_TYPE_DIRECTORY = true ↔
      (GFileType.G_FILE_TYPE_DIRECTORY ≠ .G_FILE_TYPE_UNKNOWN →
        indexing_tree_file_is_filtered scenario_glob_collaborators scenario_tmp_filter
          (if GFileType.G_FILE_TYPE_DIRECTORY = .G_FILE_TYPE_DIRECTORY then
            .TRACKER_FILTER_DIRECTORY else .TRACKER_FILTER_FILE)
          scenario_recursive_node.file = false) ∧
      (GFileType.G_FILE_TYPE_DIRECTORY = .G_FILE_TYPE_UNKNOWN →
        scenario_recursive_node.flags &&& TRACKER_DIRECTORY_FLAG_NO_STAT ≠ 0 →
        indexing_tree_file_is_filtered scenario_glob_collaborators scenario_tmp_filter
          (if scenario_glob_collaborators.g_file_query_file_type scenario_recursive_node.file =
              .G_FILE_TYPE_DIRECTORY then
            .TRACKER_FILTER_DIRECTORY else .TRACKER_FILTER_FILE)
          scenario_recursive_node.file = false)) :=
  ⟨Reachable.settings (Reachable.add (Reachable.constructed none) _ _ _) _ _ _, by decide,
    rfl, by decide, by decide,
    root_is_indexable_iff scenario_glob_collaborators scenario_tmp_filter
      (Reachable.settings (Reachable.add (Reachable.constructed none) _ _ _) _ _ _)
      scenario_recursive_node (by decide) rfl (by decide) .G_FILE_TYPE_DIRECTORY⟩

/-! ## Files of unknown kind -/

/-- C28: when the file kind is `UNKNOWN` and the flags of the governing root lack
`NO_STAT`, the filters are skipped: for any two engine states with the same tree and
hidden toggle, whatever their filters and policies are, and for any results of the file
type probe (and of glob matching), `is_indexable (file, UNKNOWN)` returns the same
value. -/
theorem unknown_kind_skips_filters (env1 env2 : Collaborators)
    (priv1 priv2 : TrackerIndexingTreePrivate)
    (htree : priv1.config_tree = priv2.config_tree)
    (hhidden : priv1.filter_hidden = priv2.filter_hidden)
    (henv : env1.tracker_file_is_hidden = env2.tracker_file_is_hidden) (file : GFile)
    (hnostat : (tracker_indexing_tree_get_root priv1 file).2 &&&
      TRACKER_DIRECTORY_FLAG_NO_STAT = 0) :
    tracker_indexing_tree_file_is_indexable env1 priv1 file .G_FILE_TYPE_UNKNOWN =
      tracker_indexing_tree_file_is_indexable env2 priv2 file .G_FILE_TYPE_UNKNOWN := by
  have hroot : tracker_indexing_tree_get_root priv2 file =
      tracker_indexing_tree_get_root priv1 file := by
    simp only [tracker_indexing_tree_get_root, htree]
  unfold tracker_indexing_tree_file_is_indexable
  rw [hroot]
  rcases hget : tracker_indexing_tree_get_root priv1 file with ⟨_ | config_file, config_flags⟩
  · rfl
  · rw [hget] at hnostat
    simp only at hnostat
    simp only [hnostat, ne_eq, not_true_eq_false, and_false, if_false, not_true_eq_false,
      tracker_indexing_tree_get_filter_hidden, hhidden, henv]

/-- Scenario 2 without a known kind: `/a/b/junk.tmp` is indexable with the filter
`*.tmp` as it is without it, whatever the probe would say. -/
theorem unknown_kind_skips_filters_witness :
    scenario_recursive.config_tree = scenario_tmp_filter.config_tree ∧
    scenario_recursive.filter_hidden = scenario_tmp_filter.filter_hidden ∧
    scenario_glob_collaborators.tracker_file_is_hidden =
      scenario_directory_collaborators.tracker_file_is_hidden ∧
    (tracker_indexing_tree_get_root scenario_recursive ["a", "b", "junk.tmp"]).2 &&&
      TRACKER_DIRECTORY_FLAG_NO_STAT = 0 ∧
    tracker_indexing_tree_file_is_indexable scenario_glob_collaborators scenario_tmp_filter
      ["a", "b", "junk.tmp"] .G_FILE_TYPE_REGULAR = false ∧
    tracker_indexing_tree_file_is_indexable scenario_glob_collaborators scenario_tmp_filter
      ["a", "b", "junk.tmp"] .G_FILE_TYPE_UNKNOWN = true ∧
    tracker_indexing_tree_file_is_indexable scenario_glob_collaborators scenario_recursive
        ["a", "b", "junk.tmp"] .G_FILE_TYPE_UNKNOWN =
      tracker_indexing_tree_file_is_indexable scenario_directory_collaborators
        scenario_tmp_filter ["a", "b", "junk.tmp"] .G_FILE_TYPE_UNKNOWN :=
  ⟨rfl, rfl, rfl, by decide, by decide, by decide,
    unknown_kind_skips_filters scenario_glob_collaborators scenario_directory_collaborators
      scenario_recursive scenario_tmp_filter rfl rfl rfl ["a", "b", "junk.tmp"] (by decide)⟩

/-- C29: when the file kind is `UNKNOWN` and the flags of the governing root contain
`NO_STAT`, the kind is resolved through the probe: for every file for which the probe
answers a kind `k` other than `UNKNOWN` (a regular file or a directory, say),
`is_indexable (file, UNKNOWN)` equals `is_indexable (file, k)`. -/
theorem no_stat_resolves_kind (env : Collaborators) (priv : TrackerIndexingTreePrivate)
    (file : GFile)
    (hnostat : (tracker_indexing_tree_get_root priv file).2 &&&
      TRACKER_DIRECTORY_FLAG_NO_STAT ≠ 0)
    (hprobe : env.g_file_query_file_type file ≠ .G_FILE_TYPE_UNKNOWN) :
    tracker_indexing_tree_file_is_indexable env priv file .G_FILE_TYPE_UNKNOWN =
      tracker_indexing_tree_file_is_indexable env priv file
        (env.g_file_query_file_type file) := by
  unfold tracker_indexing_tree_file_is_indexable
  rcases hget : tracker_indexing_tree_get_root priv file with ⟨_ | config_file, config_flags⟩
  · rfl
  · rw [hget] at hnostat
    simp only at hnostat
    simp only [hnostat, ne_eq, not_false_eq_true, and_self, if_true, hprobe, false_and,
      if_false]

/-- Under the root `/a` with `NO_STAT` and the file filter `*.tmp`, `/a/junk.tmp` of
unknown kind is probed, found a regular file, and filtered out as one. -/
theorem no_stat_resolves_kind_witness :
    (tracker_indexing_tree_get_root scenario_no_stat ["a", "junk.tmp"]).2 &&&
      TRACKER_DIRECTORY_FLAG_NO_STAT ≠ 0 ∧
    scenario_glob_collaborators.g_file_query_file_type ["a", "junk.tmp"] =
      .G_FILE_TYPE_REGULAR ∧
    tracker_indexing_tree_file_is_indexable scenario_glob_collaborators scenario_no_stat
      ["a", "junk.tmp"] .G_FILE_TYPE_REGULAR = false ∧
    tracker_indexing_tree_file_is_indexable scenario_glob_collaborators scenario_no_stat
        ["a", "junk.tmp"] .G_FILE_TYPE_UNKNOWN =
      tracker_indexing_tree_file_is_indexable scenario_glob_collaborators scenario_no_stat
        ["a", "junk.tmp"]
        (scenario_glob_collaborators.g_file_query_file_type ["a", "junk.tmp"]) :=
  ⟨by decide, rfl, by decide,
    no_stat_resolves_kind scenario_glob_collaborators scenario_no_stat ["a", "junk.tmp"]
      (by decide) (by decide)⟩

/-! ## Shallow nodes -/

/-- C31: after any sequence of add/remove calls starting from a fresh tree, every node
other than the master root (the node at the address `[0]`, whose path is the root of
the engine) has at least one owner and has `shallow = false`; hence the only node that
can be shallow is the master root. -/
theorem only_master_root_shallow (priv : TrackerIndexingTreePrivate) (h : Reachable priv) :
    (∃ root, ([0], root) ∈ priv.config_tree.addresses [] 0 ∧ root.file = priv.root) ∧
    (∀ a n, (a, n) ∈ priv.config_tree.addresses [] 0 → a ≠ [0] →
      n.owners ≠ [] ∧ n.shallow = false) ∧
    (∀ a n, (a, n) ∈ priv.config_tree.addresses [] 0 → n.shallow = true → a = [0]) ∧
    (∀ n ∈ priv.config_tree.datas, n.file ≠ priv.root → n.owners ≠ [] ∧ n.shallow = false) := by
  obtain ⟨root, children, ht, hr, hc⟩ := h.inv.top
  have hsplit : ∀ a n, (a, n) ∈ priv.config_tree.addresses [] 0 →
      a = [0] ∨ n ∈ children.datas := by
    intro a n hmem
    rw [ht] at hmem
    simp only [GNode.addresses, List.nil_append, List.mem_append, List.mem_cons,
      Prod.mk.injEq, List.not_mem_nil, or_false] at hmem
    rcases hmem with hmem | ⟨e, _⟩
    · exact Or.inr (children.addresses_shape [0] 0 _ hmem).2
    · exact Or.inl e
  refine ⟨⟨root, ?_, hr⟩, ?_, ?_, ?_⟩
  · rw [ht]
    simp [GNode.addresses]
  · intro a n hmem hne
    rcases hsplit a n hmem with e | hn
    · exact absurd e hne
    · exact ⟨(hc n hn).2, (hc n hn).1⟩
  · intro a n hmem hsh
    rcases hsplit a n hmem with e | hn
    · exact e
    · have := (hc n hn).1
      rw [hsh] at this
      exact absurd this (by decide)
  · intro n hn hne
    rw [ht] at hn
    simp only [GNode.datas, List.mem_append, List.mem_cons, List.not_mem_nil, or_false] at hn
    rcases hn with hn | hn
    · exact ⟨(hc n hn).2, (hc n hn).1⟩
    · subst hn
      exact absurd hr hne

/-- Scenario 3: in the tree with `/a` and `/a/b` the node for `/a/b`, at `[0, 0, 0]`, has
an owner and is not shallow. -/
theorem only_master_root_shallow_witness :
    Reachable scenario_reparent ∧
    ([0, 0, 0], scenario_reparent_a_b) ∈ scenario_reparent.config_tree.addresses [] 0 ∧
    scenario_reparent_a_b.owners ≠ [] ∧ scenario_reparent_a_b.shallow = false ∧
    (∀ a n, (a, n) ∈ scenario_reparent.config_tree.addresses [] 0 → n.shallow = true →
      a = [0]) :=
  ⟨scenario_reparent_reachable, by decide, by decide, by decide,
    (only_master_root_shallow scenario_reparent scenario_reparent_reachable).2.2.1⟩

/-! ## What `add_filter` changes -/

/-- C39: `add_filter` never rejects a glob string: for every filter list, every kind and
every string `g`, `add_filter (kind, g)` yields the old list with exactly one new entry
of that kind (made from `g`) in front and all existing entries unchanged, and leaves
the policies, the hidden toggle and the tree as they were; consequently every file
matched for any kind before the call is still matched afterwards, and the matches for
the other kinds are unchanged. -/
theorem add_filter_prepends (env : Collaborators) (priv : TrackerIndexingTreePrivate)
    (filter : TrackerFilterType) (glob_string : String) :
    (∃ data : PatternData, data.type = filter ∧ data.pattern = glob_string ∧
      (tracker_indexing_tree_add_filter priv filter glob_string).filter_patterns =
        data :: priv.filter_patterns) ∧
    (tracker_indexing_tree_add_filter priv filter glob_string).policies = priv.policies ∧
    (tracker_indexing_tree_add_filter priv filter glob_string).filter_hidden =
      priv.filter_hidden ∧
    (tracker_indexing_tree_add_filter priv filter glob_string).config_tree =
      priv.config_tree ∧
    (∀ type file, tracker_indexing_tree_file_matches_filter env priv type file = true →
      tracker_indexing_tree_file_matches_filter env
        (tracker_indexing_tree_add_filter priv filter glob_string) type file = true) ∧
    (∀ type file, type ≠ filter →
      tracker_indexing_tree_file_matches_filter env
        (tracker_indexing_tree_add_filter priv filter glob_string) type file =
      tracker_indexing_tree_file_matches_filter env priv type file) := by
  refine ⟨⟨pattern_data_new glob_string filter, rfl, rfl, rfl⟩, rfl, rfl, rfl, ?_, ?_⟩
  · intro type file hm
    simp only [tracker_indexing_tree_file_matches_filter, tracker_indexing_tree_add_filter,
      List.any_cons, Bool.or_eq_true] at hm ⊢
    exact Or.inr hm
  · intro type file hne
    have hne' : ¬ filter = type := fun e => hne e.symm
    simp [tracker_indexing_tree_file_matches_filter, tracker_indexing_tree_add_filter,
      pattern_data_new, hne']

/-! ## `NO_STAT` and the probe -/

/-- C35, at the input where the code departs from it: under the root `/a`, added with
`RECURSE` and `NO_STAT`, and the file filter `*.tmp`, `is_indexable (/a/junk.tmp,
UNKNOWN)` is false when the probe answers "regular file" and true when it answers
"directory", all else being the same: the code queries the file type exactly when
`NO_STAT` is set, where its comment reads "Don't check file type if _NO_STAT is given
in flags". -/
theorem no_stat_consults_probe :
    (tracker_indexing_tree_get_root scenario_no_stat ["a", "junk.tmp"]).2 &&&
      TRACKER_DIRECTORY_FLAG_NO_STAT ≠ 0 ∧
    scenario_glob_collaborators.g_pattern_match_string =
      scenario_directory_collaborators.g_pattern_match_string ∧
    scenario_glob_collaborators.tracker_file_is_hidden =
      scenario_directory_collaborators.tracker_file_is_hidden ∧
    scenario_glob_collaborators.g_file_query_file_type ["a", "junk.tmp"] =
      .G_FILE_TYPE_REGULAR ∧
    scenario_directory_collaborators.g_file_query_file_type ["a", "junk.tmp"] =
      .G_FILE_TYPE_DIRECTORY ∧
    tracker_indexing_tree_file_is_indexable scenario_glob_collaborators scenario_no_stat
      ["a", "junk.tmp"] .G_FILE_TYPE_UNKNOWN = false ∧
    tracker_indexing_tree_file_is_indexable scenario_directory_collaborators scenario_no_stat
      ["a", "junk.tmp"] .G_FILE_TYPE_UNKNOWN = true :=
  ⟨by decide, rfl, rfl, rfl, rfl, by decide, by decide⟩

/-! ## The loop of `clear_filters` -/

theorem filter_eraseIdx_of_not {α : Type} (q : α → Bool) :
    ∀ (l : List α) (i : Nat) (h : i < l.length), q (l.get ⟨i, h⟩) = false →
      (l.eraseIdx i).filter q = l.filter q := by
  intro l
  induction l with
  | nil => intro i h; simp at h
  | cons a l ih =>
    intro i h hq
    cases i with
    | zero =>
      simp only [List.get_eq_getElem, List.getElem_cons_zero] at hq
      simp [List.filter_cons, hq]
    | succ i =>
      simp only [List.get_eq_getElem, List.getElem_cons_succ] at hq
      have := ih i (by simpa using h) (by simpa using hq)
      simp [List.filter_cons, this]

theorem tracker_indexing_tree_clear_filters_loop_ne_none (type : TrackerFilterType) :
    ∀ (filter_patterns : List PatternData) (l : Nat), 1 ≤ l →
      tracker_indexing_tree_clear_filters_loop type filter_patterns l ≠ none := by
  intro filter_patterns l
  induction filter_patterns, l using tracker_indexing_tree_clear_filters_loop.induct type with
  | case1 filter_patterns l h htype hempty =>
    intro hl
    exfalso
    rw [List.isEmpty_iff, List.eraseIdx_eq_nil] at hempty
    rcases hempty with e | ⟨_, e⟩
    · rw [e] at h; simp at h
    · omega
  | case2 filter_patterns l h htype hempty ih =>
    intro _
    rw [tracker_indexing_tree_clear_filters_loop]
    simp only [h, dif_pos, htype, if_true, hempty, if_false]
    exact ih (le_refl 1)
  | case3 filter_patterns l h htype ih =>
    intro _
    rw [tracker_indexing_tree_clear_filters_loop]
    simp only [h, dif_pos, htype, if_false]
    exact ih (by omega)
  | case4 filter_patterns l h =>
    intro _
    rw [tracker_indexing_tree_clear_filters_loop]
    simp [h]

theorem tracker_indexing_tree_clear_filters_loop_eq_none_iff (type : TrackerFilterType)
    (filter_patterns : List PatternData) :
    tracker_indexing_tree_clear_filters_loop type filter_patterns 0 = none ↔
      ∃ data, filter_patterns = [data] ∧ data.type = type := by
  rw [tracker_indexing_tree_clear_filters_loop]
  cases filter_patterns with
  | nil => simp
  | cons data rest =>
    simp only [List.length_cons, Nat.zero_lt_succ, dif_pos, List.get_eq_getElem,
      List.getElem_cons_zero, List.eraseIdx_cons_zero, List.cons.injEq]
    by_cases htype : data.type = type
    · simp only [htype, if_true]
      cases rest with
      | nil => simp [htype]
      | cons data2 rest =>
        have := tracker_indexing_tree_clear_filters_loop_ne_none type (data2 :: rest) 1
          (le_refl 1)
        simp [this]
    · have := tracker_indexing_tree_clear_filters_loop_ne_none type (data :: rest) 1
        (le_refl 1)
      simp only [htype, if_false, Nat.zero_add, this, false_iff, not_exists, not_and]
      rintro x ⟨e, _⟩ hx
      exact htype (e ▸ hx)

theorem tracker_indexing_tree_clear_filters_loop_keeps (type : TrackerFilterType) :
    ∀ (filter_patterns : List PatternData) (l : Nat) (result : List PatternData),
      tracker_indexing_tree_clear_filters_loop type filter_patterns l = some result →
      result.filter (fun data => data.type ≠ type) =
        filter_patterns.filter (fun data => data.type ≠ type) := by
  intro filter_patterns l
  induction filter_patterns, l using tracker_indexing_tree_clear_filters_loop.induct type with
  | case1 filter_patterns l h htype hempty =>
    intro result hres
    rw [tracker_indexing_tree_clear_filters_loop] at hres
    simp only [h, dif_pos, htype, if_true, hempty] at hres
    exact absurd hres (by simp)
  | case2 filter_patterns l h htype hempty ih =>
    intro result hres
    rw [tracker_indexing_tree_clear_filters_loop] at hres
    simp only [h, dif_pos, htype, if_true, hempty, if_false] at hres
    rw [ih result hres]
    exact filter_eraseIdx_of_not _ filter_patterns l h (by simpa using htype)
  | case3 filter_patterns l h htype ih =>
    intro result hres
    rw [tracker_indexing_tree_clear_filters_loop] at hres
    simp only [h, dif_pos, htype, if_false] at hres
    exact ih result hres
  | case4 filter_patterns l h =>
    intro result hres
    rw [tracker_indexing_tree_clear_filters_loop] at hres
    simp only [h, dif_neg, not_false_eq_true, Option.some.injEq] at hres
    rw [hres]

/-- C36, at the input where the code departs from it: with the single file filter `*.a`
in the list, `clear_filters (FILE)` deletes the entry, sets `l` to the new head, which
is `NULL`, and the increment of the loop reads `l->next`: the call has no state
afterwards (`none`).  Wherever the loop does end, what C36 says holds: the entries of
the other kinds are all kept, in their order, and the policies, the hidden toggle and
the tree are as before. -/
theorem clear_filters_frame_unless_emptied :
    scenario_one_file_filter.filter_patterns =
      [{ pattern := "*.a", type := .TRACKER_FILTER_FILE, file := none }] ∧
    (tracker_indexing_tree_clear_filters scenario_one_file_filter .TRACKER_FILTER_FILE).isNone =
      true ∧
    ∀ (priv after : TrackerIndexingTreePrivate) (type : TrackerFilterType),
      tracker_indexing_tree_clear_filters priv type = some after →
      after.filter_patterns.filter (fun data => data.type ≠ type) =
        priv.filter_patterns.filter (fun data => data.type ≠ type) ∧
      after.policies = priv.policies ∧ after.filter_hidden = priv.filter_hidden ∧
      after.config_tree = priv.config_tree ∧ after.root = priv.root := by
  refine ⟨by decide, ?_, ?_⟩
  · have : tracker_indexing_tree_clear_filters_loop .TRACKER_FILTER_FILE
        scenario_one_file_filter.filter_patterns 0 = none :=
      (tracker_indexing_tree_clear_filters_loop_eq_none_iff _ _).2
        ⟨{ pattern := "*.a", type := .TRACKER_FILTER_FILE, file := none }, by decide, rfl⟩
    simp [tracker_indexing_tree_clear_filters, this]
  · intro priv after type hres
    simp only [tracker_indexing_tree_clear_filters, Option.map_eq_some'] at hres
    obtain ⟨result, hloop, rfl⟩ := hres
    exact ⟨tracker_indexing_tree_clear_filters_loop_keeps type _ _ _ hloop, rfl, rfl, rfl, rfl⟩

/-- C37, at the input where the code departs from it: with the single file filter `*.a`
in the list, the loop of `clear_filters (FILE)` deletes the entry at the head and then
steps on from the new head, which is `NULL` (`none`).  This happens exactly when the
list holds a single entry and that entry is of the kind cleared; in every other case
the loop ends with a list. -/
theorem clear_filters_steps_from_null_head :
    tracker_indexing_tree_clear_filters_loop .TRACKER_FILTER_FILE
      [{ pattern := "*.a", type := .TRACKER_FILTER_FILE, file := none }] 0 = none ∧
    ∀ (type : TrackerFilterType) (filter_patterns : List PatternData),
      tracker_indexing_tree_clear_filters_loop type filter_patterns 0 = none ↔
        ∃ data, filter_patterns = [data] ∧ data.type = type :=
  ⟨(tracker_indexing_tree_clear_filters_loop_eq_none_iff _ _).2 ⟨_, rfl, rfl⟩,
    tracker_indexing_tree_clear_filters_loop_eq_none_iff⟩

/-! ## The parent of a new node -/

theorem Inv.found_parent {priv : TrackerIndexingTreePrivate} (h : Inv priv) {p : GFile}
    (hin : g_file_has_prefix p priv.root = true) :
    (find_directory_node priv.config_tree p g_file_has_prefix).isSome = true := by
  obtain ⟨r, c, ht, hr, _⟩ := h.top
  cases hpar : find_directory_node priv.config_tree p g_file_has_prefix with
  | some fd => rfl
  | none =>
    have := (find_directory_node_eq_none_iff _ _ _).1 hpar r (by rw [ht]; simp [GNode.datas])
    rw [hr, hin] at this
    exact absurd this (by decide)

/-- C34, at the input where the code departs from it: on an engine whose master root is
`/home`, `/etc` has no node and no node holds it, so the search for the parent returns
`NULL`; `add (/etc, RECURSE, o)` leaves the tree as it was, `/etc` is not a root
afterwards, and `directory-added (/etc)` is emitted all the same.  For a path strictly
inside the master root (any path but `/` under the default root) the search always
returns a node. -/
theorem add_outside_master_root_finds_no_parent :
    Reachable scenario_home ∧
    scenario_home.root = ["home"] ∧
    (∀ x ∈ scenario_home.config_tree.datas, x.file ≠ ["etc"]) ∧
    find_directory_node scenario_home.config_tree ["etc"] g_file_has_prefix = none ∧
    (tracker_indexing_tree_add scenario_home ["etc"] TRACKER_DIRECTORY_FLAG_RECURSE
      "o").1.config_tree = scenario_home.config_tree ∧
    (tracker_indexing_tree_add scenario_home ["etc"] TRACKER_DIRECTORY_FLAG_RECURSE "o").2 =
      [Signal.directory_added ["etc"]] ∧
    tracker_indexing_tree_file_is_root
      (tracker_indexing_tree_add scenario_home ["etc"] TRACKER_DIRECTORY_FLAG_RECURSE "o").1
      ["etc"] = false ∧
    ∀ (priv : TrackerIndexingTreePrivate) (p : GFile), Reachable priv →
      g_file_has_prefix p priv.root = true →
      (find_directory_node priv.config_tree p g_file_has_prefix).isSome = true :=
  ⟨Reachable.constructed _, rfl, by decide, by decide, by decide, by decide, by decide,
    fun _ _ h hin => h.inv.found_parent hin⟩

/-! ## Owners without a name -/

/-- C32, as it is written, fails: on a fresh tree `add (/a, RECURSE, "")` creates the
node for `/a` with the owner entry `("", RECURSE)` and emits `directory-added (/a)`. -/
theorem add_empty_owner_not_rejected :
    tracker_indexing_tree_new.config_tree.datas = [scenario_fresh_root] ∧
    (tracker_indexing_tree_add tracker_indexing_tree_new ["a"] TRACKER_DIRECTORY_FLAG_RECURSE
      "").1.config_tree.datas =
      [{ file := ["a"], flags := 2, shallow := false, owners := [{ name := "", flags := 2 }] },
        scenario_fresh_root] ∧
    (tracker_indexing_tree_add tracker_indexing_tree_new ["a"] TRACKER_DIRECTORY_FLAG_RECURSE
      "").1.config_tree ≠ tracker_indexing_tree_new.config_tree ∧
    (tracker_indexing_tree_add tracker_indexing_tree_new ["a"] TRACKER_DIRECTORY_FLAG_RECURSE
      "").2 = [Signal.directory_added ["a"]] := by
  decide

theorem Inv.add_owner_datas {priv : TrackerIndexingTreePrivate} (hinv : Inv priv) (p : GFile)
    (f : Nat) (o : String) (d : NodeData) (hd : d ∈ priv.config_tree.datas) (hp : d.file = p) :
    ∃ d' ∈ (tracker_indexing_tree_add priv p f o).1.config_tree.datas,
      d'.file = p ∧ d'.shallow = false ∧ d'.owners = { name := o, flags := f } :: d.owners ∧
      d'.flags = node_get_flags d' := by
  obtain ⟨fd, hfind, hfd⟩ := hinv.found_equal hd hp
  subst hfd
  have htree : (tracker_indexing_tree_add priv p f o).1.config_tree =
      priv.config_tree.map (fun x => if x.file = p then
        (node_update_flags { fd.data with
          shallow := false
          owners := node_owner_data_new o f :: fd.data.owners }).1 else x) := by
    simp only [tracker_indexing_tree_add, hfind]
    exact g_node_replace_found_eq_map _ _ _ _ hfind hinv.wf.nodup_files
  refine ⟨(node_update_flags { fd.data with
      shallow := false
      owners := node_owner_data_new o f :: fd.data.owners }).1, ?_, ?_, ?_, ?_, ?_⟩
  · rw [htree, GNode.datas_map, List.mem_map]
    exact ⟨fd.data, hd, by simp [hp]⟩
  · simp [node_update_flags_fst, hp]
  · simp [node_update_flags_fst]
  · simp [node_update_flags_fst, node_owner_data_new]
  · simp [node_update_flags_fst, node_get_flags]

/-- C32, amended: `add` called with an empty owner name is not rejected, the empty name
is an owner name like any other: for every reachable tree, every path at or inside the
master root and all flags, after `add (path, flags, "")` the tree has a non-shallow node
for `path` whose first owner entry is `("", flags)`: the node that was there, with the
entry put in front of its owners, or else a new node with that single owner, for which
`directory-added (path)` is emitted. -/
theorem add_empty_owner_registers (priv : TrackerIndexingTreePrivate) (h : Reachable priv)
    (p : GFile) (f : Nat) (hin : priv.root <+: p) :
    (∀ d ∈ priv.config_tree.datas, d.file = p →
      ∃ d' ∈ (tracker_indexing_tree_add priv p f "").1.config_tree.datas,
        d'.file = p ∧ d'.shallow = false ∧ d'.owners = { name := "", flags := f } :: d.owners) ∧
    ((∀ d ∈ priv.config_tree.datas, d.file ≠ p) →
      ({ file := p, flags := f, shallow := false, owners := [{ name := "", flags := f }] } :
          NodeData) ∈ (tracker_indexing_tree_add priv p f "").1.config_tree.datas ∧
      (tracker_indexing_tree_add priv p f "").2 = [Signal.directory_added p]) := by
  have hinv := h.inv
  constructor
  · intro d hd hp
    obtain ⟨d', hmem, h1, h2, h3, _⟩ := hinv.add_owner_datas p f "" d hd hp
    exact ⟨d', hmem, h1, h2, h3⟩
  · intro hnew
    obtain ⟨r, c, ht, hr, _⟩ := hinv.top
    have hne : p ≠ priv.root := by
      intro e
      exact hnew r (by rw [ht]; simp [GNode.datas]) (by rw [hr, e])
    have hin' : g_file_has_prefix p priv.root = true :=
      (g_file_has_prefix_iff _ _).2 ⟨hin, hne⟩
    obtain ⟨_, _, _, _, _, hperm, hsig⟩ := hinv.add_new_node_edges p f "" _ rfl hin' hnew
    exact ⟨hperm.mem_iff.2 (List.mem_cons_self _ _), hsig⟩

/-- On a fresh tree `/a` has no node, and `add (/a, RECURSE, "")` creates it. -/
theorem add_empty_owner_registers_witness :
    Reachable tracker_indexing_tree_new ∧
    tracker_indexing_tree_new.root <+: ["a"] ∧
    (∀ d ∈ tracker_indexing_tree_new.config_tree.datas, d.file ≠ ["a"]) ∧
    ({ file := ["a"], flags := 2, shallow := false, owners := [{ name := "", flags := 2 }] } :
        NodeData) ∈
      (tracker_indexing_tree_add tracker_indexing_tree_new ["a"] 2 "").1.config_tree.datas ∧
    (tracker_indexing_tree_add tracker_indexing_tree_new ["a"] 2 "").2 =
      [Signal.directory_added ["a"]] :=
  ⟨Reachable.constructed none, List.nil_prefix, by decide,
    (add_empty_owner_registers tracker_indexing_tree_new (Reachable.constructed none) ["a"] 2
      List.nil_prefix).2 (by decide)⟩

/-! ## Flags after an owner is added or removed -/

theorem node_get_flags_loop_eq_foldr (owners : List NodeOwnerData) (flags : Nat) :
    node_get_flags_loop flags owners = flags ||| (owners.map (·.flags)).foldr (· ||| ·) 0 := by
  induction owners generalizing flags with
  | nil => simp [node_get_flags_loop]
  | cons owner_data rest ih =>
    simp only [node_get_flags_loop, ih, List.map_cons, List.foldr_cons, Nat.lor_assoc]

theorem node_get_flags_eq_derived_flags (data : NodeData) :
    node_get_flags data = derived_flags data.owners := by
  simp [node_get_flags, derived_flags, node_get_flags_loop_eq_foldr]

theorem Inv.remove_owner_datas {priv : TrackerIndexingTreePrivate} (hinv : Inv priv)
    (p : GFile) (o : String) (d : NodeData) (hd : d ∈ priv.config_tree.datas)
    (hp : d.file = p) (ho : ∃ w ∈ d.owners, w.name = o)
    (hrem : d.owners.eraseP (fun w => decide (w.name = o)) ≠ []) :
    ∃ d' ∈ (tracker_indexing_tree_remove priv p o).1.config_tree.datas,
      d'.file = p ∧ d'.owners = d.owners.eraseP (fun w => decide (w.name = o)) ∧
      d'.flags = node_get_flags d' := by
  obtain ⟨fd, hfind, hfd⟩ := hinv.found_equal hd hp
  subst hfd
  obtain ⟨i, hi⟩ := g_list_find_custom_of_mem _ _ ho
  have herase := g_list_remove_link_eq_eraseP _ _ _ hi
  have hlen : ¬ (g_list_remove_link fd.data.owners i).length = 0 := by
    rw [herase]
    simpa using hrem
  have htree : (tracker_indexing_tree_remove priv p o).1.config_tree =
      priv.config_tree.map (fun x => if x.file = p then
        (node_update_flags { fd.data with
          owners := g_list_remove_link fd.data.owners i }).1 else x) := by
    simp only [tracker_indexing_tree_remove, hfind, hi, hlen, if_false]
    exact g_node_replace_found_eq_map _ _ _ _ hfind hinv.wf.nodup_files
  refine ⟨(node_update_flags { fd.data with
      owners := g_list_remove_link fd.data.owners i }).1, ?_, ?_, ?_, ?_⟩
  · rw [htree, GNode.datas_map, List.mem_map]
    exact ⟨fd.data, hd, by simp [hp]⟩
  · simp [node_update_flags_fst, hp]
  · simp [node_update_flags_fst, herase]
  · simp [node_update_flags_fst, node_get_flags]

/-- C33: for every reachable tree and every node `d` of it, with path `p`: immediately
after `add (p, f, o)`, and immediately after a `remove (p, o)` that takes an owner away
and leaves at least one, the stored flags of the node for `p` equal the OR of the flags
of all its owners, with `MONITOR` cleared if `IGNORE` is in that OR. -/
theorem flags_derived_after_update (priv : TrackerIndexingTreePrivate) (h : Reachable priv)
    (p : GFile) (d : NodeData) (hd : d ∈ priv.config_tree.datas) (hp : d.file = p) :
    (∀ (f : Nat) (o : String),
      ∃ d' ∈ (tracker_indexing_tree_add priv p f o).1.config_tree.datas,
        d'.file = p ∧ d'.owners = { name := o, flags := f } :: d.owners ∧
        d'.flags = derived_flags d'.owners) ∧
    (∀ o : String, (∃ w ∈ d.owners, w.name = o) →
      d.owners.eraseP (fun w => decide (w.name = o)) ≠ [] →
      ∃ d' ∈ (tracker_indexing_tree_remove priv p o).1.config_tree.datas,
        d'.file = p ∧ d'.owners = d.owners.eraseP (fun w => decide (w.name = o)) ∧
        d'.flags = derived_flags d'.owners) := by
  have hinv := h.inv
  constructor
  · intro f o
    obtain ⟨d', hmem, h1, _, h3, h4⟩ := hinv.add_owner_datas p f o d hd hp
    exact ⟨d', hmem, h1, h3, by rw [h4, node_get_flags_eq_derived_flags]⟩
  · intro o ho hrem
    obtain ⟨d', hmem, h1, h2, h3⟩ := hinv.remove_owner_datas p o d hd hp ho hrem
    exact ⟨d', hmem, h1, h2, by rw [h3, node_get_flags_eq_derived_flags]⟩

/-- Scenario 5: `/x` is added by `app` with `MONITOR` and then by `user` with `IGNORE`;
the flags of `/x` are then exactly `IGNORE`, and `/x/file` is not indexable. -/
theorem flags_derived_after_update_witness :
    Reachable scenario_monitor ∧
    scenario_monitor_node ∈ scenario_monitor.config_tree.datas ∧
    scenario_monitor_node.file = ["x"] ∧
    derived_flags [{ name := "user", flags := 16 }, { name := "app", flags := 8 }] =
      TRACKER_DIRECTORY_FLAG_IGNORE ∧
    tracker_indexing_tree_get_root
      (tracker_indexing_tree_add scenario_monitor ["x"] TRACKER_DIRECTORY_FLAG_IGNORE "user").1
      ["x"] = (some ["x"], TRACKER_DIRECTORY_FLAG_IGNORE) ∧
    tracker_indexing_tree_file_is_indexable scenario_glob_collaborators
      (tracker_indexing_tree_add scenario_monitor ["x"] TRACKER_DIRECTORY_FLAG_IGNORE "user").1
      ["x", "file"] .G_FILE_TYPE_REGULAR = false ∧
    (∃ d' ∈ (tracker_indexing_tree_add scenario_monitor ["x"] TRACKER_DIRECTORY_FLAG_IGNORE
        "user").1.config_tree.datas,
      d'.file = ["x"] ∧
      d'.owners = { name := "user", flags := TRACKER_DIRECTORY_FLAG_IGNORE } ::
        scenario_monitor_node.owners ∧
      d'.flags = derived_flags d'.owners) :=
  ⟨Reachable.add (Reachable.constructed none) _ _ _, by decide, rfl, by decide, by decide,
    by decide,
    (flags_derived_after_update scenario_monitor
      (Reachable.add (Reachable.constructed none) _ _ _) ["x"] scenario_monitor_node
      (by decide) rfl).1 TRACKER_DIRECTORY_FLAG_IGNORE "user"⟩

/-! ## The order of `list_roots` -/

/-- In the post order of a chain every node comes after the nodes below it. -/
theorem GNode.datas_below_first (F : GNode) (up : List Nat) (i : Nat) :
    ∀ ea ∈ F.addresses up i, ∀ eb ∈ F.addresses up i, ea.1 <+: eb.1 → ea.1 ≠ eb.1 →
      ∃ l1 l2 l3, F.datas = l1 ++ eb.2 :: l2 ++ ea.2 :: l3 := by
  induction F generalizing up i with
  | null => intro ea he; simp [GNode.addresses] at he
  | node d c n ihc ihn =>
    intro ea ha eb hb hpre hne
    simp only [GNode.addresses, List.mem_append, List.mem_cons] at ha hb
    simp only [GNode.datas]
    rcases ha with ha | ha | ha
    · obtain ⟨⟨ja, ra, _, ea1⟩, _⟩ := c.addresses_shape (up ++ [i]) 0 ea ha
      rcases hb with hb | hb | hb
      · obtain ⟨l1, l2, l3, e⟩ := ihc (up ++ [i]) 0 ea ha eb hb hpre hne
        exact ⟨l1, l2, l3 ++ d :: n.datas, by simp [e]⟩
      · exfalso
        subst hb
        have := hpre.length_le
        simp [ea1] at this
      · exfalso
        obtain ⟨⟨jb, rb, hjb, eb1⟩, _⟩ := n.addresses_shape up (i + 1) eb hb
        rw [ea1, eb1, List.append_assoc, List.singleton_append] at hpre
        have := address_prefix_index hpre
        omega
    · subst ha
      rcases hb with hb | hb | hb
      · obtain ⟨_, hmem⟩ := c.addresses_shape (up ++ [i]) 0 eb hb
        obtain ⟨l1, l2, e⟩ := List.append_of_mem hmem
        exact ⟨l1, l2, n.datas, by simp [e]⟩
      · exfalso
        subst hb
        exact hne rfl
      · exfalso
        obtain ⟨⟨jb, rb, hjb, eb1⟩, _⟩ := n.addresses_shape up (i + 1) eb hb
        simp only at hpre
        rw [eb1, ← List.singleton_append, ← List.append_assoc] at hpre
        have hpre' : up ++ i :: [] <+: up ++ jb :: rb := by
          simpa using hpre
        have := address_prefix_index hpre'
        omega
    · obtain ⟨⟨ja, ra, hja, ea1⟩, _⟩ := n.addresses_shape up (i + 1) ea ha
      rcases hb with hb | hb | hb
      · exfalso
        obtain ⟨⟨jb, rb, _, eb1⟩, _⟩ := c.addresses_shape (up ++ [i]) 0 eb hb
        rw [ea1, eb1, List.append_assoc, List.singleton_append] at hpre
        have := address_prefix_index hpre
        omega
      · exfalso
        subst hb
        simp only at hpre
        rw [ea1] at hpre
        have hpre' : up ++ ja :: ra <+: up ++ i :: [] := by
          simpa using hpre
        have := address_prefix_index hpre'
        omega
      · obtain ⟨l1, l2, l3, e⟩ := ihn up (i + 1) ea ha eb hb hpre hne
        exact ⟨c.datas ++ d :: l1, l2, l3, by simp [e]⟩

/-- C38: for every reachable tree, `list_roots ()` has as many elements as the tree has
nodes, its first element is the path of the master root, and the path of every node
appears before the paths of all the descendants of that node (the nodes whose address
starts with the address of that node). -/
theorem list_roots_parents_first (priv : TrackerIndexingTreePrivate) (h : Reachable priv) :
    (tracker_indexing_tree_list_roots priv).length =
      (priv.config_tree.addresses [] 0).length ∧
    (tracker_indexing_tree_list_roots priv).head? = some priv.root ∧
    ∀ a n b m, (a, n) ∈ priv.config_tree.addresses [] 0 →
      (b, m) ∈ priv.config_tree.addresses [] 0 → a <+: b → a ≠ b →
      ∃ l1 l2 l3, tracker_indexing_tree_list_roots priv = l1 ++ n.file :: l2 ++ m.file :: l3 := by
  refine ⟨?_, ?_, ?_⟩
  · simp only [tracker_indexing_tree_list_roots, List.length_reverse, List.length_map]
    rw [← GNode.addresses_map_snd priv.config_tree [] 0, List.length_map]
  · obtain ⟨r, c, ht, hr, _⟩ := h.inv.top
    simp [tracker_indexing_tree_list_roots, ht, GNode.datas, hr]
  · intro a n b m ha hb hpre hne
    obtain ⟨l1, l2, l3, e⟩ := priv.config_tree.datas_below_first [] 0 (a, n) ha (b, m) hb hpre hne
    refine ⟨(l3.map (·.file)).reverse, (l2.map (·.file)).reverse, (l1.map (·.file)).reverse, ?_⟩
    simp only at e
    simp [tracker_indexing_tree_list_roots, e]

/-- Scenario 3: with `/a` and `/a/b` in the tree, `list_roots ()` is `/`, `/a`, `/a/b`. -/
theorem list_roots_parents_first_witness :
    Reachable scenario_reparent ∧
    tracker_indexing_tree_list_roots scenario_reparent = [[], ["a"], ["a", "b"]] ∧
    ([0, 0], scenario_reparent_a) ∈ scenario_reparent.config_tree.addresses [] 0 ∧
    ([0, 0, 0], scenario_reparent_a_b) ∈ scenario_reparent.config_tree.addresses [] 0 ∧
    (tracker_indexing_tree_list_roots scenario_reparent).length =
      (scenario_reparent.config_tree.addresses [] 0).length ∧
    (tracker_indexing_tree_list_roots scenario_reparent).head? = some scenario_reparent.root :=
  ⟨scenario_reparent_reachable, by decide, by decide, by decide,
    (list_roots_parents_first scenario_reparent scenario_reparent_reachable).1,
    (list_roots_parents_first scenario_reparent scenario_reparent_reachable).2.1⟩

end Tracker
